import Mathlib

/-!
# Block mapping of the BFS nameserver

A shallow embedding of `src/nameserver/block_mapping.cc` (class `BlockMapping`)
and of the handlers `BlockReport`, `PullBlockReport` and `FinishBlock` of
`src/nameserver/nameserver_impl.cc`, with statements about them.

Modelling conventions.

* `std::set<int32_t>` and `std::set<int64_t>` are finite sets of integers
  (`Finset Int`): `insert`, `erase`, `find`, `empty` and `size` are the set
  operations of the same name, iteration is in ascending order.
* `std::map<K, V>` is a partial function `Int → Option V`; `find` is
  application, `erase` maps the key to `none`, assignment overrides one key.
  Each key of `_block_map` owns its own heap record, so a record is stored by
  value.
* Every public method takes the mutex for its whole body, so a method is a
  function from the state before the call to the state after it.
* Integers are mathematical integers.  The arithmetic of the methods
  embedded here is `expect_replica_num - cur_replica_num` in a branch where
  `1 ≤ cur_replica_num < expect_replica_num`, which cannot overflow, the
  narrowing of `replica.size()` to `int32_t`, which is the identity for sets of
  fewer than `2^31` chunkservers, and the two `int64_t` increments
  `_next_block_id++` and `block_id + 1`: an increment of `INT64_MAX` wraps to
  `INT64_MIN`, as in the compiled code (`inc64`).
* A failed `assert` ends the process: the method has the `none` result.
-/

namespace bfs

/-- Record of one block, `BlockMapping::NSBlock`: the fields the methods of
`block_mapping.cc` and `nameserver_impl.cc` read and write, and `id`, the
argument of the constructor `NSBlock(block_id)`. -/
structure NSBlock where
  id : Int
  version : Int
  replica : Finset Int
  block_size : Int
  expect_replica_num : Int
  pending_change : Bool
  pulling_chunkservers : Finset Int
deriving DecidableEq

/-- State of a `BlockMapping` object: the data members guarded by `_mu`. -/
structure BlockMapping where
  _next_block_id : Int
  _block_map : Int → Option NSBlock
  _blocks_to_replicate : Int → Option (Finset Int)

namespace BlockMapping

/-- Assignment through an iterator or `operator[]`: override one key of a map. -/
def store {V : Type} (m : Int → Option V) (k : Int) (v : V) : Int → Option V :=
  fun j => if j = k then some v else m j

/-- Removal of one key, `std::map::erase`. -/
def unset {V : Type} (m : Int → Option V) (k : Int) : Int → Option V :=
  fun j => if j = k then none else m j

/-- The `return` statement through which `UpdateBlockInfo` leaves. -/
inductive Exit where
  /-- Line 121: the block is not in `_block_map`. -/
  | removed
  /-- Line 129: stored and reported version are both set and differ. -/
  | version_mismatch
  /-- Lines 135-136: `assert(0)` on a size conflict (process abort; `return false`
  when assertions are compiled out). -/
  | size_mismatch
  /-- Line 157: too many replicas, the reporter is erased again. -/
  | too_much_replica
  /-- Line 168: the report is accepted. -/
  | accepted
deriving DecidableEq

/-- What a call of `UpdateBlockInfo` leaves behind: the state, the returned
`bool`, the value behind the `more_replica_num` pointer (`none` for a null
pointer) and the `return` statement taken. -/
structure UpdateResult where
  state : BlockMapping
  ret : Bool
  more_replica_num : Option Int
  exit : Exit

/-- Lines 147-168 of `UpdateBlockInfo`: insertion of the reporter into
`replica` and the repair decision, on the record `nsblock` as the version and
size steps left it. -/
def UpdateBlockInfo.replicaStep (s : BlockMapping) (id server_id : Int) (nsblock : NSBlock)
    (more_replica_num : Option Int) : UpdateResult :=
  let nsblock1 : NSBlock := { nsblock with replica := insert server_id nsblock.replica }
  let cur_replica_num : Int := nsblock1.replica.card
  let expect_replica_num : Int := nsblock1.expect_replica_num
  if cur_replica_num ≠ expect_replica_num then
    if nsblock1.pending_change = false then
      let nsblock2 : NSBlock := { nsblock1 with pending_change := true }
      if cur_replica_num > expect_replica_num then
        let nsblock3 : NSBlock := { nsblock2 with replica := nsblock2.replica.erase server_id }
        ⟨{ s with _block_map := store s._block_map id nsblock3 }, false,
          more_replica_num, .too_much_replica⟩
      else
        ⟨{ s with _block_map := store s._block_map id nsblock2 }, true,
          more_replica_num.map (fun _ => expect_replica_num - cur_replica_num), .accepted⟩
    else
      ⟨{ s with _block_map := store s._block_map id nsblock1 }, true,
        more_replica_num, .accepted⟩
  else
    ⟨{ s with _block_map := store s._block_map id nsblock1 }, true,
      more_replica_num, .accepted⟩

/-- Embedding of `BlockMapping::UpdateBlockInfo` (lines 113-169).
`more_replica_num` is the out-parameter: `none` is the null pointer,
`some m` a pointer to a caller variable holding `m`. -/
def UpdateBlockInfo (s : BlockMapping) (id server_id block_size block_version : Int)
    (more_replica_num : Option Int) : UpdateResult :=
  match s._block_map id with
  | none => ⟨s, false, more_replica_num, .removed⟩
  | some nsblock =>
    if nsblock.version ≥ 0 ∧ block_version ≥ 0 ∧ nsblock.version ≠ block_version then
      ⟨s, false, more_replica_num, .version_mismatch⟩
    else if nsblock.block_size ≠ block_size ∧ block_size ≠ 0 then
      if nsblock.block_size ≠ 0 then
        ⟨s, false, more_replica_num, .size_mismatch⟩
      else
        UpdateBlockInfo.replicaStep s id server_id { nsblock with block_size := block_size }
          more_replica_num
    else
      UpdateBlockInfo.replicaStep s id server_id nsblock more_replica_num

/-- Embedding of `BlockMapping::RemoveBlock` (lines 181-190). -/
def RemoveBlock (s : BlockMapping) (block_id : Int) : BlockMapping :=
  match s._block_map block_id with
  | none => s
  | some _ => { s with _block_map := unset s._block_map block_id }

/-- Embedding of `BlockMapping::MarkPullBlock` (lines 192-207): the state after
the call and the returned `bool`; `none` when `assert(it != _block_map.end())`
fails. -/
def MarkPullBlock (s : BlockMapping) (dst_cs block_id : Int) : Option (BlockMapping × Bool) :=
  match s._block_map block_id with
  | none => none
  | some nsblock =>
    if dst_cs ∉ nsblock.pulling_chunkservers then
      let nsblock1 : NSBlock :=
        { nsblock with pulling_chunkservers := insert dst_cs nsblock.pulling_chunkservers }
      some ({ s with
                _block_map := store s._block_map block_id nsblock1
                _blocks_to_replicate := store s._blocks_to_replicate dst_cs
                  (insert block_id ((s._blocks_to_replicate dst_cs).getD ∅)) }, true)
    else
      some (s, false)

/-- Embedding of `BlockMapping::UnmarkPullBlock` (lines 209-224). -/
def UnmarkPullBlock (s : BlockMapping) (cs_id block_id : Int) : BlockMapping :=
  match s._block_map block_id with
  | some nsblock =>
    let nsblock1 : NSBlock :=
      { nsblock with pulling_chunkservers := nsblock.pulling_chunkservers.erase cs_id }
    let nsblock2 : NSBlock :=
      if nsblock1.pulling_chunkservers = ∅ ∧ nsblock1.pending_change = true then
        { nsblock1 with pending_change := false }
      else nsblock1
    let nsblock3 : NSBlock := { nsblock2 with replica := insert cs_id nsblock2.replica }
    { s with _block_map := store s._block_map block_id nsblock3 }
  | none => s

/-- The loop of `GetPullBlocks` (lines 231-234) over the queued block ids in
iteration order: each id is pushed back with the replica set of its record.
`_block_map[id]` on an id without record yields a null pointer, whose
dereference is the `none` result. -/
def GetPullBlocks.loop (block_map : Int → Option NSBlock) :
    List Int → List (Int × Finset Int) → Option (List (Int × Finset Int))
  | [], blocks => some blocks
  | block_it :: rest, blocks =>
    match block_map block_it with
    | none => none
    | some nsblock => GetPullBlocks.loop block_map rest (blocks ++ [(block_it, nsblock.replica)])

/-- Embedding of `BlockMapping::GetPullBlocks` (lines 226-239): the state after
the call, the returned `bool` and the vector behind `blocks`, which holds
`blocks` on entry. -/
def GetPullBlocks (s : BlockMapping) (id : Int) (blocks : List (Int × Finset Int)) :
    Option (BlockMapping × Bool × List (Int × Finset Int)) :=
  match s._blocks_to_replicate id with
  | some queued =>
    match GetPullBlocks.loop s._block_map (queued.sort (· ≤ ·)) blocks with
    | none => none
    | some blocks1 =>
      some ({ s with _blocks_to_replicate := unset s._blocks_to_replicate id }, true, blocks1)
  | none => some (s, false, blocks)

/-- Record of block 11 in scenario 5: `replica = {1,2,3}`, two replicas
expected, no change pending. -/
def block11 : NSBlock where
  id := 11
  version := 0
  replica := {1, 2, 3}
  block_size := 0
  expect_replica_num := 2
  pending_change := false
  pulling_chunkservers := ∅

/-- Index holding only `block11`. -/
def overReplicated : BlockMapping where
  _next_block_id := 12
  _block_map := store (fun _ => none) 11 block11
  _blocks_to_replicate := fun _ => none

/-- Index holding only block 11 with a change pending: `replica = {1,2,3}`, two
replicas expected, nobody pulling. -/
def overPending : BlockMapping where
  _next_block_id := 12
  _block_map := store (fun _ => none) 11 { block11 with pending_change := true }
  _blocks_to_replicate := fun _ => none

/-- Record of block 7 in scenario 3: `replica = {1,2}`, three replicas
expected, no change pending. -/
def block7 : NSBlock where
  id := 7
  version := 0
  replica := {1, 2}
  block_size := 0
  expect_replica_num := 3
  pending_change := false
  pulling_chunkservers := ∅

/-- Index holding only `block7`. -/
def underReplicated : BlockMapping where
  _next_block_id := 8
  _block_map := store (fun _ => none) 7 block7
  _blocks_to_replicate := fun _ => none

/-- Record of block 7 in scenario 3 once chunkserver 5 is instructed to pull
it: `replica = {1,2}`, `pulling = {5}`, change pending. -/
def block7pulling : NSBlock where
  id := 7
  version := 0
  replica := {1, 2}
  block_size := 0
  expect_replica_num := 3
  pending_change := true
  pulling_chunkservers := {5}

/-- Index holding only `block7pulling`, with block 7 queued for chunkserver 5. -/
def pulling7 : BlockMapping where
  _next_block_id := 8
  _block_map := store (fun _ => none) 7 block7pulling
  _blocks_to_replicate := store (fun _ => none) 5 {7}

/-- A sequence of `UpdateBlockInfo` calls, each given as
`(id, server_id, block_size, block_version, more_replica_num)`; the state after
the last one. -/
def UpdateBlockInfos (s : BlockMapping) :
    List (Int × Int × Int × Int × Option Int) → BlockMapping
  | [] => s
  | (id, server_id, block_size, block_version, more_replica_num) :: rest =>
    UpdateBlockInfos
      (UpdateBlockInfo s id server_id block_size block_version more_replica_num).state rest

/-! ## The other methods of `BlockMapping` -/

/-- Largest `int64_t`. -/
def INT64_MAX : Int := 2 ^ 63 - 1

/-- Smallest `int64_t`. -/
def INT64_MIN : Int := -(2 ^ 63)

/-- The `int64_t` increments `_next_block_id++` (line 21) and `block_id + 1`
(line 109): below `INT64_MAX` the successor, from `INT64_MAX` on the sum taken
modulo `2 ^ 64` in two's complement, so that `INT64_MAX` goes to `INT64_MIN`. -/
def inc64 (x : Int) : Int :=
  if x < INT64_MAX then x + 1 else (x + 1 + 2 ^ 63) % 2 ^ 64 - 2 ^ 63

/-- State after the constructor `BlockMapping()` (line 17): the empty index. -/
def init : BlockMapping where
  _next_block_id := 1
  _block_map := fun _ => none
  _blocks_to_replicate := fun _ => none

/-- Initial values of the scalar members of a record. The constructor
`NSBlock(block_id)` is declared in `block_mapping.h`; the values it gives to
`version`, `block_size`, `expect_replica_num` (the flag `default_replica_num`)
and `pending_change` are parameters of the embedding. -/
structure NSBlockInit where
  version : Int
  block_size : Int
  expect_replica_num : Int
  pending_change : Bool

/-- Modelled from the spec: the constructor `NSBlock(block_id)` of
`block_mapping.h`. The record carries the id, the two sets are
default-constructed and so empty (spec 4.F: replica sets start empty), and the
scalar members take the values of `d`. -/
def NSBlock.create (d : NSBlockInit) (block_id : Int) : NSBlock where
  id := block_id
  version := d.version
  replica := ∅
  block_size := d.block_size
  expect_replica_num := d.expect_replica_num
  pending_change := d.pending_change
  pulling_chunkservers := ∅

/-- Embedding of `BlockMapping::NewBlockID` (lines 19-22): the state after the
call and the returned id. -/
def NewBlockID (s : BlockMapping) : BlockMapping × Int :=
  ({ s with _next_block_id := inc64 s._next_block_id }, s._next_block_id)

/-- Embedding of `BlockMapping::GetBlock` (lines 24-34): the copy of the
record, `none` for the `false` return. -/
def GetBlock (s : BlockMapping) (block_id : Int) : Option NSBlock :=
  s._block_map block_id

/-- Embedding of `BlockMapping::MarkBlockStable` (lines 36-49). -/
def MarkBlockStable (s : BlockMapping) (block_id : Int) : BlockMapping × Bool :=
  match s._block_map block_id with
  | some nsblock =>
    ({ s with _block_map := store s._block_map block_id { nsblock with pending_change := false } },
      true)
  | none => (s, false)

/-- Embedding of `BlockMapping::GetReplicaLocation` (lines 51-65): the returned
`bool` and the set behind `chunkserver_id`, which holds `chunkserver_id` on
entry. -/
def GetReplicaLocation (s : BlockMapping) (id : Int) (chunkserver_id : Finset Int) :
    Bool × Finset Int :=
  match s._block_map id with
  | some nsblock => (true, nsblock.replica)
  | none => (false, chunkserver_id)

/-- Lines 76-81 of `DealDeadBlocks`: what is done to one record. -/
def DealDeadBlocks.purge (id : Int) (nsblock : NSBlock) : NSBlock :=
  let nsblock1 : NSBlock := { nsblock with replica := nsblock.replica.erase id }
  let nsblock2 : NSBlock :=
    { nsblock1 with pulling_chunkservers := nsblock1.pulling_chunkservers.erase id }
  if nsblock2.pulling_chunkservers = ∅ ∧ nsblock2.pending_change = true then
    { nsblock2 with pending_change := false }
  else nsblock2

/-- The loop of `DealDeadBlocks` (lines 70-83) over the block ids in iteration
order. -/
def DealDeadBlocks.loop (id : Int) :
    List Int → (Int → Option NSBlock) → (Int → Option NSBlock)
  | [], block_map => block_map
  | it :: rest, block_map =>
    match block_map it with
    | some nsblock =>
      DealDeadBlocks.loop id rest (store block_map it (DealDeadBlocks.purge id nsblock))
    | none => DealDeadBlocks.loop id rest block_map

/-- Embedding of `BlockMapping::DealDeadBlocks` (lines 67-85). -/
def DealDeadBlocks (s : BlockMapping) (id : Int) (blocks : Finset Int) : BlockMapping :=
  { s with
    _block_map := DealDeadBlocks.loop id (blocks.sort (· ≤ ·)) s._block_map
    _blocks_to_replicate := unset s._blocks_to_replicate id }

/-- Embedding of `BlockMapping::ChangeReplicaNum` (lines 87-97); `none` for
`assert(0)` on an id without record. -/
def ChangeReplicaNum (s : BlockMapping) (block_id replica_num : Int) :
    Option (BlockMapping × Bool) :=
  match s._block_map block_id with
  | none => none
  | some nsblock =>
    some ({ s with
            _block_map := store s._block_map block_id
              { nsblock with expect_replica_num := replica_num } }, true)

/-- Embedding of `BlockMapping::AddNewBlock` (lines 99-111); `none` when
`assert(it == _block_map.end())` fails. -/
def AddNewBlock (d : NSBlockInit) (s : BlockMapping) (block_id : Int) : Option BlockMapping :=
  match s._block_map block_id with
  | some _ => none
  | none =>
    let block_map1 := store s._block_map block_id (NSBlock.create d block_id)
    if s._next_block_id ≤ block_id then
      some { s with _block_map := block_map1, _next_block_id := inc64 block_id }
    else
      some { s with _block_map := block_map1 }

/-- Embedding of `BlockMapping::SetBlockVersion` (lines 241-252). -/
def SetBlockVersion (s : BlockMapping) (block_id version : Int) : BlockMapping × Bool :=
  match s._block_map block_id with
  | none => (s, false)
  | some nsblock =>
    ({ s with _block_map := store s._block_map block_id { nsblock with version := version } },
      true)

/-- Record of block 9 in scenario 4: `replica = {1,2,3}`, nothing pulling,
no change pending. -/
def block9 : NSBlock where
  id := 9
  version := 0
  replica := {1, 2, 3}
  block_size := 0
  expect_replica_num := 3
  pending_change := false
  pulling_chunkservers := ∅

/-- Index holding only `block9`. -/
def holding9 : BlockMapping where
  _next_block_id := 10
  _block_map := store (fun _ => none) 9 block9
  _blocks_to_replicate := fun _ => none

/-! ## Runs of the index -/

/-- A call of a public method of `BlockMapping` that writes to the state
(`GetBlock` and `GetReplicaLocation` only read it, `RemoveBlocksForFile` is a
sequence of `RemoveBlock` calls). -/
inductive Op where
  | NewBlockID
  | AddNewBlock (block_id : Int)
  | UpdateBlockInfo (id server_id block_size block_version : Int) (more_replica_num : Option Int)
  | MarkPullBlock (dst_cs block_id : Int)
  | UnmarkPullBlock (cs_id block_id : Int)
  | GetPullBlocks (id : Int)
  | DealDeadBlocks (id : Int) (blocks : Finset Int)
  | MarkBlockStable (block_id : Int)
  | SetBlockVersion (block_id version : Int)
  | ChangeReplicaNum (block_id replica_num : Int)
  | RemoveBlock (block_id : Int)
deriving DecidableEq

/-- The state after one call; `none` when the call does not return (failed
assertion, null dereference). For `UpdateBlockInfo` the state
at the `assert(0)` of a size conflict is the state before the call, which is
also the state after the `return false` that follows the assertion. -/
def step (d : NSBlockInit) (s : BlockMapping) : Op → Option BlockMapping
  | .NewBlockID => some (NewBlockID s).1
  | .AddNewBlock block_id => AddNewBlock d s block_id
  | .UpdateBlockInfo id server_id block_size block_version more_replica_num =>
    some (UpdateBlockInfo s id server_id block_size block_version more_replica_num).state
  | .MarkPullBlock dst_cs block_id => (MarkPullBlock s dst_cs block_id).map Prod.fst
  | .UnmarkPullBlock cs_id block_id => some (UnmarkPullBlock s cs_id block_id)
  | .GetPullBlocks id => (GetPullBlocks s id []).map Prod.fst
  | .DealDeadBlocks id blocks => some (DealDeadBlocks s id blocks)
  | .MarkBlockStable block_id => some (MarkBlockStable s block_id).1
  | .SetBlockVersion block_id version => some (SetBlockVersion s block_id version).1
  | .ChangeReplicaNum block_id replica_num =>
    (ChangeReplicaNum s block_id replica_num).map Prod.fst
  | .RemoveBlock block_id => some (RemoveBlock s block_id)

/-- The state after a sequence of calls, each of which returns. -/
def run (d : NSBlockInit) : BlockMapping → List Op → Option BlockMapping
  | s, [] => some s
  | s, op :: rest =>
    match step d s op with
    | none => none
    | some s1 => run d s1 rest

/-- Every call of the sequence satisfies `allowed` in the state in which it is
made. -/
def guarded (allowed : BlockMapping → Op → Prop) (d : NSBlockInit) :
    BlockMapping → List Op → Prop
  | _, [] => True
  | s, op :: rest =>
    allowed s op ∧
      match step d s op with
      | none => True
      | some s1 => guarded allowed d s1 rest

/-- Holders and pullers are disjoint in every record. -/
def HoldersPullersDisjoint (s : BlockMapping) : Prop :=
  ∀ id b, s._block_map id = some b → b.pulling_chunkservers ∩ b.replica = ∅

/-- Every record that is not pending has at most the expected number of
replicas and nobody pulling. -/
def StableAtRest (s : BlockMapping) : Prop :=
  ∀ id b, s._block_map id = some b → b.pending_change = false →
    (b.replica.card : Int) ≤ b.expect_replica_num ∧ b.pulling_chunkservers = ∅

/-- Every queued pair `(cs, id)` has a record for `id` in which `cs` is pulling. -/
def QueueAgrees (s : BlockMapping) : Prop :=
  ∀ cs q id, s._blocks_to_replicate cs = some q → id ∈ q →
    ∃ b, s._block_map id = some b ∧ cs ∈ b.pulling_chunkservers

/-- Calls that keep holders and pullers apart: `MarkPullBlock` for a
destination that does not hold the block, `UpdateBlockInfo` for a reporter that
is not pulling it; every other call. -/
def keepsApart (s : BlockMapping) : Op → Prop
  | .MarkPullBlock dst_cs block_id =>
    match s._block_map block_id with
    | some b => dst_cs ∉ b.replica
    | none => True
  | .UpdateBlockInfo id server_id _ _ _ =>
    match s._block_map id with
    | some b => server_id ∉ b.pulling_chunkservers
    | none => True
  | _ => True

/-- Calls that keep the repair queue in step with the pulling sets:
`UnmarkPullBlock(cs, id)` once `id` is no longer queued for `cs`,
`RemoveBlock(id)` for a block that is queued for nobody; every other call. -/
def keepsQueue (s : BlockMapping) : Op → Prop
  | .UnmarkPullBlock cs_id block_id =>
    match s._blocks_to_replicate cs_id with
    | some q => block_id ∉ q
    | none => True
  | .RemoveBlock block_id =>
    ∀ cs q, s._blocks_to_replicate cs = some q → block_id ∉ q
  | _ => True

/-- The calls in which no `int64_t` increment wraps: `AddNewBlock` of an id
below `INT64_MAX`, and `NewBlockID` while `next_block_id` is below
`INT64_MAX`. -/
def belowMax (s : BlockMapping) : Op → Prop
  | .NewBlockID => s._next_block_id < INT64_MAX
  | .AddNewBlock block_id => block_id < INT64_MAX
  | _ => True

/-- Initial values used in the examples: an open block (`version = -1`) of
unknown size, three replicas expected, pending. -/
def d0 : NSBlockInit where
  version := -1
  block_size := 0
  expect_replica_num := 3
  pending_change := true

/-- Scenario 3 as a run: block 7 is created with three expected replicas and
reported by chunkservers 1 and 2; chunkserver 5 is marked as puller and then
reports the pull as done. -/
def scenario3 : List Op :=
  [.AddNewBlock 7, .ChangeReplicaNum 7 3, .UpdateBlockInfo 7 1 0 (-1) (some 0),
   .UpdateBlockInfo 7 2 0 (-1) (some 0), .MarkPullBlock 5 7, .UnmarkPullBlock 5 7]

/-- A pull queued while other calls go on: block 7 is created and chunkserver 5
marked as its puller; chunkserver 6, for which nothing is queued, reports a
pull of block 7; block 8 is created and removed again. -/
def pullThenRemove : List Op :=
  [.AddNewBlock 7, .MarkPullBlock 5 7, .UnmarkPullBlock 6 7, .AddNewBlock 8, .RemoveBlock 8]

/-- Application of `f` to the record under `id`, if there is one. -/
def modify (m : Int → Option NSBlock) (id : Int) (f : NSBlock → NSBlock) : Int → Option NSBlock :=
  fun j => if j = id then (m j).map f else m j

/-- What `UnmarkPullBlock` (lines 215-220) does to the record it finds. -/
def UnmarkPullBlock.record (cs_id : Int) (nsblock : NSBlock) : NSBlock :=
  let nsblock1 : NSBlock :=
    { nsblock with pulling_chunkservers := nsblock.pulling_chunkservers.erase cs_id }
  let nsblock2 : NSBlock :=
    if nsblock1.pulling_chunkservers = ∅ ∧ nsblock1.pending_change = true then
      { nsblock1 with pending_change := false }
    else nsblock1
  { nsblock2 with replica := insert cs_id nsblock2.replica }

end BlockMapping

/-! ## The RPC handlers of `nameserver_impl.cc` -/

/-- State of a `NameServerImpl` object as far as the handlers embedded here
read and write it: the block index and the safemode flag. The namespace and the
chunkserver roster are external collaborators; what they answer is an argument
of the handler. -/
structure NameServerImpl where
  _block_manager : BlockMapping
  _safe_mode : Bool

/-- Answers of the chunkserver roster (`ChunkServerManager`, not part of the
sources embedded here) to the calls a handler makes. The roster keeps its own
state and does not write to the block index during these calls. -/
structure Roster where
  /-- Id returned by `AddChunkServer`. -/
  AddChunkServer : Int
  /-- Id returned by `GetChunkserverId` for the address of the request, `-1` for
  an address never seen. -/
  GetChunkserverId : Int
  /-- Answer of `GetChunkServerChains(n, &chains)` made for the `i`-th block of a
  report: `none` for `false`, the chain for `true`. -/
  GetChunkServerChains : Nat → Int → Option (List (Int × String))
  /-- Address returned by `GetChunkServerAddr` for an id. -/
  GetChunkServerAddr : Int → String

/-- One entry of the inventory of a block report. -/
structure ReportBlockInfo where
  block_id : Int
  block_size : Int
  version : Int

/-- Fields of `BlockReportRequest` read by the handler. -/
structure BlockReportRequest where
  chunkserver_id : Int
  namespace_version : Int
  is_complete : Bool
  blocks : List ReportBlockInfo

/-- Fields of `BlockReportResponse` written by the handler; `none` is a field
that was not set. A `new_replicas` entry is a block id with the addresses of
its sources. -/
structure BlockReportResponse where
  namespace_version : Option Int
  status : Option Int
  obsolete_blocks : List Int
  new_replicas : List (Int × List String)
  chunkserver_id : Option Int

/-- Response of `PullBlockReport` and of `FinishBlock`. -/
structure StatusResponse where
  sequence_id : Int
  status : Int

/-- Fields of the `FileInfo` message read and written by the handlers. -/
structure FileInfo where
  entry_id : Int
  version : Int
  replicas : Int
  blocks : List Int

/-- Answers of the namespace (`NameSpace`, not part of the sources embedded
here) to the calls a handler makes, as functions of the arguments of the
call. The namespace keeps its own state and does not write to the block
index. -/
structure NameSpace where
  /-- Answer of `GetFileInfo(path, &info)`: `none` for `false`. -/
  GetFileInfo : String → Option FileInfo
  /-- Answer of `UpdateFileInfo(info)`. -/
  UpdateFileInfo : FileInfo → Bool
  /-- Answer of `DeleteDirectory(path, recursive, &removed)`: the returned status
  and the files handed back for removal. -/
  DeleteDirectory : String → Bool → Int × List FileInfo

/-- One `LocatedBlock` of a response. -/
structure LocatedBlock where
  block_id : Int
  block_size : Int
  chains : List String

/-- Response of `GetFileLocation`. -/
structure FileLocationResponse where
  sequence_id : Int
  status : Int
  blocks : List LocatedBlock

/-- Response of `AddBlock`: the status, and the id and the chain addresses of
the located block when one was filled in. -/
structure AddBlockResponse where
  sequence_id : Int
  status : Int
  block_id : Option Int
  chains : List String

/-- What `ChangeReplicaNum` did: the file record handed to
`_namespace->UpdateFileInfo`, the arguments of the call to the block index, and
the state and response at `done->Run()`, each `none` when the handler does not
get that far. -/
structure ChangeReplicaNumResult where
  namespace_update : Option FileInfo
  index_call : Option (Int × Int)
  outcome : Option (NameServerImpl × StatusResponse)

/-- What a call of the handler `DeleteDirectory` leaves behind. -/
structure DeleteDirectoryResult where
  /-- State of the nameserver after the call. -/
  state : NameServerImpl
  /-- Status field of the response when the handler returns. -/
  status : Int
  /-- One entry per `done->Run()`, in order: the status the response carried
  at that moment. -/
  completed : List Int
  /-- Arguments of the calls of `_namespace->DeleteDirectory`, in order. -/
  namespace_calls : List (String × Bool)

/-- Embedding of `BlockMapping::RemoveBlocksForFile` (lines 171-179): the
location read by `GetReplicaLocation` is not used. -/
def BlockMapping.RemoveBlocksForFile (s : BlockMapping) (file_info : FileInfo) : BlockMapping :=
  file_info.blocks.foldl (fun s1 block_id => BlockMapping.RemoveBlock s1 block_id) s

namespace NameServerImpl

open BlockMapping

/-- The loop of `BlockReport` over the chain (lines 153-163): candidates that
hold no replica are marked until `more_replica_num` of them are; the index and
`num` after the loop. -/
def BlockReport.chains (cur_block_id more_replica_num : Int)
    (cur_replica_location : Finset Int) :
    List (Int × String) → BlockMapping → Int → Option (BlockMapping × Int)
  | [], bm, num => some (bm, num)
  | chains_it :: rest, bm, num =>
    if num < more_replica_num then
      if chains_it.1 ∉ cur_replica_location then
        match MarkPullBlock bm chains_it.1 cur_block_id with
        | none => none
        | some (bm1, mark_pull) =>
          BlockReport.chains cur_block_id more_replica_num cur_replica_location rest bm1
            (if mark_pull = true then num + 1 else num)
      else
        BlockReport.chains cur_block_id more_replica_num cur_replica_location rest bm num
    else some (bm, num)

/-- The body of the loop of `BlockReport` over the reported blocks (lines
126-169) for the `i`-th block; `none` when the process ends in an assertion. -/
def BlockReport.block (safe_mode : Bool) (roster : Roster) (cs_id : Int) (i : Nat)
    (bm : BlockMapping) (response : BlockReportResponse) (block : ReportBlockInfo) :
    Option (BlockMapping × BlockReportResponse) :=
  let cur_block_id := block.block_id
  let cur_block_size := block.block_size
  let block_version := block.version
  let r := UpdateBlockInfo bm cur_block_id cs_id cur_block_size block_version (some 0)
  if r.exit = .size_mismatch then none
  else if r.ret = false then
    some (r.state,
      { response with obsolete_blocks := response.obsolete_blocks ++ [cur_block_id] })
  else
    let more_replica_num := r.more_replica_num.getD 0
    if safe_mode = false ∧ more_replica_num ≠ 0 then
      match roster.GetChunkServerChains i more_replica_num with
      | some chains =>
        let cur_replica_location := (GetReplicaLocation r.state cur_block_id ∅).2
        match BlockReport.chains cur_block_id more_replica_num cur_replica_location chains
            r.state 0 with
        | none => none
        | some (bm1, num) =>
          if num = 0 then some ((MarkBlockStable bm1 cur_block_id).1, response)
          else some (bm1, response)
      | none => some (r.state, response)
    else some (r.state, response)

/-- The loop of `BlockReport` over the reported blocks (lines 125-170). -/
def BlockReport.blocks (safe_mode : Bool) (roster : Roster) (cs_id : Int) :
    Nat → List ReportBlockInfo → BlockMapping → BlockReportResponse →
      Option (BlockMapping × BlockReportResponse)
  | _, [], bm, response => some (bm, response)
  | i, block :: rest, bm, response =>
    match BlockReport.block safe_mode roster cs_id i bm response block with
    | none => none
    | some (bm1, response1) =>
      BlockReport.blocks safe_mode roster cs_id (i + 1) rest bm1 response1

/-- Lines 125-188 of `BlockReport`, for the chunkserver id the identity step
settled on: the reported blocks are processed, the repair queue of the
chunkserver is drained into `new_replicas`, the id is returned. -/
def BlockReport.reconcile (ns : NameServerImpl) (roster : Roster) (cs_id : Int)
    (request : BlockReportRequest) (response : BlockReportResponse) :
    Option (NameServerImpl × BlockReportResponse) :=
  match BlockReport.blocks ns._safe_mode roster cs_id 0 request.blocks ns._block_manager
      response with
  | none => none
  | some (bm1, response1) =>
    match GetPullBlocks bm1 cs_id [] with
    | none => none
    | some (bm2, got, pull_blocks) =>
      let response2 : BlockReportResponse :=
        if got = true then
          { response1 with
            new_replicas := response1.new_replicas ++ pull_blocks.map (fun p =>
              (p.1, (p.2.sort (· ≤ ·)).map roster.GetChunkServerAddr)) }
        else response1
      some ({ ns with _block_manager := bm2 }, { response2 with chunkserver_id := some cs_id })

/-- Embedding of `NameServerImpl::BlockReport` (lines 78-190). `version` is the
answer of `_namespace->Version()`; the response object is empty on entry. -/
def BlockReport (ns : NameServerImpl) (version : Int) (roster : Roster)
    (request : BlockReportRequest) : Option (NameServerImpl × BlockReportResponse) :=
  let cs_id := request.chunkserver_id
  let response : BlockReportResponse :=
    { namespace_version := some request.namespace_version, status := none,
      obsolete_blocks := [], new_replicas := [], chunkserver_id := none }
  if request.namespace_version ≠ version then
    if request.blocks.length = 0 then
      some (ns, { response with
        namespace_version := some version, chunkserver_id := some roster.AddChunkServer })
    else
      some (ns, { response with
        obsolete_blocks := request.blocks.map (fun b => b.block_id)
        chunkserver_id := some cs_id })
  else
    let old_id := roster.GetChunkserverId
    if old_id = -1 then
      if request.is_complete = false then
        some (ns, { response with status := some 403 })
      else
        BlockReport.reconcile ns roster roster.AddChunkServer request response
    else if cs_id = -1 then
      BlockReport.reconcile ns roster old_id request response
    else if cs_id ≠ old_id then
      some (ns, { response with status := some (-1) })
    else
      BlockReport.reconcile ns roster cs_id request response

/-- The loop of `PullBlockReport` (lines 199-201). -/
def PullBlockReport.loop (chunkserver_id : Int) : List Int → BlockMapping → BlockMapping
  | [], bm => bm
  | block :: rest, bm =>
    PullBlockReport.loop chunkserver_id rest (UnmarkPullBlock bm chunkserver_id block)

/-- Embedding of `NameServerImpl::PullBlockReport` (lines 192-203). -/
def PullBlockReport (ns : NameServerImpl) (sequence_id chunkserver_id : Int)
    (blocks : List Int) : NameServerImpl × StatusResponse :=
  ({ ns with _block_manager := PullBlockReport.loop chunkserver_id blocks ns._block_manager },
    { sequence_id := sequence_id, status := 0 })

/-- Embedding of `NameServerImpl::FinishBlock` (lines 266-284). -/
def FinishBlock (ns : NameServerImpl) (sequence_id block_id block_version : Int) :
    NameServerImpl × StatusResponse :=
  let r1 := SetBlockVersion ns._block_manager block_id block_version
  if r1.2 = false then
    ({ ns with _block_manager := r1.1 }, { sequence_id := sequence_id, status := 886 })
  else
    let r2 := MarkBlockStable r1.1 block_id
    if r2.2 = true then
      ({ ns with _block_manager := r2.1 }, { sequence_id := sequence_id, status := 0 })
    else
      ({ ns with _block_manager := r2.1 }, { sequence_id := sequence_id, status := 886 })

/-- Record of block 1 after scenario 1: open, seeded on chunkservers 1, 2
and 3. -/
def block1 : NSBlock where
  id := 1
  version := -1
  replica := {1, 2, 3}
  block_size := 0
  expect_replica_num := 3
  pending_change := true
  pulling_chunkservers := ∅

/-- Nameserver out of safemode whose index holds only `block1`. -/
def allocated1 : NameServerImpl where
  _block_manager :=
    { _next_block_id := 2
      _block_map := store (fun _ => none) 1 block1
      _blocks_to_replicate := fun _ => none }
  _safe_mode := false

/-- Scenario 6: a report that carries namespace version 7 and four blocks. -/
def staleReport : BlockReportRequest where
  chunkserver_id := 1
  namespace_version := 7
  is_complete := true
  blocks := [⟨21, 64, 0⟩, ⟨22, 64, 0⟩, ⟨23, 64, 0⟩, ⟨24, 64, 0⟩]

/-- A roster that knows the reporter as chunkserver 1 and has no chain to
offer. -/
def noChain : Roster where
  AddChunkServer := 1
  GetChunkserverId := 1
  GetChunkServerChains := fun _ _ => none
  GetChunkServerAddr := fun _ => ""

/-- A report of block 7 by chunkserver 1 at namespace version 9. -/
def report7 : BlockReportRequest where
  chunkserver_id := 1
  namespace_version := 9
  is_complete := true
  blocks := [⟨7, 0, 0⟩]

/-- Embedding of `NameServerImpl::DeleteDirectory` (lines 421-439). The branch
for a bad path sets the status and runs `done`; it has no `return`, so the
statements after it follow. -/
def DeleteDirectory (ns : NameServerImpl) (_namespace : NameSpace) (path : String)
    (recursive : Bool) : DeleteDirectoryResult :=
  let completed1 : List Int :=
    match path.data with
    | [] => [886]
    | c :: _ => if c ≠ '/' then [886] else []
  let removed := _namespace.DeleteDirectory path recursive
  let ret_status := removed.1
  let bm := removed.2.foldl (fun s file_info => RemoveBlocksForFile s file_info)
    ns._block_manager
  { state := { ns with _block_manager := bm }
    status := ret_status
    completed := completed1 ++ [ret_status]
    namespace_calls := [(path, recursive)] }

/-- The loop of `GetFileLocation` over the replicas of one block (lines
313-329), in iteration order. -/
def GetFileLocation.chains (roster : Roster) (nsblock : NSBlock) : List Int → List String
  | [] => []
  | server_id :: rest =>
    if server_id ∈ nsblock.pulling_chunkservers then
      GetFileLocation.chains roster nsblock rest
    else if roster.GetChunkServerAddr server_id = "" then
      GetFileLocation.chains roster nsblock rest
    else
      roster.GetChunkServerAddr server_id :: GetFileLocation.chains roster nsblock rest

/-- The loop of `GetFileLocation` over the blocks of the file (lines 303-331). -/
def GetFileLocation.blocks (ns : NameServerImpl) (roster : Roster) : List Int → List LocatedBlock
  | [] => []
  | block_id :: rest =>
    match GetBlock ns._block_manager block_id with
    | none => GetFileLocation.blocks ns roster rest
    | some nsblock =>
      { block_id := block_id
        block_size := nsblock.block_size
        chains := GetFileLocation.chains roster nsblock (nsblock.replica.sort (· ≤ ·)) } ::
        GetFileLocation.blocks ns roster rest

/-- Embedding of `NameServerImpl::GetFileLocation` (lines 286-338); the handler
writes to no state. -/
def GetFileLocation (ns : NameServerImpl) (_namespace : NameSpace) (roster : Roster)
    (sequence_id : Int) (file_name : String) : FileLocationResponse :=
  match _namespace.GetFileInfo file_name with
  | none => { sequence_id := sequence_id, status := 404, blocks := [] }
  | some info =>
    { sequence_id := sequence_id, status := 0
      blocks := GetFileLocation.blocks ns roster info.blocks }

/-- The seeding loop of `AddBlock` (lines 244-249) for the `n` remaining rounds
from index `i`: the address of `chains[i]` is appended to the response and the
chunkserver reported to the index with size 0 and version 0 and no hint
pointer. `none` when `chains[i]` is past the end of the vector. -/
def AddBlock.seed (new_block_id : Int) (chains : List (Int × String)) :
    Nat → Nat → BlockMapping → List String → Option (BlockMapping × List String)
  | 0, _, bm, addresses => some (bm, addresses)
  | n + 1, i, bm, addresses =>
    match chains.get? i with
    | none => none
    | some c =>
      AddBlock.seed new_block_id chains n (i + 1)
        (UpdateBlockInfo bm new_block_id c.1 0 0 none).state (addresses ++ [c.2])

/-- Embedding of `NameServerImpl::AddBlock` (lines 219-264): the state after
the call, the response, and the file record handed to `UpdateFileInfo` when
that call is made. `none` when the process ends in an assertion or in
undefined behaviour. -/
def AddBlock (d : NSBlockInit) (ns : NameServerImpl) (_namespace : NameSpace)
    (roster : Roster) (sequence_id : Int) (path : String) :
    Option (NameServerImpl × AddBlockResponse × Option FileInfo) :=
  match _namespace.GetFileInfo path with
  | none =>
    some (ns, { sequence_id := sequence_id, status := 404, block_id := none, chains := [] },
      none)
  | some file_info =>
    let replica_num := file_info.replicas
    match roster.GetChunkServerChains 0 replica_num with
    | some chains =>
      let new_block_id := (NewBlockID ns._block_manager).2
      match AddNewBlock d (NewBlockID ns._block_manager).1 new_block_id with
      | none => none
      | some bm2 =>
        match AddBlock.seed new_block_id chains replica_num.toNat 0 bm2 [] with
        | none => none
        | some (bm3, addresses) =>
          let file_info1 : FileInfo :=
            { file_info with blocks := file_info.blocks ++ [new_block_id], version := -1 }
          let status : Int := if _namespace.UpdateFileInfo file_info1 = true then 0 else 826
          some ({ ns with _block_manager := bm3 },
            { sequence_id := sequence_id, status := status,
              block_id := some new_block_id, chains := addresses },
            some file_info1)
    | none =>
      some (ns, { sequence_id := sequence_id, status := 886, block_id := none, chains := [] },
        none)

/-- The loop of `RebuildBlockMapCallback` (lines 471-478). -/
def RebuildBlockMapCallback.loop (d : NSBlockInit) (version replicas : Int) :
    List Int → BlockMapping → Option BlockMapping
  | [], bm => some bm
  | block_id :: rest, bm =>
    match AddNewBlock d bm block_id with
    | none => none
    | some bm1 =>
      match BlockMapping.ChangeReplicaNum (SetBlockVersion bm1 block_id version).1 block_id
          replicas with
      | none => none
      | some (bm3, _) =>
        RebuildBlockMapCallback.loop d version replicas rest (MarkBlockStable bm3 block_id).1

/-- Embedding of `NameServerImpl::RebuildBlockMapCallback` (lines 470-479);
`none` when the process ends in an assertion. -/
def RebuildBlockMapCallback (d : NSBlockInit) (ns : NameServerImpl) (file_info : FileInfo) :
    Option NameServerImpl :=
  match RebuildBlockMapCallback.loop d file_info.version file_info.replicas file_info.blocks
      ns._block_manager with
  | none => none
  | some bm => some { ns with _block_manager := bm }

/-- Embedding of `NameServerImpl::ChangeReplicaNum` (lines 441-468). The
outcome is `none` when `assert(ret)` fails or the index ends in its
`assert(0)`; the two calls made before that point are recorded beside it. -/
def ChangeReplicaNum (ns : NameServerImpl) (_namespace : NameSpace) (sequence_id : Int)
    (file_name : String) (replica_num : Int) : ChangeReplicaNumResult :=
  match _namespace.GetFileInfo file_name with
  | some file_info =>
    let file_info1 : FileInfo := { file_info with replicas := replica_num }
    if _namespace.UpdateFileInfo file_info1 = true then
      { namespace_update := some file_info1
        index_call := some (file_info1.entry_id, replica_num)
        outcome :=
          match BlockMapping.ChangeReplicaNum ns._block_manager file_info1.entry_id
              replica_num with
          | none => none
          | some (bm, ret) =>
            if ret = true then
              some ({ ns with _block_manager := bm }, { sequence_id := sequence_id, status := 0 })
            else
              some ({ ns with _block_manager := bm },
                { sequence_id := sequence_id, status := 886 }) }
    else { namespace_update := some file_info1, index_call := none, outcome := none }
  | none =>
    { namespace_update := none, index_call := none
      outcome := some (ns, { sequence_id := sequence_id, status := 404 }) }

/-- The roster of scenario 1: the chain is chunkservers 1, 2, 3 at the
addresses `a`, `b`, `c`. -/
def chainABC : Roster where
  AddChunkServer := 1
  GetChunkserverId := 1
  GetChunkServerChains := fun _ _ => some [(1, "a"), (2, "b"), (3, "c")]
  GetChunkServerAddr := fun id => if id = 1 then "a" else if id = 2 then "b" else "c"

/-- A file with entry 3 whose blocks are 7 and 8. -/
def file78 : FileInfo where
  entry_id := 3
  version := 4
  replicas := 2
  blocks := [7, 8]

/-- A namespace that holds `file78` under the path `/g` and accepts every
update. -/
def holdsG : NameSpace where
  GetFileInfo := fun path => if path = "/g" then some file78 else none
  UpdateFileInfo := fun _ => true
  DeleteDirectory := fun _ _ => (404, [])

/-- Nameserver whose index holds only block 7 with `replica = {1,2,5}` and
chunkserver 5 still pulling. -/
def hidden7 : NameServerImpl where
  _block_manager :=
    { _next_block_id := 8
      _block_map := store (fun _ => none) 7
        { block7pulling with replica := {1, 2, 5} }
      _blocks_to_replicate := fun _ => none }
  _safe_mode := false

/-- A roster that resolves chunkserver 1 to the address `a` and no other id. -/
def onlyA : Roster where
  AddChunkServer := 1
  GetChunkserverId := 1
  GetChunkServerChains := fun _ _ => none
  GetChunkServerAddr := fun id => if id = 1 then "a" else ""

/-- Nameserver whose index holds block 7 and, under the key 3, a record that
is no block of `file78`. -/
def keyed3 : NameServerImpl where
  _block_manager :=
    { _next_block_id := 8
      _block_map := store (store (fun _ => none) 7 block7) 3 { block7 with id := 3 }
      _blocks_to_replicate := fun _ => none }
  _safe_mode := false

/-- A file whose only block has the largest id. -/
def fileMax : FileInfo where
  entry_id := 3
  version := 4
  replicas := 2
  blocks := [INT64_MAX]

/-- A namespace that knows no file: every lookup fails, `DeleteDirectory`
answers 404 and hands back nothing. -/
def noFiles : NameSpace where
  GetFileInfo := fun _ => none
  UpdateFileInfo := fun _ => true
  DeleteDirectory := fun _ _ => (404, [])

/-- A namespace whose `DeleteDirectory` answers 0 and hands back one file with
the single block 7, whatever the path. -/
def handsBack7 : NameSpace where
  GetFileInfo := fun _ => none
  UpdateFileInfo := fun _ => true
  DeleteDirectory := fun _ _ => (0, [⟨3, 0, 3, [7]⟩])

end NameServerImpl

namespace BlockMapping

/-! ## Maps -/

theorem store_same {V : Type} (m : Int → Option V) (k : Int) (v : V) :
    store m k v k = some v := by
  simp [store]

theorem store_other {V : Type} (m : Int → Option V) (k j : Int) (v : V) (h : j ≠ k) :
    store m k v j = m j := by
  simp [store, h]

theorem unset_same {V : Type} (m : Int → Option V) (k : Int) : unset m k k = none := by
  simp [unset]

theorem unset_other {V : Type} (m : Int → Option V) (k j : Int) (h : j ≠ k) :
    unset m k j = m j := by
  simp [unset, h]

/-! ## UpdateBlockInfo -/

/-- C1. Over-replication: on a present block with no change pending, a report
from `cs` that passes the version and size steps and makes the replica set
(with `cs` inserted) larger than `expect_replica_num` is rejected; afterwards
`cs` is not in `replica`, every other member is kept and `pending_change` is
set. -/
theorem UpdateBlockInfo_over_replication (s : BlockMapping) (id cs size ver : Int)
    (m : Option Int) (b : NSBlock)
    (hb : s._block_map id = some b)
    (hp : b.pending_change = false)
    (hv : ¬ (b.version ≥ 0 ∧ ver ≥ 0 ∧ b.version ≠ ver))
    (hs : ¬ (b.block_size ≠ size ∧ size ≠ 0 ∧ b.block_size ≠ 0))
    (hover : ((insert cs b.replica).card : Int) > b.expect_replica_num) :
    (UpdateBlockInfo s id cs size ver m).ret = false ∧
    ∃ b1, (UpdateBlockInfo s id cs size ver m).state._block_map id = some b1 ∧
      cs ∉ b1.replica ∧ (∀ x, x ≠ cs → (x ∈ b1.replica ↔ x ∈ b.replica)) ∧
      b1.pending_change = true := by
  have hne : ((insert cs b.replica).card : Int) ≠ b.expect_replica_num := ne_of_gt hover
  unfold UpdateBlockInfo
  rw [hb]
  simp only [hv, if_false]
  split_ifs with h1 h2
  · exact absurd ⟨h1.1, h1.2, h2⟩ hs
  · simp [UpdateBlockInfo.replicaStep, hne, hp, hover, store_same]
    intro x hx
    simp [Finset.mem_erase, hx]
  · simp [UpdateBlockInfo.replicaStep, hne, hp, hover, store_same]
    intro x hx
    simp [Finset.mem_erase, hx]

/-- Scenario 5, the witness of C1: block 11 with `replica = {1,2,3}` and two
expected replicas, re-reported by chunkserver 1. -/
theorem UpdateBlockInfo_over_replication_witness :
    ((UpdateBlockInfo overReplicated 11 1 0 0 (some 0)).ret = false ∧
    ∃ b1, (UpdateBlockInfo overReplicated 11 1 0 0 (some 0)).state._block_map 11 = some b1 ∧
      (1 : Int) ∉ b1.replica ∧ (∀ x, x ≠ (1 : Int) → (x ∈ b1.replica ↔ x ∈ block11.replica)) ∧
      b1.pending_change = true) ∧
    (∃ b1, (UpdateBlockInfo overReplicated 11 1 0 0 (some 0)).state._block_map 11 = some b1 ∧
      b1.replica = {2, 3} ∧ b1.pending_change = true) :=
  ⟨UpdateBlockInfo_over_replication overReplicated 11 1 0 0 (some 0) block11
    (by decide) (by decide) (by decide) (by decide) (by decide),
   ⟨_, rfl, by decide, by decide⟩⟩

/-- On a present block whose report passes the version step and has no size
conflict, `UpdateBlockInfo` is the replica step on the record with the size
adopted. -/
theorem UpdateBlockInfo_pass (s : BlockMapping) (id cs size ver : Int) (m : Option Int)
    (b : NSBlock) (hb : s._block_map id = some b)
    (hv : ¬ (b.version ≥ 0 ∧ ver ≥ 0 ∧ b.version ≠ ver))
    (hs : ¬ (b.block_size ≠ size ∧ size ≠ 0 ∧ b.block_size ≠ 0)) :
    UpdateBlockInfo s id cs size ver m =
      UpdateBlockInfo.replicaStep s id cs
        (if b.block_size ≠ size ∧ size ≠ 0 then { b with block_size := size } else b) m := by
  unfold UpdateBlockInfo
  rw [hb]
  simp only [hv, if_false]
  split_ifs with h1 h2
  · exact absurd ⟨h1.1, h1.2, h2⟩ hs
  · rfl
  · rfl

/-- The replica step never leaves through one of the early returns. -/
theorem replicaStep_exit (s : BlockMapping) (id cs : Int) (b : NSBlock) (m : Option Int) :
    (UpdateBlockInfo.replicaStep s id cs b m).exit = .too_much_replica ∨
    (UpdateBlockInfo.replicaStep s id cs b m).exit = .accepted := by
  unfold UpdateBlockInfo.replicaStep
  simp only
  split_ifs <;> simp

/-- The replica step stores a record under `id` whose size, version and
expected replica number are those of the record it was given. -/
theorem replicaStep_record (s : BlockMapping) (id cs : Int) (b : NSBlock) (m : Option Int) :
    ∃ b1, (UpdateBlockInfo.replicaStep s id cs b m).state._block_map id = some b1 ∧
      b1.block_size = b.block_size ∧ b1.version = b.version ∧
      b1.expect_replica_num = b.expect_replica_num := by
  unfold UpdateBlockInfo.replicaStep
  simp only
  split_ifs <;> simp [store_same]

/-- `UpdateBlockInfo` never changes which ids are keys of `_block_map`. -/
theorem UpdateBlockInfo_keys (s : BlockMapping) (id cs size ver : Int) (m : Option Int)
    (j : Int) :
    (UpdateBlockInfo s id cs size ver m).state._block_map j = none ↔ s._block_map j = none := by
  unfold UpdateBlockInfo
  cases hb : s._block_map id with
  | none => simp
  | some b =>
    have key : ∀ b0 : NSBlock,
        ((UpdateBlockInfo.replicaStep s id cs b0 m).state._block_map j = none ↔
          s._block_map j = none) := by
      intro b0
      unfold UpdateBlockInfo.replicaStep
      by_cases hj : j = id
      · subst hj
        simp only
        split_ifs <;> simp [store_same, hb]
      · simp only
        split_ifs <;> simp [store_other, hj]
    simp only
    split_ifs
    · simp
    · simp
    · exact key _
    · exact key _

/-- A sequence of `UpdateBlockInfo` calls never changes which ids are keys. -/
theorem UpdateBlockInfos_keys (calls : List (Int × Int × Int × Int × Option Int)) :
    ∀ (s : BlockMapping) (j : Int),
      (UpdateBlockInfos s calls)._block_map j = none ↔ s._block_map j = none := by
  induction calls with
  | nil => intro s j; simp [UpdateBlockInfos]
  | cons c rest ih =>
    intro s j
    obtain ⟨id, cs, size, ver, m⟩ := c
    simp only [UpdateBlockInfos]
    rw [ih, UpdateBlockInfo_keys]

/-- C2. Repair hint: on a present block, an accepted report writes
`exp - cur` (a positive number) behind `more_replica_num` when `pending_change`
was false on entry and `cur < exp`, where `cur` is the size of `replica` with
the reporter inserted; in every other accepted case the caller's value is left
as it was, `pending_change` keeps its value, the reporter is inserted and the
pulling set and the repair queue are untouched. -/
theorem UpdateBlockInfo_repair_hint (s : BlockMapping) (id cs size ver m : Int) (b : NSBlock)
    (hb : s._block_map id = some b)
    (hacc : (UpdateBlockInfo s id cs size ver (some m)).ret = true) :
    ((b.pending_change = false ∧
        ((insert cs b.replica).card : Int) < b.expect_replica_num) →
      (UpdateBlockInfo s id cs size ver (some m)).more_replica_num =
          some (b.expect_replica_num - ((insert cs b.replica).card : Int)) ∧
        0 < b.expect_replica_num - ((insert cs b.replica).card : Int)) ∧
    (¬ (b.pending_change = false ∧
        ((insert cs b.replica).card : Int) < b.expect_replica_num) →
      (UpdateBlockInfo s id cs size ver (some m)).more_replica_num = some m ∧
      (UpdateBlockInfo s id cs size ver (some m)).state._blocks_to_replicate =
        s._blocks_to_replicate ∧
      ∃ b1, (UpdateBlockInfo s id cs size ver (some m)).state._block_map id = some b1 ∧
        b1.pending_change = b.pending_change ∧ b1.replica = insert cs b.replica ∧
        b1.pulling_chunkservers = b.pulling_chunkservers) := by
  by_cases hv : b.version ≥ 0 ∧ ver ≥ 0 ∧ b.version ≠ ver
  · simp [UpdateBlockInfo, hb, hv] at hacc
  by_cases hs : b.block_size ≠ size ∧ size ≠ 0 ∧ b.block_size ≠ 0
  · have h1 : b.block_size ≠ size ∧ size ≠ 0 := ⟨hs.1, hs.2.1⟩
    simp [UpdateBlockInfo, hb, hv, h1, hs.2.2] at hacc
  rw [UpdateBlockInfo_pass s id cs size ver (some m) b hb hv hs] at hacc ⊢
  generalize hb0 : (if b.block_size ≠ size ∧ size ≠ 0 then
      ({ b with block_size := size } : NSBlock) else b) = b0 at hacc ⊢
  have e1 : b0.replica = b.replica := by rw [← hb0]; split_ifs <;> rfl
  have e2 : b0.expect_replica_num = b.expect_replica_num := by rw [← hb0]; split_ifs <;> rfl
  have e3 : b0.pending_change = b.pending_change := by rw [← hb0]; split_ifs <;> rfl
  have e4 : b0.pulling_chunkservers = b.pulling_chunkservers := by
    rw [← hb0]; split_ifs <;> rfl
  unfold UpdateBlockInfo.replicaStep at hacc ⊢
  simp only [e1, e2, e3] at hacc ⊢
  constructor
  · rintro ⟨hp, hlt⟩
    have hne : ((insert cs b.replica).card : Int) ≠ b.expect_replica_num := ne_of_lt hlt
    have hng : ¬ ((insert cs b.replica).card : Int) > b.expect_replica_num := not_lt.mpr hlt.le
    simp [hne, hp, hng]
    exact hlt
  · intro hn
    split_ifs at hacc ⊢ with h1 h2 h3
    · exact absurd ⟨h2, lt_of_le_of_ne (not_lt.mp h3) h1⟩ hn
    · simp [store_same, e1, e3, e4]
    · simp [store_same, e1, e3, e4]

/-- Scenario 3, a witness of C2: block 7 with `replica = {1,2}` and three
expected replicas, reported by chunkserver 1 with the hint initialised to 0;
the hint becomes 1. Once a change is pending for the block, the same report
leaves the hint at 0. -/
theorem UpdateBlockInfo_repair_hint_witness :
    (UpdateBlockInfo underReplicated 7 1 0 0 (some 0)).more_replica_num = some 1 ∧
    (UpdateBlockInfo pulling7 7 1 0 0 (some 0)).more_replica_num = some 0 :=
  ⟨((UpdateBlockInfo_repair_hint underReplicated 7 1 0 0 0 block7 (by decide) (by decide)).1
      ⟨by decide, by decide⟩).1,
   ((UpdateBlockInfo_repair_hint pulling7 7 1 0 0 0 block7pulling (by decide) (by decide)).2
      (by decide)).1⟩

/-- C3 as stated fails: block 7 (`replica = {1,2}`, three expected, nothing
pending) reported by chunkserver 1 is accepted, stays below the expected
number, and `pending_change` is true when `UpdateBlockInfo` returns. -/
theorem UpdateBlockInfo_under_replication_counterexample :
    underReplicated._block_map 7 = some block7 ∧ block7.pending_change = false ∧
    (UpdateBlockInfo underReplicated 7 1 0 0 (some 0)).ret = true ∧
    ∃ b1, (UpdateBlockInfo underReplicated 7 1 0 0 (some 0)).state._block_map 7 = some b1 ∧
      (b1.replica.card : Int) < b1.expect_replica_num ∧ b1.pending_change = true :=
  ⟨by decide, by decide, by decide, { block7 with pending_change := true },
    by decide, by decide, by decide⟩

/-- C3, amended. Under-replication marks the block pending: on a present block
with `pending_change` false, when an accepted report leaves the replica count
below `expect_replica_num`, `pending_change` is true after `UpdateBlockInfo`
returns. -/
theorem UpdateBlockInfo_under_replication_pending (s : BlockMapping) (id cs size ver : Int)
    (m : Option Int) (b b1 : NSBlock)
    (hb : s._block_map id = some b)
    (hp : b.pending_change = false)
    (hacc : (UpdateBlockInfo s id cs size ver m).ret = true)
    (hb1 : (UpdateBlockInfo s id cs size ver m).state._block_map id = some b1)
    (hunder : (b1.replica.card : Int) < b1.expect_replica_num) :
    b1.pending_change = true := by
  by_cases hv : b.version ≥ 0 ∧ ver ≥ 0 ∧ b.version ≠ ver
  · simp [UpdateBlockInfo, hb, hv] at hacc
  by_cases hs : b.block_size ≠ size ∧ size ≠ 0 ∧ b.block_size ≠ 0
  · have h1 : b.block_size ≠ size ∧ size ≠ 0 := ⟨hs.1, hs.2.1⟩
    simp [UpdateBlockInfo, hb, hv, h1, hs.2.2] at hacc
  rw [UpdateBlockInfo_pass s id cs size ver m b hb hv hs] at hacc hb1
  generalize hb0 : (if b.block_size ≠ size ∧ size ≠ 0 then
      ({ b with block_size := size } : NSBlock) else b) = b0 at hacc hb1
  have e3 : b0.pending_change = false := by rw [← hb0]; split_ifs <;> exact hp
  unfold UpdateBlockInfo.replicaStep at hacc hb1
  simp only [e3] at hacc hb1
  split_ifs at hacc hb1 with h1 h2
  · simp only [store_same, Option.some.injEq] at hb1
    rw [← hb1]
  · simp only [store_same, Option.some.injEq] at hb1
    rw [← hb1] at hunder
    simp only [not_not] at h1
    exact absurd hunder (by simp [h1])

/-- Scenario 3, a witness of the amended C3: the report of chunkserver 1 for
block 7 leaves the block pending. -/
theorem UpdateBlockInfo_under_replication_pending_witness :
    (UpdateBlockInfo underReplicated 7 1 0 0 (some 0)).state._block_map 7 =
      some { block7 with pending_change := true } ∧
    ({ block7 with pending_change := true } : NSBlock).pending_change = true :=
  ⟨by decide,
   UpdateBlockInfo_under_replication_pending underReplicated 7 1 0 0 (some 0) block7
    { block7 with pending_change := true }
    (by decide) (by decide) (by decide) (by decide) (by decide)⟩

/-- C4. Version check: on a present block with stored version `s` and reported
version `v`, `UpdateBlockInfo` leaves through the version return exactly when
`s ≥ 0`, `v ≥ 0` and `s ≠ v`; it then returns false and changes nothing (state
and hint are those of the caller); with `s = -1` or `v = -1` it never leaves
through the version return. -/
theorem UpdateBlockInfo_version_check (s : BlockMapping) (id cs size ver : Int)
    (m : Option Int) (b : NSBlock)
    (hb : s._block_map id = some b) :
    ((UpdateBlockInfo s id cs size ver m).exit = .version_mismatch ↔
      (b.version ≥ 0 ∧ ver ≥ 0 ∧ b.version ≠ ver)) ∧
    ((UpdateBlockInfo s id cs size ver m).exit = .version_mismatch →
      (UpdateBlockInfo s id cs size ver m).ret = false ∧
      (UpdateBlockInfo s id cs size ver m).state = s ∧
      (UpdateBlockInfo s id cs size ver m).more_replica_num = m) ∧
    ((b.version = -1 ∨ ver = -1) →
      (UpdateBlockInfo s id cs size ver m).exit ≠ .version_mismatch) := by
  have hiff : (UpdateBlockInfo s id cs size ver m).exit = .version_mismatch ↔
      (b.version ≥ 0 ∧ ver ≥ 0 ∧ b.version ≠ ver) := by
    by_cases hv : b.version ≥ 0 ∧ ver ≥ 0 ∧ b.version ≠ ver
    · simp [UpdateBlockInfo, hb, hv]
    · simp only [hv, iff_false]
      unfold UpdateBlockInfo
      rw [hb]
      simp only [hv, if_false]
      split_ifs
      · simp
      · rcases replicaStep_exit s id cs { b with block_size := size } m with h | h <;>
          simp [h]
      · rcases replicaStep_exit s id cs b m with h | h <;> simp [h]
  refine ⟨hiff, ?_, ?_⟩
  · intro he
    have hv := hiff.mp he
    simp [UpdateBlockInfo, hb, hv]
  · intro h1 he
    have hv := hiff.mp he
    rcases h1 with h1 | h1
    · rw [h1] at hv
      exact absurd hv.1 (by decide)
    · rw [h1] at hv
      exact absurd hv.2.1 (by decide)

/-- A witness of C4: block 7 is stored with version 0; a report with version 5
leaves through the version return and changes nothing, a report with version
-1 does not. -/
theorem UpdateBlockInfo_version_check_witness :
    ((UpdateBlockInfo underReplicated 7 1 0 5 (some 0)).exit = .version_mismatch ↔
      (block7.version ≥ 0 ∧ (5 : Int) ≥ 0 ∧ block7.version ≠ 5)) ∧
    (UpdateBlockInfo underReplicated 7 1 0 5 (some 0)).state = underReplicated ∧
    (UpdateBlockInfo underReplicated 7 1 0 (-1) (some 0)).exit ≠ .version_mismatch :=
  ⟨(UpdateBlockInfo_version_check underReplicated 7 1 0 5 (some 0) block7 (by decide)).1,
   ((UpdateBlockInfo_version_check underReplicated 7 1 0 5 (some 0) block7 (by decide)).2.1
      (by decide)).2.1,
   (UpdateBlockInfo_version_check underReplicated 7 1 0 (-1) (some 0) block7 (by decide)).2.2
      (Or.inr rfl)⟩

/-- C5. Size reconciliation: on a present block whose report passes the
version check, with stored size `S` and reported size `R`: if `R = 0` or
`R = S` the stored size is unchanged; if `S = 0` and `R ≠ 0` the stored size
becomes `R`; if `S`, `R` are non-zero and differ, `UpdateBlockInfo` leaves
through the size-conflict assertion, returning false with the state (so also
`replica`) unchanged. -/
theorem UpdateBlockInfo_size_reconciliation (s : BlockMapping) (id cs size ver : Int)
    (m : Option Int) (b : NSBlock)
    (hb : s._block_map id = some b)
    (hv : ¬ (b.version ≥ 0 ∧ ver ≥ 0 ∧ b.version ≠ ver)) :
    ((size = 0 ∨ size = b.block_size) →
      ∃ b1, (UpdateBlockInfo s id cs size ver m).state._block_map id = some b1 ∧
        b1.block_size = b.block_size) ∧
    ((b.block_size = 0 ∧ size ≠ 0) →
      ∃ b1, (UpdateBlockInfo s id cs size ver m).state._block_map id = some b1 ∧
        b1.block_size = size) ∧
    ((b.block_size ≠ 0 ∧ size ≠ 0 ∧ b.block_size ≠ size) →
      (UpdateBlockInfo s id cs size ver m).exit = .size_mismatch ∧
      (UpdateBlockInfo s id cs size ver m).ret = false ∧
      (UpdateBlockInfo s id cs size ver m).state = s) := by
  refine ⟨?_, ?_, ?_⟩
  · intro h
    have hs : ¬ (b.block_size ≠ size ∧ size ≠ 0 ∧ b.block_size ≠ 0) := by
      rintro ⟨h1, h2, _⟩
      rcases h with h | h
      · exact h2 h
      · exact h1 h.symm
    have hn : ¬ (b.block_size ≠ size ∧ size ≠ 0) := by
      rintro ⟨h1, h2⟩
      rcases h with h | h
      · exact h2 h
      · exact h1 h.symm
    rw [UpdateBlockInfo_pass s id cs size ver m b hb hv hs, if_neg hn]
    obtain ⟨b1, h1, h2, _⟩ := replicaStep_record s id cs b m
    exact ⟨b1, h1, h2⟩
  · rintro ⟨h0, hR⟩
    have hs : ¬ (b.block_size ≠ size ∧ size ≠ 0 ∧ b.block_size ≠ 0) := fun h => h.2.2 h0
    have hp : b.block_size ≠ size ∧ size ≠ 0 := ⟨by rw [h0]; exact fun h => hR h.symm, hR⟩
    rw [UpdateBlockInfo_pass s id cs size ver m b hb hv hs, if_pos hp]
    obtain ⟨b1, h1, h2, _⟩ := replicaStep_record s id cs { b with block_size := size } m
    exact ⟨b1, h1, h2⟩
  · rintro ⟨hS, hR, hne⟩
    have hp : b.block_size ≠ size ∧ size ≠ 0 := ⟨hne, hR⟩
    simp [UpdateBlockInfo, hb, hv, hp, hS]

/-- A witness of C5 on block 7, whose stored size is 0: a report of size 64 is
adopted, and a report of size 0 leaves the size as it is. -/
theorem UpdateBlockInfo_size_reconciliation_witness :
    (∃ b1, (UpdateBlockInfo underReplicated 7 1 64 0 (some 0)).state._block_map 7 = some b1 ∧
        b1.block_size = 64) ∧
    (∃ b1, (UpdateBlockInfo underReplicated 7 1 0 0 (some 0)).state._block_map 7 = some b1 ∧
        b1.block_size = block7.block_size) :=
  ⟨(UpdateBlockInfo_size_reconciliation underReplicated 7 1 64 0 (some 0) block7
      (by decide) (by decide)).2.1 ⟨by decide, by decide⟩,
   (UpdateBlockInfo_size_reconciliation underReplicated 7 1 0 0 (some 0) block7
      (by decide) (by decide)).1 (Or.inl rfl)⟩

/-! ## RemoveBlock -/

/-- C6. Removed blocks are not resurrected: `UpdateBlockInfo` on an id that is
not a key of the map returns false and leaves the whole index and the hint
unchanged; after `RemoveBlock(id)` the id is not a key, and it is not a key
after any sequence of later `UpdateBlockInfo` calls either. -/
theorem UpdateBlockInfo_removed_not_resurrected (s : BlockMapping) (id : Int) :
    (s._block_map id = none → ∀ (cs size ver : Int) (m : Option Int),
      (UpdateBlockInfo s id cs size ver m).ret = false ∧
      (UpdateBlockInfo s id cs size ver m).state = s ∧
      (UpdateBlockInfo s id cs size ver m).more_replica_num = m) ∧
    (RemoveBlock s id)._block_map id = none ∧
    (∀ calls, (UpdateBlockInfos (RemoveBlock s id) calls)._block_map id = none) := by
  have hrm : (RemoveBlock s id)._block_map id = none := by
    unfold RemoveBlock
    cases h : s._block_map id with
    | none => simpa using h
    | some b => simp [unset_same]
  refine ⟨?_, hrm, ?_⟩
  · intro h cs size ver m
    simp [UpdateBlockInfo, h]
  · intro calls
    rw [UpdateBlockInfos_keys]
    exact hrm

/-- A witness of C6: block 8 is not a key of the index that holds only block 7,
so a report on it is rejected and changes nothing; once block 7 is removed,
two reports on it do not bring it back. -/
theorem UpdateBlockInfo_removed_not_resurrected_witness :
    ((UpdateBlockInfo underReplicated 8 1 0 0 (some 0)).ret = false ∧
      (UpdateBlockInfo underReplicated 8 1 0 0 (some 0)).state = underReplicated ∧
      (UpdateBlockInfo underReplicated 8 1 0 0 (some 0)).more_replica_num = some 0) ∧
    (UpdateBlockInfos (RemoveBlock underReplicated 7)
      [(7, 1, 0, 0, some 0), (7, 2, 64, -1, none)])._block_map 7 = none :=
  ⟨(UpdateBlockInfo_removed_not_resurrected underReplicated 8).1 (by decide) 1 0 0 (some 0),
   (UpdateBlockInfo_removed_not_resurrected underReplicated 7).2.2 _⟩

/-! ## The pull protocol -/

/-- The state `MarkPullBlock` builds when `dst_cs` is not yet a puller. -/
theorem MarkPullBlock_new (s : BlockMapping) (dst id : Int) (b : NSBlock)
    (hb : s._block_map id = some b) (hd : dst ∉ b.pulling_chunkservers) :
    MarkPullBlock s dst id =
      some ({ s with
                _block_map := store s._block_map id
                  { b with pulling_chunkservers := insert dst b.pulling_chunkservers }
                _blocks_to_replicate := store s._blocks_to_replicate dst
                  (insert id ((s._blocks_to_replicate dst).getD ∅)) }, true) := by
  simp only [MarkPullBlock, hb, hd, not_false_eq_true, if_true]

/-- C7. `MarkPullBlock` is idempotent: on a present block, the first call
returns true exactly when `dst` was not in `pulling`, and then `dst` is added to
`pulling` and `id` to `pending[dst]`; a second call with the same arguments
returns false and leaves the state as the first call left it. -/
theorem MarkPullBlock_idempotent (s : BlockMapping) (dst id : Int) (b : NSBlock)
    (hb : s._block_map id = some b) :
    ∃ s1 r1, MarkPullBlock s dst id = some (s1, r1) ∧
      (r1 = true ↔ dst ∉ b.pulling_chunkservers) ∧
      (r1 = true →
        (∃ b1, s1._block_map id = some b1 ∧
          b1.pulling_chunkservers = insert dst b.pulling_chunkservers) ∧
        s1._blocks_to_replicate dst =
          some (insert id ((s._blocks_to_replicate dst).getD ∅))) ∧
      MarkPullBlock s1 dst id = some (s1, false) := by
  by_cases hd : dst ∈ b.pulling_chunkservers
  · refine ⟨s, false, ?_, ?_, ?_, ?_⟩
    · simp [MarkPullBlock, hb, hd]
    · simp [hd]
    · simp
    · simp [MarkPullBlock, hb, hd]
  · refine ⟨_, true, MarkPullBlock_new s dst id b hb hd, ?_, ?_, ?_⟩
    · simp [hd]
    · intro _
      exact ⟨⟨_, store_same _ _ _, rfl⟩, store_same _ _ _⟩
    · simp [MarkPullBlock, store_same]

/-- Scenario 3, a witness of C7: marking chunkserver 5 as puller of block 7
succeeds once and gives the state `pulling7` up to `pending_change`. -/
theorem MarkPullBlock_idempotent_witness :
    ∃ s1 r1, MarkPullBlock underReplicated 5 7 = some (s1, r1) ∧
      (r1 = true ↔ (5 : Int) ∉ block7.pulling_chunkservers) ∧
      (r1 = true →
        (∃ b1, s1._block_map 7 = some b1 ∧
          b1.pulling_chunkservers = insert 5 block7.pulling_chunkservers) ∧
        s1._blocks_to_replicate 5 =
          some (insert 7 ((underReplicated._blocks_to_replicate 5).getD ∅))) ∧
      MarkPullBlock s1 5 7 = some (s1, false) :=
  MarkPullBlock_idempotent underReplicated 5 7 block7 (by decide)

/-- C8 as stated fails: block 7 has nothing pending and an empty pulling set;
`MarkPullBlock(5, 7)` returns true and `pending_change` is still false. -/
theorem MarkPullBlock_pending_counterexample :
    underReplicated._block_map 7 = some block7 ∧
    (5 : Int) ∉ block7.pulling_chunkservers ∧
    ∃ s1, MarkPullBlock underReplicated 5 7 = some (s1, true) ∧
      ∃ b1, s1._block_map 7 = some b1 ∧ b1.pending_change = false :=
  ⟨by decide, by decide, _, rfl, { block7 with pulling_chunkservers := {5} }, by decide,
    by decide⟩

/-- C8, amended. `MarkPullBlock` does not write `pending_change`: on a present
block with `dst` not in `pulling`, the call returns true and afterwards `dst`
is in `pulling` and `pending_change` has the value it had before the call. -/
theorem MarkPullBlock_pending_kept (s : BlockMapping) (dst id : Int) (b : NSBlock)
    (hb : s._block_map id = some b) (hd : dst ∉ b.pulling_chunkservers) :
    ∃ s1, MarkPullBlock s dst id = some (s1, true) ∧
      ∃ b1, s1._block_map id = some b1 ∧ dst ∈ b1.pulling_chunkservers ∧
        b1.pending_change = b.pending_change := by
  exact ⟨_, MarkPullBlock_new s dst id b hb hd, _, store_same _ _ _, by simp, rfl⟩

/-- A witness of the amended C8 on block 7 and chunkserver 5. -/
theorem MarkPullBlock_pending_kept_witness :
    ∃ s1, MarkPullBlock underReplicated 5 7 = some (s1, true) ∧
      ∃ b1, s1._block_map 7 = some b1 ∧ (5 : Int) ∈ b1.pulling_chunkservers ∧
        b1.pending_change = block7.pending_change :=
  MarkPullBlock_pending_kept underReplicated 5 7 block7 (by decide) (by decide)

/-- The loop of `GetPullBlocks` returns when every queued id has a record: it
appends one pair per id, in order, each with the replica set of the record. -/
theorem GetPullBlocks_loop_some (m : Int → Option NSBlock) (l : List Int) :
    (∀ id ∈ l, (m id).isSome = true) → ∀ blocks : List (Int × Finset Int),
      ∃ new, GetPullBlocks.loop m l blocks = some (blocks ++ new) ∧
        new.map Prod.fst = l ∧ ∀ p ∈ new, ∃ b, m p.1 = some b ∧ p.2 = b.replica := by
  induction l with
  | nil =>
    intro _ blocks
    exact ⟨[], by simp [GetPullBlocks.loop], rfl, by simp⟩
  | cons a rest ih =>
    intro h blocks
    have ha : (m a).isSome = true := h a (List.mem_cons_self a rest)
    obtain ⟨b, hb⟩ := Option.isSome_iff_exists.mp ha
    have hrest : ∀ id ∈ rest, (m id).isSome = true :=
      fun id hid => h id (List.mem_cons_of_mem a hid)
    obtain ⟨new, h1, h2, h3⟩ := ih hrest (blocks ++ [(a, b.replica)])
    refine ⟨(a, b.replica) :: new, ?_, ?_, ?_⟩
    · simp only [GetPullBlocks.loop, hb, h1, List.append_assoc, List.singleton_append]
    · simp [h2]
    · intro p hp
      rcases List.mem_cons.mp hp with hp | hp
      · subst hp
        exact ⟨b, hb, rfl⟩
      · exact h3 p hp

/-- C9. `GetPullBlocks` delivers at most once: in a state in which every block
id queued for `dst` is a key of the map, `GetPullBlocks(dst)` returns, appends
to the caller's vector exactly one pair per id of `pending[dst]`, each holding
the replica set of the id's record, removes the entry `pending[dst]` and leaves
the block records, `next_block_id` and the entries of other destinations as
they were; a call that follows at once returns false and appends nothing. -/
theorem GetPullBlocks_at_most_once (s : BlockMapping) (dst : Int)
    (blocks : List (Int × Finset Int))
    (h : ∀ id ∈ (s._blocks_to_replicate dst).getD ∅, (s._block_map id).isSome = true) :
    ∃ s1 r new, GetPullBlocks s dst blocks = some (s1, r, blocks ++ new) ∧
      (r = true ↔ (s._blocks_to_replicate dst).isSome = true) ∧
      (new.map Prod.fst).Nodup ∧
      (∀ id, id ∈ new.map Prod.fst ↔ id ∈ (s._blocks_to_replicate dst).getD ∅) ∧
      (∀ p ∈ new, ∃ b, s._block_map p.1 = some b ∧ p.2 = b.replica) ∧
      s1._blocks_to_replicate dst = none ∧
      (∀ j, j ≠ dst → s1._blocks_to_replicate j = s._blocks_to_replicate j) ∧
      s1._block_map = s._block_map ∧ s1._next_block_id = s._next_block_id ∧
      ∀ blocks2, GetPullBlocks s1 dst blocks2 = some (s1, false, blocks2) := by
  cases hq : s._blocks_to_replicate dst with
  | none =>
    refine ⟨s, false, [], ?_, ?_, ?_, ?_, ?_, hq, ?_, rfl, rfl, ?_⟩
    · simp [GetPullBlocks, hq]
    · simp
    · simp
    · simp
    · simp
    · intro j _; rfl
    · intro blocks2
      simp [GetPullBlocks, hq]
  | some q =>
    rw [hq] at h
    simp only [Option.getD_some] at h ⊢
    have hl : ∀ id ∈ q.sort (· ≤ ·), (s._block_map id).isSome = true :=
      fun id hid => h id ((Finset.mem_sort (· ≤ ·)).mp hid)
    obtain ⟨new, h1, h2, h3⟩ := GetPullBlocks_loop_some s._block_map _ hl blocks
    refine ⟨{ s with _blocks_to_replicate := unset s._blocks_to_replicate dst }, true, new,
      ?_, ?_, ?_, ?_, h3, unset_same _ _, ?_, rfl, rfl, ?_⟩
    · simp only [GetPullBlocks, hq, h1]
    · simp
    · rw [h2]
      exact Finset.sort_nodup _ _
    · intro id
      rw [h2]
      exact Finset.mem_sort _
    · intro j hj
      exact unset_other _ _ _ hj
    · intro blocks2
      simp [GetPullBlocks, unset_same]

/-- Scenario 3, a witness of C9: block 7 is queued for chunkserver 5 and is a
key of the map, so the drain returns and the entry of chunkserver 5 is gone. -/
theorem GetPullBlocks_at_most_once_witness :
    ∃ s1 r new, GetPullBlocks pulling7 5 [] = some (s1, r, [] ++ new) ∧
      (r = true ↔ (pulling7._blocks_to_replicate 5).isSome = true) ∧
      (new.map Prod.fst).Nodup ∧
      (∀ id, id ∈ new.map Prod.fst ↔ id ∈ (pulling7._blocks_to_replicate 5).getD ∅) ∧
      (∀ p ∈ new, ∃ b, pulling7._block_map p.1 = some b ∧ p.2 = b.replica) ∧
      s1._blocks_to_replicate 5 = none ∧
      (∀ j, j ≠ 5 → s1._blocks_to_replicate j = pulling7._blocks_to_replicate j) ∧
      s1._block_map = pulling7._block_map ∧ s1._next_block_id = pulling7._next_block_id ∧
      ∀ blocks2, GetPullBlocks s1 5 blocks2 = some (s1, false, blocks2) :=
  GetPullBlocks_at_most_once pulling7 5 [] (by decide)

/-- C10. `UnmarkPullBlock` completes a pull: on a present block, afterwards
`cs` is not in `pulling` and is in `replica`, every other chunkserver is in
either set exactly when it was before, and `pending_change` is false if
`pulling` is now empty and keeps its value otherwise; on an id that is not a
key the whole index is unchanged. -/
theorem UnmarkPullBlock_completes (s : BlockMapping) (cs id : Int) :
    (∀ b, s._block_map id = some b →
      ∃ b1, (UnmarkPullBlock s cs id)._block_map id = some b1 ∧
        cs ∉ b1.pulling_chunkservers ∧ cs ∈ b1.replica ∧
        (∀ x, x ≠ cs → ((x ∈ b1.pulling_chunkservers ↔ x ∈ b.pulling_chunkservers) ∧
          (x ∈ b1.replica ↔ x ∈ b.replica))) ∧
        (b1.pulling_chunkservers = ∅ → b1.pending_change = false) ∧
        (b1.pulling_chunkservers ≠ ∅ → b1.pending_change = b.pending_change)) ∧
    (s._block_map id = none → UnmarkPullBlock s cs id = s) := by
  constructor
  · intro b hb
    unfold UnmarkPullBlock
    rw [hb]
    simp only [store_same]
    refine ⟨_, rfl, ?_⟩
    by_cases he : b.pulling_chunkservers.erase cs = ∅
    · have hx : ∀ x, x ≠ cs → x ∉ b.pulling_chunkservers := by
        intro x hx hmem
        have : x ∈ b.pulling_chunkservers.erase cs := Finset.mem_erase.mpr ⟨hx, hmem⟩
        rw [he] at this
        exact absurd this (Finset.not_mem_empty x)
      cases hp : b.pending_change <;>
        simp [he, hp, Finset.mem_erase] <;>
        intro x hxc <;> simp [hxc, hx x hxc]
    · cases hp : b.pending_change <;>
        simp [he, hp, Finset.mem_erase] <;>
        intro x hx <;> simp [hx]
  · intro hb
    simp [UnmarkPullBlock, hb]

/-- Scenario 3, a witness of C10: chunkserver 5 reports that it has pulled
block 7; the record then has `replica = {1,2,5}`, an empty pulling set and no
change pending. -/
theorem UnmarkPullBlock_completes_witness :
    (∃ b1, (UnmarkPullBlock pulling7 5 7)._block_map 7 = some b1 ∧
        (5 : Int) ∉ b1.pulling_chunkservers ∧ (5 : Int) ∈ b1.replica ∧
        (∀ x, x ≠ (5 : Int) →
          ((x ∈ b1.pulling_chunkservers ↔ x ∈ block7pulling.pulling_chunkservers) ∧
          (x ∈ b1.replica ↔ x ∈ block7pulling.replica))) ∧
        (b1.pulling_chunkservers = ∅ → b1.pending_change = false) ∧
        (b1.pulling_chunkservers ≠ ∅ → b1.pending_change = block7pulling.pending_change)) ∧
    (∃ b1, (UnmarkPullBlock pulling7 5 7)._block_map 7 = some b1 ∧ b1.replica = {1, 2, 5} ∧
        b1.pulling_chunkservers = ∅ ∧ b1.pending_change = false) ∧
    UnmarkPullBlock pulling7 5 8 = pulling7 :=
  ⟨(UnmarkPullBlock_completes pulling7 5 7).1 block7pulling (by decide),
   ⟨_, rfl, by decide, by decide, by decide⟩,
   (UnmarkPullBlock_completes pulling7 5 8).2 (by decide)⟩

/-! ## DealDeadBlocks -/

/-- Purging a record twice is purging it once. -/
theorem purge_idem (id : Int) (b : NSBlock) :
    DealDeadBlocks.purge id (DealDeadBlocks.purge id b) = DealDeadBlocks.purge id b := by
  unfold DealDeadBlocks.purge
  by_cases he : b.pulling_chunkservers.erase id = ∅ <;>
    cases hp : b.pending_change <;> simp [he, hp, Finset.erase_idem]

/-- The loop of `DealDeadBlocks` purges the records of the listed ids and
leaves every other key as it was. -/
theorem DealDeadBlocks_loop_apply (id : Int) (l : List Int) :
    ∀ (m : Int → Option NSBlock) (j : Int),
      DealDeadBlocks.loop id l m j =
        if j ∈ l then (m j).map (DealDeadBlocks.purge id) else m j := by
  induction l with
  | nil => intro m j; simp [DealDeadBlocks.loop]
  | cons a rest ih =>
    intro m j
    have hstep : DealDeadBlocks.loop id (a :: rest) m =
        DealDeadBlocks.loop id rest
          (fun k => if k = a then (m a).map (DealDeadBlocks.purge id) else m k) := by
      simp only [DealDeadBlocks.loop]
      cases ha : m a with
      | none =>
        have hm : (fun k => if k = a then
            Option.map (DealDeadBlocks.purge id) (none : Option NSBlock) else m k) = m := by
          funext k
          by_cases hk : k = a
          · simp [hk, ha]
          · simp [hk]
        rw [hm]
      | some b => rfl
    rw [hstep, ih]
    by_cases hja : j = a
    · subst hja
      by_cases hr : j ∈ rest
      · cases hm : m j with
        | none => simp [hr, hm]
        | some b => simp [hr, hm, purge_idem]
      · simp [hr]
    · by_cases hr : j ∈ rest
      · simp [hr, hja]
      · simp [hr, hja]

/-- The map after `DealDeadBlocks`: listed records are purged, the others kept. -/
theorem DealDeadBlocks_map (s : BlockMapping) (id : Int) (blocks : Finset Int) (j : Int) :
    (DealDeadBlocks s id blocks)._block_map j =
      if j ∈ blocks then (s._block_map j).map (DealDeadBlocks.purge id) else s._block_map j := by
  simp only [DealDeadBlocks, DealDeadBlocks_loop_apply, Finset.mem_sort]

/-- What purging does to one record. -/
theorem purge_spec (id : Int) (b : NSBlock) :
    id ∉ (DealDeadBlocks.purge id b).replica ∧
    id ∉ (DealDeadBlocks.purge id b).pulling_chunkservers ∧
    (∀ x, x ≠ id →
      ((x ∈ (DealDeadBlocks.purge id b).replica ↔ x ∈ b.replica) ∧
       (x ∈ (DealDeadBlocks.purge id b).pulling_chunkservers ↔ x ∈ b.pulling_chunkservers))) ∧
    ((DealDeadBlocks.purge id b).pulling_chunkservers = ∅ →
      (DealDeadBlocks.purge id b).pending_change = false) ∧
    ((DealDeadBlocks.purge id b).pulling_chunkservers ≠ ∅ →
      (DealDeadBlocks.purge id b).pending_change = b.pending_change) ∧
    (DealDeadBlocks.purge id b).replica = b.replica.erase id ∧
    (DealDeadBlocks.purge id b).pulling_chunkservers = b.pulling_chunkservers.erase id ∧
    (DealDeadBlocks.purge id b).expect_replica_num = b.expect_replica_num ∧
    (DealDeadBlocks.purge id b).version = b.version ∧
    (DealDeadBlocks.purge id b).block_size = b.block_size := by
  unfold DealDeadBlocks.purge
  by_cases he : b.pulling_chunkservers.erase id = ∅
  · have hx : ∀ x, x ≠ id → x ∉ b.pulling_chunkservers := by
      intro x hx hmem
      have : x ∈ b.pulling_chunkservers.erase id := Finset.mem_erase.mpr ⟨hx, hmem⟩
      rw [he] at this
      exact absurd this (Finset.not_mem_empty x)
    cases hp : b.pending_change <;>
      simp [he, hp, Finset.mem_erase] <;>
      intro x hxc <;> simp [hxc, hx x hxc]
  · cases hp : b.pending_change <;>
      simp [he, hp, Finset.mem_erase] <;>
      intro x hx <;> simp [hx]

/-- C11. `DealDeadBlocks` purges a dead chunkserver: every listed block that is
present has `dead_cs` in neither `replica` nor `pulling` afterwards, with every
other member of both sets as before, and its `pending_change` is false if its
pulling set is now empty and unchanged otherwise; listed ids without record
stay without record, unlisted blocks are unchanged, `pending[dead_cs]` is
removed, the entries of the other destinations and `next_block_id` are
unchanged. -/
theorem DealDeadBlocks_purges (s : BlockMapping) (dead_cs : Int) (ids : Finset Int) :
    (∀ id ∈ ids, ∀ b, s._block_map id = some b →
      ∃ b1, (DealDeadBlocks s dead_cs ids)._block_map id = some b1 ∧
        dead_cs ∉ b1.replica ∧ dead_cs ∉ b1.pulling_chunkservers ∧
        (∀ x, x ≠ dead_cs → ((x ∈ b1.replica ↔ x ∈ b.replica) ∧
          (x ∈ b1.pulling_chunkservers ↔ x ∈ b.pulling_chunkservers))) ∧
        (b1.pulling_chunkservers = ∅ → b1.pending_change = false) ∧
        (b1.pulling_chunkservers ≠ ∅ → b1.pending_change = b.pending_change)) ∧
    (∀ id ∈ ids, s._block_map id = none → (DealDeadBlocks s dead_cs ids)._block_map id = none) ∧
    (∀ id, id ∉ ids → (DealDeadBlocks s dead_cs ids)._block_map id = s._block_map id) ∧
    (DealDeadBlocks s dead_cs ids)._blocks_to_replicate dead_cs = none ∧
    (∀ j, j ≠ dead_cs →
      (DealDeadBlocks s dead_cs ids)._blocks_to_replicate j = s._blocks_to_replicate j) ∧
    (DealDeadBlocks s dead_cs ids)._next_block_id = s._next_block_id := by
  refine ⟨?_, ?_, ?_, unset_same _ _, fun j hj => unset_other _ _ _ hj, rfl⟩
  · intro id hid b hb
    obtain ⟨h1, h2, h3, h4, h5, _⟩ := purge_spec dead_cs b
    exact ⟨DealDeadBlocks.purge dead_cs b, by simp [DealDeadBlocks_map, hid, hb],
      h1, h2, h3, h4, h5⟩
  · intro id hid hb
    simp [DealDeadBlocks_map, hid, hb]
  · intro id hid
    simp [DealDeadBlocks_map, hid]

/-- Scenario 4, the witness of C11: block 9 with `replica = {1,2,3}` and an
empty pulling set; after `DealDeadBlocks(2, {9})` it has `replica = {1,3}`, an
empty pulling set and `pending_change` false as before. -/
theorem DealDeadBlocks_purges_witness :
    (∃ b1, (DealDeadBlocks holding9 2 {9})._block_map 9 = some b1 ∧
        (2 : Int) ∉ b1.replica ∧ (2 : Int) ∉ b1.pulling_chunkservers ∧
        (∀ x, x ≠ (2 : Int) → ((x ∈ b1.replica ↔ x ∈ block9.replica) ∧
          (x ∈ b1.pulling_chunkservers ↔ x ∈ block9.pulling_chunkservers))) ∧
        (b1.pulling_chunkservers = ∅ → b1.pending_change = false) ∧
        (b1.pulling_chunkservers ≠ ∅ → b1.pending_change = block9.pending_change)) ∧
    (∃ b1, (DealDeadBlocks holding9 2 {9})._block_map 9 = some b1 ∧
        b1.replica = {1, 3} ∧ b1.pulling_chunkservers = ∅ ∧ b1.pending_change = false) :=
  ⟨(DealDeadBlocks_purges holding9 2 {9}).1 9 (by decide) block9 (by decide),
   ⟨DealDeadBlocks.purge 2 block9, by rw [DealDeadBlocks_map]; rfl, by decide, by decide,
    by decide⟩⟩

/-! ## Effect of each call on the records -/

/-- The record the replica step stores under `id`, and the frame. -/
theorem replicaStep_effect (s : BlockMapping) (id cs : Int) (b0 : NSBlock) (m : Option Int) :
    (∀ j, j ≠ id →
      (UpdateBlockInfo.replicaStep s id cs b0 m).state._block_map j = s._block_map j) ∧
    (UpdateBlockInfo.replicaStep s id cs b0 m).state._blocks_to_replicate =
      s._blocks_to_replicate ∧
    (UpdateBlockInfo.replicaStep s id cs b0 m).state._next_block_id = s._next_block_id ∧
    ∃ b1, (UpdateBlockInfo.replicaStep s id cs b0 m).state._block_map id = some b1 ∧
      b1.pulling_chunkservers = b0.pulling_chunkservers ∧
      b1.expect_replica_num = b0.expect_replica_num ∧
      b1.replica ⊆ insert cs b0.replica ∧
      (b1.pending_change = false →
        (b1.replica.card : Int) = b1.expect_replica_num ∧ b0.pending_change = false) := by
  unfold UpdateBlockInfo.replicaStep
  simp only
  split_ifs with h1 h2 h3
  · refine ⟨fun j hj => store_other _ _ _ _ hj, rfl, rfl, _, store_same _ _ _, rfl, rfl, ?_, ?_⟩
    · exact Finset.erase_subset _ _
    · simp
  · refine ⟨fun j hj => store_other _ _ _ _ hj, rfl, rfl, _, store_same _ _ _, rfl, rfl, ?_, ?_⟩
    · exact Finset.Subset.refl _
    · simp
  · refine ⟨fun j hj => store_other _ _ _ _ hj, rfl, rfl, _, store_same _ _ _, rfl, rfl, ?_, ?_⟩
    · exact Finset.Subset.refl _
    · intro hp
      exact absurd hp h2
  · refine ⟨fun j hj => store_other _ _ _ _ hj, rfl, rfl, _, store_same _ _ _, rfl, rfl, ?_, ?_⟩
    · exact Finset.Subset.refl _
    · intro hp
      exact ⟨by simpa using h1, hp⟩

/-- Every record after `UpdateBlockInfo` comes from the record that was under
the same id: it is that record, or it is the reported block, with the pulling
set and the expected number as before, no replica other than the old ones and
the reporter, and, unless it is pending, the expected number of replicas and
no change pending before either. -/
theorem UpdateBlockInfo_effect (s : BlockMapping) (id cs size ver : Int) (m : Option Int) :
    (UpdateBlockInfo s id cs size ver m).state._blocks_to_replicate = s._blocks_to_replicate ∧
    (UpdateBlockInfo s id cs size ver m).state._next_block_id = s._next_block_id ∧
    ∀ j b1, (UpdateBlockInfo s id cs size ver m).state._block_map j = some b1 →
      ∃ b, s._block_map j = some b ∧
        (b1 = b ∨ (j = id ∧ b1.pulling_chunkservers = b.pulling_chunkservers ∧
          b1.expect_replica_num = b.expect_replica_num ∧ b1.replica ⊆ insert cs b.replica ∧
          (b1.pending_change = false →
            (b1.replica.card : Int) = b1.expect_replica_num ∧ b.pending_change = false))) := by
  have key : ∀ b b0 : NSBlock, s._block_map id = some b →
      b0.pulling_chunkservers = b.pulling_chunkservers →
      b0.expect_replica_num = b.expect_replica_num → b0.replica = b.replica →
      b0.pending_change = b.pending_change →
      ((UpdateBlockInfo.replicaStep s id cs b0 m).state._blocks_to_replicate =
          s._blocks_to_replicate ∧
        (UpdateBlockInfo.replicaStep s id cs b0 m).state._next_block_id = s._next_block_id ∧
        ∀ j b1, (UpdateBlockInfo.replicaStep s id cs b0 m).state._block_map j = some b1 →
          ∃ b, s._block_map j = some b ∧
            (b1 = b ∨ (j = id ∧ b1.pulling_chunkservers = b.pulling_chunkservers ∧
              b1.expect_replica_num = b.expect_replica_num ∧
              b1.replica ⊆ insert cs b.replica ∧
              (b1.pending_change = false →
                (b1.replica.card : Int) = b1.expect_replica_num ∧
                  b.pending_change = false)))) := by
    intro b b0 hb e1 e2 e3 e4
    obtain ⟨hframe, hq, hn, b2, hb2, g1, g2, g3, g4⟩ := replicaStep_effect s id cs b0 m
    refine ⟨hq, hn, ?_⟩
    intro j b1 hj
    by_cases hji : j = id
    · subst hji
      rw [hb2] at hj
      obtain rfl := Option.some.inj hj
      exact ⟨b, hb, Or.inr ⟨rfl, g1.trans e1, g2.trans e2, e3 ▸ g3,
        fun hp => ⟨(g4 hp).1, e4 ▸ (g4 hp).2⟩⟩⟩
    · rw [hframe j hji] at hj
      exact ⟨b1, hj, Or.inl rfl⟩
  unfold UpdateBlockInfo
  cases hb : s._block_map id with
  | none => exact ⟨rfl, rfl, fun j b1 hj => ⟨b1, hj, Or.inl rfl⟩⟩
  | some b =>
    simp only
    split_ifs
    · exact ⟨rfl, rfl, fun j b1 hj => ⟨b1, hj, Or.inl rfl⟩⟩
    · exact ⟨rfl, rfl, fun j b1 hj => ⟨b1, hj, Or.inl rfl⟩⟩
    · exact key b _ hb rfl rfl rfl rfl
    · exact key b _ hb rfl rfl rfl rfl

theorem modify_some (m : Int → Option NSBlock) (id : Int) (f : NSBlock → NSBlock)
    (j : Int) (b1 : NSBlock) (h : modify m id f j = some b1) :
    ∃ b, m j = some b ∧ ((j ≠ id ∧ b1 = b) ∨ (j = id ∧ b1 = f b)) := by
  unfold modify at h
  by_cases hj : j = id
  · rw [if_pos hj] at h
    cases hb : m j with
    | none => rw [hb] at h; simp at h
    | some b =>
      rw [hb] at h
      simp only [Option.map_some', Option.some.injEq] at h
      exact ⟨b, rfl, Or.inr ⟨hj, h.symm⟩⟩
  · rw [if_neg hj] at h
    exact ⟨b1, h, Or.inl ⟨hj, rfl⟩⟩

theorem modify_none (m : Int → Option NSBlock) (id : Int) (f : NSBlock → NSBlock) (j : Int) :
    modify m id f j = none ↔ m j = none := by
  unfold modify
  by_cases hj : j = id <;> simp [hj]

theorem store_eq_modify (m : Int → Option NSBlock) (id : Int) (b : NSBlock)
    (f : NSBlock → NSBlock) (hb : m id = some b) : store m id (f b) = modify m id f := by
  funext j
  unfold store modify
  by_cases hj : j = id
  · subst hj; simp [hb]
  · simp [hj]

theorem modify_absent (m : Int → Option NSBlock) (id : Int) (f : NSBlock → NSBlock)
    (hb : m id = none) : modify m id f = m := by
  funext j
  unfold modify
  by_cases hj : j = id
  · subst hj; simp [hb]
  · simp [hj]

/-- Below `INT64_MAX` the increment is the successor. -/
theorem inc64_below (x : Int) (h : x < INT64_MAX) : inc64 x = x + 1 := by
  unfold inc64
  rw [if_pos h]

/-- The increment of `INT64_MAX` is `INT64_MIN`. -/
theorem inc64_max : inc64 INT64_MAX = INT64_MIN := by
  decide

theorem NewBlockID_effect (s : BlockMapping) :
    (NewBlockID s).1._block_map = s._block_map ∧
    (NewBlockID s).1._blocks_to_replicate = s._blocks_to_replicate ∧
    (NewBlockID s).1._next_block_id = inc64 s._next_block_id ∧
    (NewBlockID s).2 = s._next_block_id :=
  ⟨rfl, rfl, rfl, rfl⟩

theorem AddNewBlock_effect (d : NSBlockInit) (s s1 : BlockMapping) (id : Int)
    (h : AddNewBlock d s id = some s1) :
    s._block_map id = none ∧ s1._block_map = store s._block_map id (NSBlock.create d id) ∧
    s1._blocks_to_replicate = s._blocks_to_replicate ∧
    s1._next_block_id = (if s._next_block_id ≤ id then inc64 id else s._next_block_id) ∧
    (id < INT64_MAX → s1._next_block_id = max s._next_block_id (id + 1)) := by
  unfold AddNewBlock at h
  cases hb : s._block_map id with
  | some b => rw [hb] at h; simp at h
  | none =>
    rw [hb] at h
    simp only at h
    split_ifs at h with h1
    · obtain rfl := Option.some.inj h
      refine ⟨rfl, rfl, rfl, (if_pos h1).symm, ?_⟩
      intro hid
      simp only
      rw [inc64_below id hid, max_eq_right]
      omega
    · obtain rfl := Option.some.inj h
      refine ⟨rfl, rfl, rfl, (if_neg h1).symm, ?_⟩
      intro _
      simp only
      rw [max_eq_left]
      omega

/-- `AddNewBlock` returns on every id without record. -/
theorem AddNewBlock_returns (d : NSBlockInit) (s : BlockMapping) (id : Int)
    (habs : s._block_map id = none) : ∃ s1, AddNewBlock d s id = some s1 := by
  unfold AddNewBlock
  rw [habs]
  simp only
  split_ifs
  · exact ⟨_, rfl⟩
  · exact ⟨_, rfl⟩

theorem MarkPullBlock_effect (s s1 : BlockMapping) (dst id : Int) (r : Bool)
    (h : MarkPullBlock s dst id = some (s1, r)) :
    (∃ b, s._block_map id = some b) ∧
    s1._block_map = modify s._block_map id
      (fun b => { b with pulling_chunkservers := insert dst b.pulling_chunkservers }) ∧
    s1._next_block_id = s._next_block_id ∧
    (∀ cs, s1._blocks_to_replicate cs = s._blocks_to_replicate cs ∨
      (cs = dst ∧ s1._blocks_to_replicate cs =
        some (insert id ((s._blocks_to_replicate dst).getD ∅)))) := by
  unfold MarkPullBlock at h
  cases hb : s._block_map id with
  | none => rw [hb] at h; simp at h
  | some b =>
    rw [hb] at h
    simp only at h
    split_ifs at h with h1
    · simp only [Option.some.injEq, Prod.mk.injEq] at h
      obtain ⟨rfl, rfl⟩ := h
      refine ⟨⟨b, rfl⟩, ?_, rfl, fun cs => Or.inl rfl⟩
      rw [← store_eq_modify s._block_map id b _ hb]
      funext j
      unfold store
      by_cases hj : j = id
      · subst hj
        have hin : insert dst b.pulling_chunkservers = b.pulling_chunkservers :=
          Finset.insert_eq_of_mem h1
        simp [hb, hin]
      · simp [hj]
    · simp only [Option.some.injEq, Prod.mk.injEq] at h
      obtain ⟨rfl, rfl⟩ := h
      refine ⟨⟨b, rfl⟩, ?_, rfl, ?_⟩
      · exact store_eq_modify s._block_map id b
          (fun b => { b with pulling_chunkservers := insert dst b.pulling_chunkservers }) hb
      · intro cs
        by_cases hc : cs = dst
        · exact Or.inr ⟨hc, by subst hc; exact store_same _ _ _⟩
        · exact Or.inl (store_other _ _ _ _ hc)

theorem UnmarkPullBlock_effect (s : BlockMapping) (cs id : Int) :
    (UnmarkPullBlock s cs id)._block_map = modify s._block_map id (UnmarkPullBlock.record cs) ∧
    (UnmarkPullBlock s cs id)._blocks_to_replicate = s._blocks_to_replicate ∧
    (UnmarkPullBlock s cs id)._next_block_id = s._next_block_id := by
  unfold UnmarkPullBlock
  cases hb : s._block_map id with
  | none => exact ⟨(modify_absent _ _ _ hb).symm, rfl, rfl⟩
  | some b => exact ⟨store_eq_modify s._block_map id b (UnmarkPullBlock.record cs) hb, rfl, rfl⟩

theorem GetPullBlocks_effect (s s1 : BlockMapping) (id : Int) (r : Bool)
    (blocks out : List (Int × Finset Int)) (h : GetPullBlocks s id blocks = some (s1, r, out)) :
    s1._block_map = s._block_map ∧ s1._next_block_id = s._next_block_id ∧
    ∀ j, s1._blocks_to_replicate j = if j = id then none else s._blocks_to_replicate j := by
  unfold GetPullBlocks at h
  cases hq : s._blocks_to_replicate id with
  | none =>
    rw [hq] at h
    simp only [Option.some.injEq, Prod.mk.injEq] at h
    obtain ⟨rfl, -, -⟩ := h
    refine ⟨rfl, rfl, ?_⟩
    intro j
    by_cases hj : j = id
    · subst hj; simp [hq]
    · simp [hj]
  | some q =>
    rw [hq] at h
    simp only at h
    cases hl : GetPullBlocks.loop s._block_map (q.sort (· ≤ ·)) blocks with
    | none => rw [hl] at h; simp at h
    | some l =>
      rw [hl] at h
      simp only [Option.some.injEq, Prod.mk.injEq] at h
      obtain ⟨rfl, -, -⟩ := h
      exact ⟨rfl, rfl, fun j => rfl⟩

theorem MarkBlockStable_effect (s : BlockMapping) (id : Int) :
    (MarkBlockStable s id).1._block_map =
      modify s._block_map id (fun b => { b with pending_change := false }) ∧
    (MarkBlockStable s id).1._blocks_to_replicate = s._blocks_to_replicate ∧
    (MarkBlockStable s id).1._next_block_id = s._next_block_id := by
  unfold MarkBlockStable
  cases hb : s._block_map id with
  | none => exact ⟨(modify_absent _ _ _ hb).symm, rfl, rfl⟩
  | some b =>
    exact ⟨store_eq_modify s._block_map id b (fun b => { b with pending_change := false }) hb,
      rfl, rfl⟩

theorem SetBlockVersion_effect (s : BlockMapping) (id v : Int) :
    (SetBlockVersion s id v).1._block_map =
      modify s._block_map id (fun b => { b with version := v }) ∧
    (SetBlockVersion s id v).1._blocks_to_replicate = s._blocks_to_replicate ∧
    (SetBlockVersion s id v).1._next_block_id = s._next_block_id := by
  unfold SetBlockVersion
  cases hb : s._block_map id with
  | none => exact ⟨(modify_absent _ _ _ hb).symm, rfl, rfl⟩
  | some b =>
    exact ⟨store_eq_modify s._block_map id b (fun b => { b with version := v }) hb, rfl, rfl⟩

theorem ChangeReplicaNum_effect (s s1 : BlockMapping) (id n : Int) (r : Bool)
    (h : ChangeReplicaNum s id n = some (s1, r)) :
    s1._block_map = modify s._block_map id (fun b => { b with expect_replica_num := n }) ∧
    s1._blocks_to_replicate = s._blocks_to_replicate ∧
    s1._next_block_id = s._next_block_id := by
  unfold ChangeReplicaNum at h
  cases hb : s._block_map id with
  | none => rw [hb] at h; simp at h
  | some b =>
    rw [hb] at h
    simp only [Option.some.injEq, Prod.mk.injEq] at h
    obtain ⟨rfl, -⟩ := h
    exact ⟨store_eq_modify s._block_map id b (fun b => { b with expect_replica_num := n }) hb,
      rfl, rfl⟩

theorem RemoveBlock_effect (s : BlockMapping) (id : Int) :
    (RemoveBlock s id)._block_map = unset s._block_map id ∧
    (RemoveBlock s id)._blocks_to_replicate = s._blocks_to_replicate ∧
    (RemoveBlock s id)._next_block_id = s._next_block_id := by
  unfold RemoveBlock
  cases hb : s._block_map id with
  | none =>
    refine ⟨?_, rfl, rfl⟩
    funext j
    unfold unset
    by_cases hj : j = id
    · subst hj; simp [hb]
    · simp [hj]
  | some b => exact ⟨rfl, rfl, rfl⟩

theorem UnmarkPullBlock_record_spec (cs : Int) (b : NSBlock) :
    (UnmarkPullBlock.record cs b).pulling_chunkservers = b.pulling_chunkservers.erase cs ∧
    (UnmarkPullBlock.record cs b).replica = insert cs b.replica ∧
    (UnmarkPullBlock.record cs b).expect_replica_num = b.expect_replica_num ∧
    (UnmarkPullBlock.record cs b).version = b.version ∧
    (UnmarkPullBlock.record cs b).block_size = b.block_size ∧
    (UnmarkPullBlock.record cs b).id = b.id ∧
    (UnmarkPullBlock.record cs b).pending_change =
      (if b.pulling_chunkservers.erase cs = ∅ then false else b.pending_change) := by
  unfold UnmarkPullBlock.record
  by_cases he : b.pulling_chunkservers.erase cs = ∅ <;>
    cases hp : b.pending_change <;> simp [he, hp]

/-! ## Invariants along a run -/

/-- A property kept by every allowed call that returns is kept by every
guarded run. -/
theorem run_invariant (d : NSBlockInit) (I : BlockMapping → Prop)
    (allowed : BlockMapping → Op → Prop)
    (hstep : ∀ s op s1, I s → allowed s op → step d s op = some s1 → I s1) :
    ∀ (ops : List Op) (s s1 : BlockMapping),
      I s → guarded allowed d s ops → run d s ops = some s1 → I s1 := by
  intro ops
  induction ops with
  | nil =>
    intro s s1 hI _ hr
    simp only [run, Option.some.injEq] at hr
    exact hr ▸ hI
  | cons op rest ih =>
    intro s s1 hI hg hr
    simp only [run] at hr
    cases hs : step d s op with
    | none => rw [hs] at hr; simp at hr
    | some s2 =>
      rw [hs] at hr
      have hg2 := hg.2
      rw [hs] at hg2
      exact ih s2 s1 (hstep s op s2 hI hg.1 hs) hg2 hr

theorem inter_empty_iff (p r : Finset Int) : p ∩ r = ∅ ↔ ∀ x, x ∈ p → x ∉ r := by
  simp [Finset.eq_empty_iff_forall_not_mem, Finset.mem_inter]

/-- A call that changes records only by `f` keeps a property of single records
that `f` keeps. -/
theorem modify_keeps (P : NSBlock → Prop) (m m1 : Int → Option NSBlock) (id : Int)
    (f : NSBlock → NSBlock) (hm : m1 = modify m id f)
    (hf : ∀ b, m id = some b → P b → P (f b))
    (h : ∀ j b, m j = some b → P b) : ∀ j b, m1 j = some b → P b := by
  intro j b hb
  rw [hm] at hb
  obtain ⟨b0, h0, hc⟩ := modify_some m id f j b hb
  rcases hc with ⟨_, rfl⟩ | ⟨hj, rfl⟩
  · exact h j _ h0
  · subst hj
    exact hf b0 h0 (h j b0 h0)

/-- One allowed call keeps holders and pullers disjoint. -/
theorem step_keepsApart (d : NSBlockInit) (s : BlockMapping) (op : Op) (s1 : BlockMapping)
    (hinv : HoldersPullersDisjoint s) (ha : keepsApart s op) (hs : step d s op = some s1) :
    HoldersPullersDisjoint s1 := by
  unfold HoldersPullersDisjoint at hinv ⊢
  cases op with
  | NewBlockID =>
    simp only [step, Option.some.injEq] at hs
    subst hs
    obtain ⟨hm, _⟩ := NewBlockID_effect s
    rw [hm]; exact hinv
  | AddNewBlock id =>
    obtain ⟨_, hm, _⟩ := AddNewBlock_effect d s s1 id hs
    intro j b hb
    rw [hm] at hb
    unfold store at hb
    by_cases hj : j = id
    · rw [if_pos hj] at hb
      obtain rfl := Option.some.inj hb
      simp [NSBlock.create]
    · rw [if_neg hj] at hb
      exact hinv j b hb
  | UpdateBlockInfo id cs size ver m =>
    simp only [step, Option.some.injEq] at hs
    subst hs
    intro j b1 hb1
    obtain ⟨b, hb, hc⟩ := (UpdateBlockInfo_effect s id cs size ver m).2.2 j b1 hb1
    rcases hc with rfl | ⟨hj, hp, _, hr, _⟩
    · exact hinv j _ hb
    · subst hj
      rw [inter_empty_iff]
      intro x hx hxr
      rw [hp] at hx
      rcases Finset.mem_insert.mp (hr hxr) with hxc | hxo
      · subst hxc
        simp only [keepsApart, hb] at ha
        exact ha hx
      · exact (inter_empty_iff _ _).mp (hinv j b hb) x hx hxo
  | MarkPullBlock dst id =>
    simp only [step, Option.map_eq_some', Prod.exists, exists_and_right, exists_eq_right] at hs
    obtain ⟨r, hs⟩ := hs
    obtain ⟨_, hm, _⟩ := MarkPullBlock_effect s s1 dst id r hs
    refine modify_keeps (fun b => b.pulling_chunkservers ∩ b.replica = ∅) _ _ id _ hm ?_ hinv
    intro b hb hP
    simp only [keepsApart, hb] at ha
    simp only
    rw [Finset.insert_inter_of_not_mem ha]
    exact hP
  | UnmarkPullBlock cs id =>
    simp only [step, Option.some.injEq] at hs
    subst hs
    refine modify_keeps (fun b => b.pulling_chunkservers ∩ b.replica = ∅) _ _ id _
      (UnmarkPullBlock_effect s cs id).1 ?_ hinv
    intro b _ hP
    obtain ⟨h1, h2, _⟩ := UnmarkPullBlock_record_spec cs b
    show (UnmarkPullBlock.record cs b).pulling_chunkservers ∩
      (UnmarkPullBlock.record cs b).replica = ∅
    rw [h1, h2, inter_empty_iff]
    intro x hx hxr
    obtain ⟨hne, hxp⟩ := Finset.mem_erase.mp hx
    rcases Finset.mem_insert.mp hxr with hxc | hxo
    · exact hne hxc
    · exact (inter_empty_iff _ _).mp hP x hxp hxo
  | GetPullBlocks id =>
    simp only [step, Option.map_eq_some', Prod.exists, exists_and_right, exists_eq_right] at hs
    obtain ⟨r, out, hs⟩ := hs
    obtain ⟨hm, _⟩ := GetPullBlocks_effect s s1 id r [] out hs
    rw [hm]; exact hinv
  | DealDeadBlocks dead blocks =>
    simp only [step, Option.some.injEq] at hs
    subst hs
    intro j b1 hb1
    rw [DealDeadBlocks_map] at hb1
    split_ifs at hb1 with hj
    · cases hb : s._block_map j with
      | none => rw [hb] at hb1; simp at hb1
      | some b =>
        rw [hb] at hb1
        simp only [Option.map_some', Option.some.injEq] at hb1
        subst hb1
        obtain ⟨_, _, _, _, _, h1, h2, _⟩ := purge_spec dead b
        rw [h1, h2, inter_empty_iff]
        intro x hx hxr
        exact (inter_empty_iff _ _).mp (hinv j b hb) x (Finset.mem_of_mem_erase hx)
          (Finset.mem_of_mem_erase hxr)
    · exact hinv j b1 hb1
  | MarkBlockStable id =>
    simp only [step, Option.some.injEq] at hs
    subst hs
    exact modify_keeps (fun b => b.pulling_chunkservers ∩ b.replica = ∅) _ _ id _
      (MarkBlockStable_effect s id).1 (fun b _ hP => hP) hinv
  | SetBlockVersion id v =>
    simp only [step, Option.some.injEq] at hs
    subst hs
    exact modify_keeps (fun b => b.pulling_chunkservers ∩ b.replica = ∅) _ _ id _
      (SetBlockVersion_effect s id v).1 (fun b _ hP => hP) hinv
  | ChangeReplicaNum id n =>
    simp only [step, Option.map_eq_some', Prod.exists, exists_and_right, exists_eq_right] at hs
    obtain ⟨r, hs⟩ := hs
    exact modify_keeps (fun b => b.pulling_chunkservers ∩ b.replica = ∅) _ _ id _
      (ChangeReplicaNum_effect s s1 id n r hs).1 (fun b _ hP => hP) hinv
  | RemoveBlock id =>
    simp only [step, Option.some.injEq] at hs
    subst hs
    intro j b hb
    rw [(RemoveBlock_effect s id).1] at hb
    unfold unset at hb
    split_ifs at hb
    exact hinv j b hb

/-- C12 as stated fails: after `AddNewBlock(1)`, `ChangeReplicaNum(1, 1)`, a
report of block 1 by chunkserver 5 and `MarkPullBlock(5, 1)`, chunkserver 5 is
both a holder and a puller of block 1; so it is when the report comes after
`MarkPullBlock(5, 1)`. -/
theorem HoldersPullersDisjoint_counterexample :
    (∃ s, run d0 init [.AddNewBlock 1, .ChangeReplicaNum 1 1,
        .UpdateBlockInfo 1 5 0 (-1) (some 0), .MarkPullBlock 5 1] = some s ∧
      ∃ b, s._block_map 1 = some b ∧
        (5 : Int) ∈ b.pulling_chunkservers ∧ (5 : Int) ∈ b.replica ∧
        ¬ HoldersPullersDisjoint s) ∧
    (∃ s, run d0 init [.AddNewBlock 1, .ChangeReplicaNum 1 1, .MarkPullBlock 5 1,
        .UpdateBlockInfo 1 5 0 (-1) (some 0)] = some s ∧
      ∃ b, s._block_map 1 = some b ∧
        (5 : Int) ∈ b.pulling_chunkservers ∧ (5 : Int) ∈ b.replica ∧
        ¬ HoldersPullersDisjoint s) :=
  ⟨⟨_, rfl, _, rfl, by decide, by decide, fun h => by
      have h5 := (inter_empty_iff _ _).mp (h 1 _ rfl) 5
      exact absurd (h5 (by decide)) (by decide)⟩,
   ⟨_, rfl, _, rfl, by decide, by decide, fun h => by
      have h5 := (inter_empty_iff _ _).mp (h 1 _ rfl) 5
      exact absurd (h5 (by decide)) (by decide)⟩⟩

/-- C12, amended. Holders and pullers are disjoint in every state reached from
the empty index by public calls in which `MarkPullBlock(dst, id)` is made only
for a `dst` outside the replica set of the block and `UpdateBlockInfo(id, cs)`
only for a `cs` outside its pulling set. -/
theorem HoldersPullersDisjoint_guarded (d : NSBlockInit) (ops : List Op) (s : BlockMapping)
    (hg : guarded keepsApart d init ops) (hr : run d init ops = some s) :
    HoldersPullersDisjoint s :=
  run_invariant d HoldersPullersDisjoint keepsApart (step_keepsApart d) ops init s
    (fun _ _ h => by simp [init] at h) hg hr

/-- Scenario 3, a witness of the amended C12: the run `scenario3` makes only
calls that keep holders and pullers apart. -/
theorem HoldersPullersDisjoint_guarded_witness :
    ∃ s, run d0 init scenario3 = some s ∧ HoldersPullersDisjoint s :=
  ⟨_, rfl, HoldersPullersDisjoint_guarded d0 scenario3 _
    ⟨trivial, trivial, Finset.not_mem_empty (1 : Int), Finset.not_mem_empty (2 : Int),
      (by decide : (5 : Int) ∉ insert (2 : Int) (insert (1 : Int) (∅ : Finset Int))),
      trivial, trivial⟩ rfl⟩

theorem StableAtRest_underReplicated : StableAtRest underReplicated := by
  intro id b hb hp
  simp only [underReplicated, store] at hb
  split_ifs at hb
  obtain rfl := Option.some.inj hb
  exact ⟨by decide, rfl⟩

theorem StableAtRest_pulling7 : StableAtRest pulling7 := by
  intro id b hb hp
  simp only [pulling7, store] at hb
  split_ifs at hb
  obtain rfl := Option.some.inj hb
  exact absurd hp (by decide)

theorem StableAtRest_holding9 : StableAtRest holding9 := by
  intro id b hb hp
  simp only [holding9, store] at hb
  split_ifs at hb
  obtain rfl := Option.some.inj hb
  exact ⟨by decide, rfl⟩

theorem StableAtRest_overPending : StableAtRest overPending := by
  intro id b hb hp
  simp only [overPending, store] at hb
  split_ifs at hb
  obtain rfl := Option.some.inj hb
  exact absurd hp (by decide)

/-- Each of `MarkPullBlock`, `ChangeReplicaNum`, `UnmarkPullBlock`,
`MarkBlockStable` and `DealDeadBlocks` takes some state in which every stable
block is at rest to a state in which one is not. -/
theorem StableAtRest_broken :
    (StableAtRest underReplicated ∧
      ∃ s1, MarkPullBlock underReplicated 5 7 = some (s1, true) ∧ ¬ StableAtRest s1) ∧
    (StableAtRest underReplicated ∧
      ∃ s1, ChangeReplicaNum underReplicated 7 1 = some (s1, true) ∧ ¬ StableAtRest s1) ∧
    (StableAtRest holding9 ∧ ¬ StableAtRest (UnmarkPullBlock holding9 5 9)) ∧
    (StableAtRest pulling7 ∧ ¬ StableAtRest (MarkBlockStable pulling7 7).1) ∧
    (StableAtRest overPending ∧ ¬ StableAtRest (DealDeadBlocks overPending 9 {11})) := by
  refine ⟨⟨StableAtRest_underReplicated, _, rfl, fun h => ?_⟩,
    ⟨StableAtRest_underReplicated, _, rfl, fun h => ?_⟩,
    ⟨StableAtRest_holding9, fun h => ?_⟩,
    ⟨StableAtRest_pulling7, fun h => ?_⟩,
    ⟨StableAtRest_overPending, fun h => ?_⟩⟩
  · exact absurd (h 7 _ rfl rfl).2 (by decide)
  · exact absurd (h 7 _ rfl rfl).1 (by decide)
  · exact absurd (h 9 _ rfl rfl).1 (by decide)
  · exact absurd (h 7 _ rfl rfl).2 (by decide)
  · have hm : (DealDeadBlocks overPending 9 {11})._block_map 11 =
        some (DealDeadBlocks.purge 9 { block11 with pending_change := true }) := by
      rw [DealDeadBlocks_map]
      rfl
    exact absurd (h 11 _ hm (by decide)).1 (by decide)

/-- A call that changes one record by `f` and leaves the queue alone keeps the
queue in step with the pulling sets, when `f` keeps every puller for which the
block is queued. -/
theorem QueueAgrees_modify (s s1 : BlockMapping) (id0 : Int) (f : NSBlock → NSBlock)
    (hm : s1._block_map = modify s._block_map id0 f)
    (hq : s1._blocks_to_replicate = s._blocks_to_replicate)
    (hf : ∀ b cs q, s._block_map id0 = some b → cs ∈ b.pulling_chunkservers →
      s._blocks_to_replicate cs = some q → id0 ∈ q → cs ∈ (f b).pulling_chunkservers)
    (hinv : QueueAgrees s) : QueueAgrees s1 := by
  intro cs q id hcs hid
  rw [hq] at hcs
  obtain ⟨b, hb, hmem⟩ := hinv cs q id hcs hid
  rw [hm]
  unfold modify
  by_cases hj : id = id0
  · subst hj
    exact ⟨f b, by simp [hb], hf b cs q hb hmem hcs hid⟩
  · exact ⟨b, by simp [hj, hb], hmem⟩

/-- One call of `keepsQueue` keeps the queue in step with the pulling sets. -/
theorem step_keepsQueue (d : NSBlockInit) (s : BlockMapping) (op : Op) (s1 : BlockMapping)
    (hinv : QueueAgrees s) (ha : keepsQueue s op) (hs : step d s op = some s1) :
    QueueAgrees s1 := by
  cases op with
  | NewBlockID =>
    simp only [step, Option.some.injEq] at hs
    subst hs
    obtain ⟨hm, hq, _⟩ := NewBlockID_effect s
    unfold QueueAgrees
    rw [hm, hq]; exact hinv
  | AddNewBlock id0 =>
    obtain ⟨hnone, hm, hq, _⟩ := AddNewBlock_effect d s s1 id0 hs
    intro cs q id hcs hid
    rw [hq] at hcs
    obtain ⟨b, hb, hmem⟩ := hinv cs q id hcs hid
    have hne : id ≠ id0 := by
      rintro rfl
      rw [hnone] at hb
      exact absurd hb (by simp)
    exact ⟨b, by rw [hm, store_other _ _ _ _ hne]; exact hb, hmem⟩
  | UpdateBlockInfo id0 cs0 size ver m =>
    simp only [step, Option.some.injEq] at hs
    subst hs
    obtain ⟨hq, _, heff⟩ := UpdateBlockInfo_effect s id0 cs0 size ver m
    intro cs q id hcs hid
    rw [hq] at hcs
    obtain ⟨b, hb, hmem⟩ := hinv cs q id hcs hid
    cases h1 : (UpdateBlockInfo s id0 cs0 size ver m).state._block_map id with
    | none =>
      rw [UpdateBlockInfo_keys] at h1
      rw [h1] at hb
      exact absurd hb (by simp)
    | some b1 =>
      obtain ⟨b2, hb2, hc⟩ := heff id b1 h1
      rw [hb] at hb2
      obtain rfl := Option.some.inj hb2
      rcases hc with rfl | ⟨_, hp, _⟩
      · exact ⟨_, rfl, hmem⟩
      · exact ⟨_, rfl, hp ▸ hmem⟩
  | MarkPullBlock dst id0 =>
    simp only [step, Option.map_eq_some', Prod.exists, exists_and_right, exists_eq_right] at hs
    obtain ⟨r, hs⟩ := hs
    obtain ⟨⟨b0, hb0⟩, hm, _, hq⟩ := MarkPullBlock_effect s s1 dst id0 r hs
    have hold : ∀ cs q id, s._blocks_to_replicate cs = some q → id ∈ q →
        ∃ b, s1._block_map id = some b ∧ cs ∈ b.pulling_chunkservers := by
      intro cs q id hcs hid
      obtain ⟨b, hb, hmem⟩ := hinv cs q id hcs hid
      rw [hm]
      unfold modify
      by_cases hj : id = id0
      · subst hj
        exact ⟨{ b with pulling_chunkservers := insert dst b.pulling_chunkservers },
          by simp [hb], Finset.mem_insert_of_mem hmem⟩
      · exact ⟨b, by simp [hj, hb], hmem⟩
    intro cs q id hcs hid
    rcases hq cs with h1 | ⟨hc, h1⟩
    · rw [h1] at hcs
      exact hold cs q id hcs hid
    · rw [h1] at hcs
      obtain rfl := Option.some.inj hcs
      subst hc
      rcases Finset.mem_insert.mp hid with hi | hi
      · subst hi
        exact ⟨{ b0 with pulling_chunkservers := insert cs b0.pulling_chunkservers },
          by rw [hm]; simp [modify, hb0], Finset.mem_insert_self _ _⟩
      · cases hqo : s._blocks_to_replicate cs with
        | none => rw [hqo] at hi; simp at hi
        | some q0 =>
          rw [hqo] at hi
          exact hold cs q0 id hqo hi
  | UnmarkPullBlock cs0 id0 =>
    simp only [step, Option.some.injEq] at hs
    subst hs
    obtain ⟨hm, hq, _⟩ := UnmarkPullBlock_effect s cs0 id0
    refine QueueAgrees_modify s _ id0 _ hm hq ?_ hinv
    intro b cs q _ hmem hcs hid
    rw [(UnmarkPullBlock_record_spec cs0 b).1]
    refine Finset.mem_erase.mpr ⟨?_, hmem⟩
    rintro rfl
    simp only [keepsQueue, hcs] at ha
    exact ha hid
  | GetPullBlocks id0 =>
    simp only [step, Option.map_eq_some', Prod.exists, exists_and_right, exists_eq_right] at hs
    obtain ⟨r, out, hs⟩ := hs
    obtain ⟨hm, _, hq⟩ := GetPullBlocks_effect s s1 id0 r [] out hs
    intro cs q id hcs hid
    rw [hq] at hcs
    split_ifs at hcs
    rw [hm]
    exact hinv cs q id hcs hid
  | DealDeadBlocks dead blocks =>
    simp only [step, Option.some.injEq] at hs
    subst hs
    intro cs q id hcs hid
    have hcs1 : unset s._blocks_to_replicate dead cs = some q := hcs
    unfold unset at hcs1
    split_ifs at hcs1 with hc
    obtain ⟨b, hb, hmem⟩ := hinv cs q id hcs1 hid
    rw [DealDeadBlocks_map]
    by_cases hj : id ∈ blocks
    · refine ⟨DealDeadBlocks.purge dead b, by simp [hj, hb], ?_⟩
      obtain ⟨_, _, h3, _⟩ := purge_spec dead b
      exact ((h3 cs hc).2).mpr hmem
    · exact ⟨b, by simp [hj, hb], hmem⟩
  | MarkBlockStable id0 =>
    simp only [step, Option.some.injEq] at hs
    subst hs
    obtain ⟨hm, hq, _⟩ := MarkBlockStable_effect s id0
    exact QueueAgrees_modify s _ id0 _ hm hq (fun b cs q _ hmem _ _ => hmem) hinv
  | SetBlockVersion id0 v =>
    simp only [step, Option.some.injEq] at hs
    subst hs
    obtain ⟨hm, hq, _⟩ := SetBlockVersion_effect s id0 v
    exact QueueAgrees_modify s _ id0 _ hm hq (fun b cs q _ hmem _ _ => hmem) hinv
  | ChangeReplicaNum id0 n =>
    simp only [step, Option.map_eq_some', Prod.exists, exists_and_right, exists_eq_right] at hs
    obtain ⟨r, hs⟩ := hs
    obtain ⟨hm, hq, _⟩ := ChangeReplicaNum_effect s s1 id0 n r hs
    exact QueueAgrees_modify s _ id0 _ hm hq (fun b cs q _ hmem _ _ => hmem) hinv
  | RemoveBlock id0 =>
    simp only [step, Option.some.injEq] at hs
    subst hs
    obtain ⟨hm, hq, _⟩ := RemoveBlock_effect s id0
    intro cs q id hcs hid
    rw [hq] at hcs
    obtain ⟨b, hb, hmem⟩ := hinv cs q id hcs hid
    have hne : id ≠ id0 := by
      rintro rfl
      exact ha cs q hcs hid
    exact ⟨b, by rw [hm, unset_other _ _ _ hne]; exact hb, hmem⟩

/-- C14 as stated fails: after `AddNewBlock(1)`, `MarkPullBlock(5, 1)` and
`RemoveBlock(1)`, block 1 is still queued for chunkserver 5 and has no
record; after `UnmarkPullBlock(5, 1)` in place of the removal it is still
queued and chunkserver 5 is not pulling it. -/
theorem QueueAgrees_counterexample :
    (∃ s, run d0 init [.AddNewBlock 1, .MarkPullBlock 5 1, .RemoveBlock 1] = some s ∧
      (∃ q, s._blocks_to_replicate 5 = some q ∧ (1 : Int) ∈ q) ∧ s._block_map 1 = none ∧
      ¬ QueueAgrees s) ∧
    (∃ s, run d0 init [.AddNewBlock 1, .MarkPullBlock 5 1, .UnmarkPullBlock 5 1] = some s ∧
      (∃ q, s._blocks_to_replicate 5 = some q ∧ (1 : Int) ∈ q) ∧
      (∃ b, s._block_map 1 = some b ∧ (5 : Int) ∉ b.pulling_chunkservers) ∧
      ¬ QueueAgrees s) :=
  ⟨⟨_, rfl, ⟨_, rfl, by decide⟩, rfl, fun h => by
      obtain ⟨b, hb, _⟩ := h 5 _ 1 rfl (by decide)
      exact absurd (show (none : Option NSBlock) = some b from hb) (by simp)⟩,
   ⟨_, rfl, ⟨_, rfl, by decide⟩, ⟨_, rfl, by decide⟩, fun h => by
      obtain ⟨b, hb, hmem⟩ := h 5 _ 1 rfl (by decide)
      obtain rfl := Option.some.inj hb
      exact absurd hmem (by decide)⟩⟩

/-- C14, amended. In every state reached from the empty index by public calls
in which `UnmarkPullBlock(cs, id)` is made only once `id` is no longer queued
for `cs`, and `RemoveBlock(id)` only for a block that is queued for nobody,
every block id in `pending[cs]` is a key of the map and `cs` is a member of the
pulling set of its record. -/
theorem QueueAgrees_guarded (d : NSBlockInit) (ops : List Op) (s : BlockMapping)
    (hg : guarded keepsQueue d init ops) (hr : run d init ops = some s) :
    QueueAgrees s :=
  run_invariant d QueueAgrees keepsQueue (step_keepsQueue d) ops init s
    (fun _ _ _ h => by simp [init] at h) hg hr

/-- A witness of the amended C14: in the run `pullThenRemove` the pull is
reported by a chunkserver for which nothing is queued and the block removed is
queued for nobody; at the end block 7 is queued for chunkserver 5, which is
pulling it. -/
theorem QueueAgrees_guarded_witness :
    ∃ s, run d0 init pullThenRemove = some s ∧ QueueAgrees s ∧
      ∃ q, s._blocks_to_replicate 5 = some q ∧ (7 : Int) ∈ q :=
  ⟨_, rfl, QueueAgrees_guarded d0 pullThenRemove _
    ⟨trivial, trivial, trivial, trivial,
      fun cs q h => by
        have h1 : store init._blocks_to_replicate 5 (insert (7 : Int)
            ((init._blocks_to_replicate 5).getD ∅)) cs = some q := h
        unfold store init at h1
        split_ifs at h1
        obtain rfl := Option.some.inj h1
        decide,
      trivial⟩ rfl,
   _, rfl, by decide⟩

/-! ## The id allocator -/

/-- No call in which no increment wraps lowers `next_block_id`. -/
theorem step_next_mono (d : NSBlockInit) (s : BlockMapping) (op : Op) (s1 : BlockMapping)
    (ha : belowMax s op) (hs : step d s op = some s1) :
    s._next_block_id ≤ s1._next_block_id := by
  cases op with
  | NewBlockID =>
    simp only [step, Option.some.injEq] at hs
    subst hs
    obtain ⟨_, _, hn, _⟩ := NewBlockID_effect s
    rw [hn, inc64_below _ ha]
    omega
  | AddNewBlock id =>
    obtain ⟨_, _, _, _, hn⟩ := AddNewBlock_effect d s s1 id hs
    rw [hn ha]
    exact le_max_left _ _
  | UpdateBlockInfo id cs size ver m =>
    simp only [step, Option.some.injEq] at hs
    subst hs
    exact le_of_eq (UpdateBlockInfo_effect s id cs size ver m).2.1.symm
  | MarkPullBlock dst id =>
    simp only [step, Option.map_eq_some', Prod.exists, exists_and_right, exists_eq_right] at hs
    obtain ⟨r, hs⟩ := hs
    obtain ⟨_, _, hn, _⟩ := MarkPullBlock_effect s s1 dst id r hs
    exact le_of_eq hn.symm
  | UnmarkPullBlock cs id =>
    simp only [step, Option.some.injEq] at hs
    subst hs
    exact le_of_eq (UnmarkPullBlock_effect s cs id).2.2.symm
  | GetPullBlocks id =>
    simp only [step, Option.map_eq_some', Prod.exists, exists_and_right, exists_eq_right] at hs
    obtain ⟨r, out, hs⟩ := hs
    obtain ⟨_, hn, _⟩ := GetPullBlocks_effect s s1 id r [] out hs
    exact le_of_eq hn.symm
  | DealDeadBlocks dead blocks =>
    simp only [step, Option.some.injEq] at hs
    subst hs
    exact le_refl _
  | MarkBlockStable id =>
    simp only [step, Option.some.injEq] at hs
    subst hs
    exact le_of_eq (MarkBlockStable_effect s id).2.2.symm
  | SetBlockVersion id v =>
    simp only [step, Option.some.injEq] at hs
    subst hs
    exact le_of_eq (SetBlockVersion_effect s id v).2.2.symm
  | ChangeReplicaNum id n =>
    simp only [step, Option.map_eq_some', Prod.exists, exists_and_right, exists_eq_right] at hs
    obtain ⟨r, hs⟩ := hs
    exact le_of_eq (ChangeReplicaNum_effect s s1 id n r hs).2.2.symm
  | RemoveBlock id =>
    simp only [step, Option.some.injEq] at hs
    subst hs
    exact le_of_eq (RemoveBlock_effect s id).2.2.symm

/-- A key after a call was a key before it, or the call is its `AddNewBlock`. -/
theorem step_keys (d : NSBlockInit) (s : BlockMapping) (op : Op) (s1 : BlockMapping)
    (hs : step d s op = some s1) (j : Int) (b1 : NSBlock) (hj : s1._block_map j = some b1) :
    (∃ b, s._block_map j = some b) ∨ op = .AddNewBlock j := by
  have hmod : ∀ (id : Int) (f : NSBlock → NSBlock), s1._block_map = modify s._block_map id f →
      ∃ b, s._block_map j = some b := by
    intro id f hm
    rw [hm] at hj
    obtain ⟨b, hb, _⟩ := modify_some _ _ _ _ _ hj
    exact ⟨b, hb⟩
  cases op with
  | NewBlockID =>
    simp only [step, Option.some.injEq] at hs
    subst hs
    obtain ⟨hm, _⟩ := NewBlockID_effect s
    exact Or.inl ⟨b1, hm ▸ hj⟩
  | AddNewBlock id =>
    obtain ⟨_, hm, _⟩ := AddNewBlock_effect d s s1 id hs
    by_cases hji : j = id
    · exact Or.inr (by rw [hji])
    · rw [hm, store_other _ _ _ _ hji] at hj
      exact Or.inl ⟨b1, hj⟩
  | UpdateBlockInfo id cs size ver m =>
    simp only [step, Option.some.injEq] at hs
    subst hs
    obtain ⟨b, hb, _⟩ := (UpdateBlockInfo_effect s id cs size ver m).2.2 j b1 hj
    exact Or.inl ⟨b, hb⟩
  | MarkPullBlock dst id =>
    simp only [step, Option.map_eq_some', Prod.exists, exists_and_right, exists_eq_right] at hs
    obtain ⟨r, hs⟩ := hs
    exact Or.inl (hmod id _ (MarkPullBlock_effect s s1 dst id r hs).2.1)
  | UnmarkPullBlock cs id =>
    simp only [step, Option.some.injEq] at hs
    subst hs
    exact Or.inl (hmod id _ (UnmarkPullBlock_effect s cs id).1)
  | GetPullBlocks id =>
    simp only [step, Option.map_eq_some', Prod.exists, exists_and_right, exists_eq_right] at hs
    obtain ⟨r, out, hs⟩ := hs
    obtain ⟨hm, _⟩ := GetPullBlocks_effect s s1 id r [] out hs
    exact Or.inl ⟨b1, hm ▸ hj⟩
  | DealDeadBlocks dead blocks =>
    simp only [step, Option.some.injEq] at hs
    subst hs
    rw [DealDeadBlocks_map] at hj
    split_ifs at hj
    · cases hb : s._block_map j with
      | none => rw [hb] at hj; simp at hj
      | some b => exact Or.inl ⟨b, rfl⟩
    · exact Or.inl ⟨b1, hj⟩
  | MarkBlockStable id =>
    simp only [step, Option.some.injEq] at hs
    subst hs
    exact Or.inl (hmod id _ (MarkBlockStable_effect s id).1)
  | SetBlockVersion id v =>
    simp only [step, Option.some.injEq] at hs
    subst hs
    exact Or.inl (hmod id _ (SetBlockVersion_effect s id v).1)
  | ChangeReplicaNum id n =>
    simp only [step, Option.map_eq_some', Prod.exists, exists_and_right, exists_eq_right] at hs
    obtain ⟨r, hs⟩ := hs
    exact Or.inl (hmod id _ (ChangeReplicaNum_effect s s1 id n r hs).1)
  | RemoveBlock id =>
    simp only [step, Option.some.injEq] at hs
    subst hs
    rw [(RemoveBlock_effect s id).1] at hj
    unfold unset at hj
    split_ifs at hj
    exact Or.inl ⟨b1, hj⟩

/-- No run in which no increment wraps lowers `next_block_id`. -/
theorem run_next_mono (d : NSBlockInit) (ops : List Op) :
    ∀ s s1, guarded belowMax d s ops → run d s ops = some s1 →
      s._next_block_id ≤ s1._next_block_id := by
  induction ops with
  | nil =>
    intro s s1 _ hr
    simp only [run, Option.some.injEq] at hr
    rw [hr]
  | cons op rest ih =>
    intro s s1 hg hr
    simp only [run] at hr
    obtain ⟨ha, hg2⟩ := hg
    cases hs : step d s op with
    | none => rw [hs] at hr; simp at hr
    | some s2 =>
      rw [hs] at hr hg2
      exact le_trans (step_next_mono d s op s2 ha hs) (ih s2 s1 hg2 hr)

/-- A run of two parts goes through the state after the first part. -/
theorem run_append (d : NSBlockInit) (ops1 ops2 : List Op) :
    ∀ s, run d s (ops1 ++ ops2) = (run d s ops1).bind (fun s1 => run d s1 ops2) := by
  induction ops1 with
  | nil => intro s; simp [run]
  | cons op rest ih =>
    intro s
    simp only [List.cons_append, run]
    cases hs : step d s op with
    | none => simp
    | some s2 => exact ih s2

/-- The second part of a guarded run is guarded from the state after the
first part. -/
theorem guarded_append (allowed : BlockMapping → Op → Prop) (d : NSBlockInit)
    (ops1 ops2 : List Op) :
    ∀ s s1, guarded allowed d s (ops1 ++ ops2) → run d s ops1 = some s1 →
      guarded allowed d s1 ops2 := by
  induction ops1 with
  | nil =>
    intro s s1 hg hr
    simp only [run, Option.some.injEq] at hr
    subst hr
    exact hg
  | cons op rest ih =>
    intro s s1 hg hr
    simp only [run] at hr
    obtain ⟨_, hg2⟩ := hg
    cases hs : step d s op with
    | none => rw [hs] at hr; simp at hr
    | some s2 =>
      rw [hs] at hr hg2
      exact ih s2 s1 hg2 hr

/-- After a run in which no increment wraps, `next_block_id` is above every id
given to `AddNewBlock` in it. -/
theorem run_added_below (d : NSBlockInit) (ops : List Op) :
    ∀ s s1, guarded belowMax d s ops → run d s ops = some s1 →
      ∀ id, Op.AddNewBlock id ∈ ops → id < s1._next_block_id := by
  induction ops with
  | nil => intro s s1 _ _ id hid; simp at hid
  | cons op rest ih =>
    intro s s1 hg hr id hid
    simp only [run] at hr
    obtain ⟨ha, hg2⟩ := hg
    cases hs : step d s op with
    | none => rw [hs] at hr; simp at hr
    | some s2 =>
      rw [hs] at hr hg2
      rcases List.mem_cons.mp hid with h | h
      · subst h
        obtain ⟨_, _, _, _, hn⟩ := AddNewBlock_effect d s s2 id hs
        have h2 : id < s2._next_block_id := by
          rw [hn ha]
          exact lt_of_lt_of_le (by omega) (le_max_right _ _)
        exact lt_of_lt_of_le h2 (run_next_mono d rest s2 s1 hg2 hr)
      · exact ih s2 s1 hg2 hr id h

/-- One call in which no increment wraps keeps every key below
`next_block_id`. -/
theorem step_keys_below (d : NSBlockInit) (s : BlockMapping) (op : Op) (s1 : BlockMapping)
    (hinv : ∀ id b, s._block_map id = some b → id < s._next_block_id)
    (ha : belowMax s op) (hs : step d s op = some s1) :
    ∀ id b, s1._block_map id = some b → id < s1._next_block_id := by
  intro j b1 hj
  rcases step_keys d s op s1 hs j b1 hj with ⟨b, hb⟩ | hop
  · exact lt_of_lt_of_le (hinv j b hb) (step_next_mono d s op s1 ha hs)
  · subst hop
    obtain ⟨_, _, _, _, hn⟩ := AddNewBlock_effect d s s1 j hs
    rw [hn ha]
    exact lt_of_lt_of_le (by omega) (le_max_right _ _)

/-- C15 as stated fails: from the empty index `AddNewBlock(INT64_MAX)` returns,
the id is then a key, and the increment of line 109 wraps: `next_block_id` is
`INT64_MIN`, which is not above the id passed and is below the value 1 it had
before the call. -/
theorem next_block_id_above_counterexample :
    ∃ s, run d0 init [.AddNewBlock INT64_MAX] = some s ∧
      (∃ b, s._block_map INT64_MAX = some b) ∧
      s._next_block_id = INT64_MIN ∧
      ¬ INT64_MAX < s._next_block_id ∧
      s._next_block_id < init._next_block_id :=
  ⟨_, rfl, ⟨_, rfl⟩, by decide, by decide, by decide⟩

/-- C15, amended. Ids stay below the allocator as long as no increment wraps:
after any run of public calls from the empty index in which every id given to
`AddNewBlock` is below `INT64_MAX` and `NewBlockID` is called only while
`next_block_id` is below `INT64_MAX`, `next_block_id` is greater than every id
given to `AddNewBlock` in the run and than every key of the map, it is at least
what it was after any first part of the run, and `NewBlockID` returns an id
that is not a key. -/
theorem next_block_id_above (d : NSBlockInit) (ops : List Op) (s : BlockMapping)
    (hg : guarded belowMax d init ops) (hr : run d init ops = some s) :
    (∀ id, Op.AddNewBlock id ∈ ops → id < s._next_block_id) ∧
    (∀ id b, s._block_map id = some b → id < s._next_block_id) ∧
    (∀ ops1 ops2 s1, ops = ops1 ++ ops2 → run d init ops1 = some s1 →
      s1._next_block_id ≤ s._next_block_id) ∧
    (NewBlockID s).2 = s._next_block_id ∧
    s._block_map (NewBlockID s).2 = none ∧
    (NewBlockID s).1._block_map (NewBlockID s).2 = none := by
  have hkeys : ∀ id b, s._block_map id = some b → id < s._next_block_id :=
    run_invariant d (fun s => ∀ id b, s._block_map id = some b → id < s._next_block_id)
      belowMax (fun s op s1 hI ha hs => step_keys_below d s op s1 hI ha hs) ops init s
      (fun _ _ h => by simp [init] at h) hg hr
  have habs : s._block_map s._next_block_id = none := by
    cases hb : s._block_map s._next_block_id with
    | none => rfl
    | some b =>
      have := hkeys _ b hb
      omega
  refine ⟨run_added_below d ops init s hg hr, hkeys, ?_, rfl, habs, habs⟩
  intro ops1 ops2 s1 hsplit h1
  subst hsplit
  have hg2 := guarded_append belowMax d ops1 ops2 init s1 hg h1
  rw [run_append, h1] at hr
  exact run_next_mono d ops2 s1 s hg2 hr

/-- A witness of the amended C15: ids 1 and 9 are added between two
allocations, block 9 is removed again; the allocator then stands at 11. -/
theorem next_block_id_above_witness :
    ∃ s, run d0 init [.NewBlockID, .AddNewBlock 1, .AddNewBlock 9, .RemoveBlock 9,
        .NewBlockID] = some s ∧ s._next_block_id = 11 ∧
      (∀ id, Op.AddNewBlock id ∈ [Op.NewBlockID, .AddNewBlock 1, .AddNewBlock 9,
        .RemoveBlock 9, .NewBlockID] → id < s._next_block_id) ∧
      (∀ id b, s._block_map id = some b → id < s._next_block_id) :=
  ⟨_, rfl, rfl,
    (next_block_id_above d0 [.NewBlockID, .AddNewBlock 1, .AddNewBlock 9, .RemoveBlock 9,
      .NewBlockID] _ ⟨(by decide : (1 : Int) < INT64_MAX), (by decide : (1 : Int) < INT64_MAX),
        (by decide : (9 : Int) < INT64_MAX), trivial, (by decide : (10 : Int) < INT64_MAX),
        trivial⟩ rfl).1,
    (next_block_id_above d0 [.NewBlockID, .AddNewBlock 1, .AddNewBlock 9, .RemoveBlock 9,
      .NewBlockID] _ ⟨(by decide : (1 : Int) < INT64_MAX), (by decide : (1 : Int) < INT64_MAX),
        (by decide : (9 : Int) < INT64_MAX), trivial, (by decide : (10 : Int) < INT64_MAX),
        trivial⟩ rfl).2.1⟩

/-- C16 as stated fails: `INT64_MAX` has no record in the empty index;
`AddNewBlock(INT64_MAX)` followed by `RemoveBlock(INT64_MAX)` leaves
`next_block_id = INT64_MIN`, which is not `max(1, INT64_MAX + 1)`. -/
theorem AddNewBlock_RemoveBlock_roundtrip_counterexample :
    init._block_map INT64_MAX = none ∧
    ∃ s1, AddNewBlock d0 init INT64_MAX = some s1 ∧
      (RemoveBlock s1 INT64_MAX)._next_block_id = INT64_MIN ∧
      (RemoveBlock s1 INT64_MAX)._next_block_id ≠ max init._next_block_id (INT64_MAX + 1) :=
  ⟨rfl, _, rfl, by decide, by decide⟩

/-- C16, amended. `AddNewBlock` / `RemoveBlock` round trip: for an id without
record that is below `INT64_MAX`, `AddNewBlock(id)` returns, and
`RemoveBlock(id)` after it gives a state whose map and repair queue are the
original ones and whose `next_block_id` is `max(next_block_id, id + 1)`. -/
theorem AddNewBlock_RemoveBlock_roundtrip (d : NSBlockInit) (s : BlockMapping) (id : Int)
    (habs : s._block_map id = none) (hid : id < INT64_MAX) :
    ∃ s1, AddNewBlock d s id = some s1 ∧
      (RemoveBlock s1 id)._block_map = s._block_map ∧
      (RemoveBlock s1 id)._blocks_to_replicate = s._blocks_to_replicate ∧
      (RemoveBlock s1 id)._next_block_id = max s._next_block_id (id + 1) := by
  obtain ⟨s1, h1⟩ := AddNewBlock_returns d s id habs
  obtain ⟨_, hm, hq, _, hn⟩ := AddNewBlock_effect d s s1 id h1
  obtain ⟨rm, rq, rn⟩ := RemoveBlock_effect s1 id
  refine ⟨s1, h1, ?_, rq.trans hq, rn.trans (hn hid)⟩
  rw [rm, hm]
  funext j
  unfold unset store
  by_cases hj : j = id
  · subst hj; simp [habs]
  · simp [hj]

/-- A witness of the amended C16: block 8 is added to the index that holds
block 7 and removed again; the allocator moves from 8 to 9. -/
theorem AddNewBlock_RemoveBlock_roundtrip_witness :
    ∃ s1, AddNewBlock d0 underReplicated 8 = some s1 ∧
      (RemoveBlock s1 8)._block_map = underReplicated._block_map ∧
      (RemoveBlock s1 8)._blocks_to_replicate = underReplicated._blocks_to_replicate ∧
      (RemoveBlock s1 8)._next_block_id = max underReplicated._next_block_id (8 + 1) :=
  AddNewBlock_RemoveBlock_roundtrip d0 underReplicated 8 (by decide) (by decide)

/-! ## GetPullBlocks on a removed block -/

/-- The loop of `GetPullBlocks` does not return when one of the queued ids has
no record. -/
theorem GetPullBlocks_loop_none (m : Int → Option NSBlock) (l : List Int) :
    (∃ id ∈ l, m id = none) → ∀ blocks : List (Int × Finset Int),
      GetPullBlocks.loop m l blocks = none := by
  induction l with
  | nil =>
    intro h
    obtain ⟨id, hid, -⟩ := h
    simp at hid
  | cons a rest ih =>
    intro h blocks
    cases ha : m a with
    | none => simp only [GetPullBlocks.loop, ha]
    | some b =>
      simp only [GetPullBlocks.loop, ha]
      obtain ⟨id, hid, hm⟩ := h
      rcases List.mem_cons.mp hid with e | e
      · subst e
        rw [ha] at hm
        simp at hm
      · exact ih ⟨id, e, hm⟩ _

/-- When an id queued for `dst` has no record, `GetPullBlocks(dst)` does not
return: it dereferences the null pointer that `_block_map[id]` yields. -/
theorem GetPullBlocks_dangling (s : BlockMapping) (dst id : Int) (q : Finset Int)
    (blocks : List (Int × Finset Int)) (hq : s._blocks_to_replicate dst = some q)
    (hid : id ∈ q) (hm : s._block_map id = none) : GetPullBlocks s dst blocks = none := by
  have hl : GetPullBlocks.loop s._block_map (q.sort (· ≤ ·)) blocks = none :=
    GetPullBlocks_loop_none _ _ ⟨id, (Finset.mem_sort (· ≤ ·)).mpr hid, hm⟩ _
  simp only [GetPullBlocks, hq, hl]

/-- C27 at its failing input: the run `AddNewBlock(1)`, `MarkPullBlock(5, 1)`,
`RemoveBlock(1)` from the empty index returns; afterwards block 1 has no record
and is still queued for chunkserver 5, and `GetPullBlocks(5)` does not return. -/
theorem GetPullBlocks_after_RemoveBlock (d : NSBlockInit) :
    ∃ s, run d init [.AddNewBlock 1, .MarkPullBlock 5 1, .RemoveBlock 1] = some s ∧
      s._block_map 1 = none ∧
      (∃ q, s._blocks_to_replicate 5 = some q ∧ (1 : Int) ∈ q) ∧
      GetPullBlocks s 5 [] = none :=
  ⟨_, rfl, rfl, ⟨_, rfl, Finset.mem_insert_self _ _⟩,
    GetPullBlocks_dangling _ 5 1 _ [] rfl (Finset.mem_insert_self _ _) rfl⟩

end BlockMapping

namespace NameServerImpl

open BlockMapping

/-! ## PullBlockReport -/

theorem BlockMapping_ext (s t : BlockMapping) (h1 : s._next_block_id = t._next_block_id)
    (h2 : s._block_map = t._block_map)
    (h3 : s._blocks_to_replicate = t._blocks_to_replicate) : s = t := by
  cases s
  cases t
  simp only at h1 h2 h3
  subst h1 h2 h3
  rfl

/-- Unmarking the same chunkserver twice in a record is unmarking it once. -/
theorem UnmarkPullBlock_record_idem (cs : Int) (b : NSBlock) :
    UnmarkPullBlock.record cs (UnmarkPullBlock.record cs b) = UnmarkPullBlock.record cs b := by
  unfold UnmarkPullBlock.record
  by_cases he : b.pulling_chunkservers.erase cs = ∅ <;>
    cases hp : b.pending_change <;> simp [he, hp, Finset.erase_idem]

/-- The loop of `PullBlockReport` unmarks the chunkserver in the records of the
listed ids and leaves everything else as it was. -/
theorem PullBlockReport_loop_effect (cs : Int) (l : List Int) :
    ∀ bm : BlockMapping,
      (PullBlockReport.loop cs l bm)._next_block_id = bm._next_block_id ∧
      (PullBlockReport.loop cs l bm)._blocks_to_replicate = bm._blocks_to_replicate ∧
      ∀ j, (PullBlockReport.loop cs l bm)._block_map j =
        if j ∈ l then (bm._block_map j).map (UnmarkPullBlock.record cs) else bm._block_map j := by
  induction l with
  | nil => intro bm; simp [PullBlockReport.loop]
  | cons a rest ih =>
    intro bm
    obtain ⟨h1, h2, h3⟩ := ih (UnmarkPullBlock bm cs a)
    obtain ⟨e1, e2, e3⟩ := UnmarkPullBlock_effect bm cs a
    simp only [PullBlockReport.loop]
    refine ⟨h1.trans e3, h2.trans e2, ?_⟩
    intro j
    rw [h3 j, e1]
    unfold BlockMapping.modify
    by_cases hja : j = a
    · subst hja
      by_cases hr : j ∈ rest
      · cases hm : bm._block_map j with
        | none => simp [hr]
        | some b => simp [hr, UnmarkPullBlock_record_idem]
      · simp [hr]
    · by_cases hr : j ∈ rest
      · simp [hr, hja]
      · simp [hr, hja]

/-- C17. `PullBlockReport` is idempotent and order-insensitive: two reports of
the same chunkserver whose block lists are permutations of each other leave
the same state, a report processed twice leaves the state it leaves when
processed once, and the response status is 0. -/
theorem PullBlockReport_idempotent (ns : NameServerImpl) (seq cs : Int) (l : List Int) :
    (∀ l2, l.Perm l2 → (PullBlockReport ns seq cs l2).1 = (PullBlockReport ns seq cs l).1) ∧
    (PullBlockReport (PullBlockReport ns seq cs l).1 seq cs l).1 =
      (PullBlockReport ns seq cs l).1 ∧
    (PullBlockReport ns seq cs l).2.status = 0 := by
  refine ⟨?_, ?_, rfl⟩
  · intro l2 hperm
    unfold PullBlockReport
    simp only
    congr 1
    obtain ⟨a1, a2, a3⟩ := PullBlockReport_loop_effect cs l ns._block_manager
    obtain ⟨b1, b2, b3⟩ := PullBlockReport_loop_effect cs l2 ns._block_manager
    refine BlockMapping_ext _ _ (b1.trans a1.symm) ?_ (b2.trans a2.symm)
    funext j
    rw [a3 j, b3 j]
    simp only [hperm.mem_iff]
  · unfold PullBlockReport
    simp only
    congr 1
    obtain ⟨a1, a2, a3⟩ := PullBlockReport_loop_effect cs l ns._block_manager
    obtain ⟨b1, b2, b3⟩ :=
      PullBlockReport_loop_effect cs l (PullBlockReport.loop cs l ns._block_manager)
    refine BlockMapping_ext _ _ b1 ?_ b2
    funext j
    rw [b3 j, a3 j]
    by_cases hj : j ∈ l
    · cases hm : ns._block_manager._block_map j with
      | none => simp [hj]
      | some b => simp [hj, UnmarkPullBlock_record_idem]
    · simp [hj]

/-! ## FinishBlock -/

/-- C18. `FinishBlock` seals a block: the status is 886 with the index
unchanged exactly when the block has no record; otherwise the status is 0 and
afterwards the record has the given version and `pending_change` false, with
`replica`, `pulling`, `block_size`, `expect_replica_num` and every other record,
the repair queue and `next_block_id` as before. -/
theorem FinishBlock_seals (ns : NameServerImpl) (seq id v : Int) :
    (((FinishBlock ns seq id v).2.status = 886 ∧ (FinishBlock ns seq id v).1 = ns) ↔
      ns._block_manager._block_map id = none) ∧
    (∀ b, ns._block_manager._block_map id = some b →
      (FinishBlock ns seq id v).2.status = 0 ∧
      (FinishBlock ns seq id v).1._block_manager._block_map id =
        some { b with version := v, pending_change := false } ∧
      (∀ j, j ≠ id → (FinishBlock ns seq id v).1._block_manager._block_map j =
        ns._block_manager._block_map j) ∧
      (FinishBlock ns seq id v).1._block_manager._blocks_to_replicate =
        ns._block_manager._blocks_to_replicate ∧
      (FinishBlock ns seq id v).1._block_manager._next_block_id =
        ns._block_manager._next_block_id ∧
      (FinishBlock ns seq id v).1._safe_mode = ns._safe_mode) := by
  cases hb : ns._block_manager._block_map id with
  | none =>
    refine ⟨⟨fun _ => rfl, fun _ => ?_⟩, fun b h => by simp at h⟩
    simp [FinishBlock, SetBlockVersion, hb]
  | some b =>
    have hst : (FinishBlock ns seq id v).2.status = 0 := by
      simp [FinishBlock, SetBlockVersion, MarkBlockStable, hb, store_same]
    refine ⟨⟨fun h => ?_, fun h => by simp at h⟩, ?_⟩
    · rw [hst] at h
      exact absurd h.1 (by decide)
    · intro b0 hb0
      obtain rfl := Option.some.inj hb0
      refine ⟨hst, ?_, ?_, ?_, ?_, ?_⟩
      · simp [FinishBlock, SetBlockVersion, MarkBlockStable, hb, store_same]
      · intro j hj
        simp [FinishBlock, SetBlockVersion, MarkBlockStable, hb, store_same, store_other, hj]
      · simp [FinishBlock, SetBlockVersion, MarkBlockStable, hb, store_same]
      · simp [FinishBlock, SetBlockVersion, MarkBlockStable, hb, store_same]
      · simp [FinishBlock, SetBlockVersion, MarkBlockStable, hb, store_same]

/-- A witness of C17: chunkserver 5 reports blocks 7 and 8 as pulled, in either
order. -/
theorem PullBlockReport_idempotent_witness :
    (PullBlockReport ⟨pulling7, false⟩ 0 5 [8, 7]).1 =
      (PullBlockReport ⟨pulling7, false⟩ 0 5 [7, 8]).1 ∧
    (PullBlockReport (PullBlockReport ⟨pulling7, false⟩ 0 5 [7, 8]).1 0 5 [7, 8]).1 =
      (PullBlockReport ⟨pulling7, false⟩ 0 5 [7, 8]).1 :=
  ⟨(PullBlockReport_idempotent ⟨pulling7, false⟩ 0 5 [7, 8]).1 [8, 7] (List.Perm.swap 8 7 []),
   (PullBlockReport_idempotent ⟨pulling7, false⟩ 0 5 [7, 8]).2.1⟩

/-- Scenario 2, the witness of C18: `FinishBlock(1, 42)` on the block of
scenario 1 answers 0 and leaves version 42 and `pending_change` false. -/
theorem FinishBlock_seals_witness :
    (FinishBlock allocated1 0 1 42).2.status = 0 ∧
    (FinishBlock allocated1 0 1 42).1._block_manager._block_map 1 =
      some { block1 with version := 42, pending_change := false } ∧
    ((FinishBlock allocated1 0 2 42).2.status = 886 ∧
      (FinishBlock allocated1 0 2 42).1 = allocated1) :=
  ⟨((FinishBlock_seals allocated1 0 1 42).2 block1 (by decide)).1,
   ((FinishBlock_seals allocated1 0 1 42).2 block1 (by decide)).2.1,
   (FinishBlock_seals allocated1 0 2 42).1.mpr (by decide)⟩

/-! ## BlockReport -/

/-- C19 as stated fails: for scenario 6 (report at namespace version 7,
nameserver at 9, four blocks) the response lists the four ids as obsolete and
carries namespace version 7, the one of the report, not 9. -/
theorem BlockReport_stale_version_counterexample :
    ∃ ns1 resp, BlockReport ⟨init, true⟩ 9 noChain staleReport = some (ns1, resp) ∧
      resp.obsolete_blocks = [21, 22, 23, 24] ∧
      resp.namespace_version = some 7 ∧ resp.namespace_version ≠ some 9 :=
  ⟨_, _, rfl, rfl, rfl, by decide⟩

/-- C19, amended. A report whose namespace version differs from the
nameserver's and that carries at least one block is answered with every
reported block id in `obsolete_blocks`, in the order of the report, and with
the namespace version of the report; the chunkserver id is echoed, no status
and no pull is set, and the nameserver state is unchanged. -/
theorem BlockReport_stale_version (ns : NameServerImpl) (version : Int) (roster : Roster)
    (request : BlockReportRequest)
    (hv : request.namespace_version ≠ version) (hb : request.blocks ≠ []) :
    ∃ resp, BlockReport ns version roster request = some (ns, resp) ∧
      resp.obsolete_blocks = request.blocks.map (fun b => b.block_id) ∧
      resp.namespace_version = some request.namespace_version ∧
      resp.chunkserver_id = some request.chunkserver_id ∧
      resp.status = none ∧ resp.new_replicas = [] := by
  have hl : ¬ request.blocks.length = 0 := by
    intro h
    exact hb (List.length_eq_zero.mp h)
  refine ⟨⟨some request.namespace_version, none, request.blocks.map (fun b => b.block_id), [],
      some request.chunkserver_id⟩, ?_, rfl, rfl, rfl, rfl, rfl⟩
  simp only [BlockReport, hv, hl, ne_eq, not_false_eq_true, if_true, if_false]

/-- Scenario 6, the witness of the amended C19. -/
theorem BlockReport_stale_version_witness :
    ∃ resp, BlockReport ⟨init, true⟩ 9 noChain staleReport = some (⟨init, true⟩, resp) ∧
      resp.obsolete_blocks = staleReport.blocks.map (fun b => b.block_id) ∧
      resp.namespace_version = some staleReport.namespace_version ∧
      resp.chunkserver_id = some staleReport.chunkserver_id ∧
      resp.status = none ∧ resp.new_replicas = [] :=
  BlockReport_stale_version ⟨init, true⟩ 9 noChain staleReport (by decide)
    (List.cons_ne_nil _ _)

/-- C20 at its failing input: outside safemode chunkserver 1 reports block 7
(`replica = {1,2}`, three expected, nothing pending) and the roster has no
chain to offer. `UpdateBlockInfo` accepts the report with hint 1; at the end of
the handler nobody is marked as puller, nothing is queued, and the block is
still pending. -/
theorem BlockReport_no_chain_leaves_pending :
    (UpdateBlockInfo underReplicated 7 1 0 0 (some 0)).ret = true ∧
    (UpdateBlockInfo underReplicated 7 1 0 0 (some 0)).more_replica_num = some 1 ∧
    ∃ ns1 resp, BlockReport ⟨underReplicated, false⟩ 9 noChain report7 = some (ns1, resp) ∧
      resp.obsolete_blocks = [] ∧
      ns1._block_manager._blocks_to_replicate 1 = none ∧
      ∃ b, ns1._block_manager._block_map 7 = some b ∧
        b.pulling_chunkservers = ∅ ∧ b.pending_change = true :=
  ⟨by decide, by decide, _, _, rfl, rfl, rfl, _, rfl, rfl, rfl⟩

/-- An accepted report leaves through the accepting return and leaves a record
under the reported id. -/
theorem UpdateBlockInfo_accepted (s : BlockMapping) (id cs size ver : Int) (m : Option Int)
    (hacc : (UpdateBlockInfo s id cs size ver m).ret = true) :
    (UpdateBlockInfo s id cs size ver m).exit ≠ .size_mismatch ∧
    ∃ b1, (UpdateBlockInfo s id cs size ver m).state._block_map id = some b1 := by
  have hrs : ∀ b0 : NSBlock,
      (UpdateBlockInfo.replicaStep s id cs b0 m).exit ≠ .size_mismatch ∧
      ∃ b1, (UpdateBlockInfo.replicaStep s id cs b0 m).state._block_map id = some b1 := by
    intro b0
    obtain ⟨_, _, _, b1, hb1, _⟩ := replicaStep_effect s id cs b0 m
    refine ⟨?_, b1, hb1⟩
    rcases replicaStep_exit s id cs b0 m with h | h <;> simp [h]
  unfold UpdateBlockInfo at hacc ⊢
  cases hb : s._block_map id with
  | none => rw [hb] at hacc; simp at hacc
  | some b =>
    rw [hb] at hacc
    simp only at hacc ⊢
    split_ifs at hacc ⊢
    · exact hrs _
    · exact hrs _

/-- The loop over the chain never changes which ids are keys. -/
theorem BlockReport_chains_keys (id more : Int) (loc : Finset Int) (chains : List (Int × String)) :
    ∀ (bm bm1 : BlockMapping) (num num1 : Int),
      BlockReport.chains id more loc chains bm num = some (bm1, num1) →
      ∀ j, bm1._block_map j = none ↔ bm._block_map j = none := by
  induction chains with
  | nil =>
    intro bm bm1 num num1 h j
    simp only [BlockReport.chains, Option.some.injEq, Prod.mk.injEq] at h
    rw [h.1]
  | cons c rest ih =>
    intro bm bm1 num num1 h j
    simp only [BlockReport.chains] at h
    split_ifs at h with h1 h2
    · exact ih bm bm1 num num1 h j
    · cases hm : MarkPullBlock bm c.1 id with
      | none => rw [hm] at h; simp at h
      | some p =>
        obtain ⟨bm2, r⟩ := p
        rw [hm] at h
        simp only at h
        rw [ih bm2 bm1 _ num1 h j, (MarkPullBlock_effect bm bm2 c.1 id r hm).2.1]
        exact modify_none _ _ _ _
    · simp only [Option.some.injEq, Prod.mk.injEq] at h
      rw [h.1]

/-- The part of C20 the handler keeps: outside safemode, when the roster
answers the request for a chain and the loop over the chain marks nobody
(`num = 0`), the processing of an accepted block with a hint ends with the
block not pending. -/
theorem BlockReport_block_stable_with_chain (roster : Roster) (cs_id : Int) (i : Nat)
    (bm bm1 : BlockMapping) (response : BlockReportResponse) (block : ReportBlockInfo)
    (chains : List (Int × String))
    (hacc : (UpdateBlockInfo bm block.block_id cs_id block.block_size block.version
      (some 0)).ret = true)
    (hmore : (UpdateBlockInfo bm block.block_id cs_id block.block_size block.version
      (some 0)).more_replica_num.getD 0 ≠ 0)
    (hch : roster.GetChunkServerChains i
      ((UpdateBlockInfo bm block.block_id cs_id block.block_size block.version
        (some 0)).more_replica_num.getD 0) = some chains)
    (hnum : BlockReport.chains block.block_id
      ((UpdateBlockInfo bm block.block_id cs_id block.block_size block.version
        (some 0)).more_replica_num.getD 0)
      (GetReplicaLocation (UpdateBlockInfo bm block.block_id cs_id block.block_size
        block.version (some 0)).state block.block_id ∅).2 chains
      (UpdateBlockInfo bm block.block_id cs_id block.block_size block.version
        (some 0)).state 0 = some (bm1, 0)) :
    ∃ bm2, BlockReport.block false roster cs_id i bm response block = some (bm2, response) ∧
      ∃ b, bm2._block_map block.block_id = some b ∧ b.pending_change = false := by
  obtain ⟨hexit, b1, hb1⟩ := UpdateBlockInfo_accepted bm block.block_id cs_id block.block_size
    block.version (some 0) hacc
  have hkey : bm1._block_map block.block_id ≠ none := by
    rw [Ne, BlockReport_chains_keys _ _ _ chains _ bm1 0 0 hnum block.block_id, hb1]
    simp
  obtain ⟨b2, hb2⟩ := Option.ne_none_iff_exists'.mp hkey
  refine ⟨(MarkBlockStable bm1 block.block_id).1, ?_, { b2 with pending_change := false }, ?_,
    rfl⟩
  · simp only [BlockReport.block, hexit, hacc, hmore, hch, hnum, if_false, if_true, ne_eq,
      not_false_eq_true, and_self, Bool.true_eq_false]
  · simp [MarkBlockStable, hb2, store_same]

/-! ## DeleteDirectory -/

/-- On a path that is empty or does not start with a slash the handler runs
`done` with status 886 and goes on: it calls the namespace, removes the blocks
of the files handed back, sets the status the namespace returned and runs
`done` a second time. -/
theorem DeleteDirectory_bad_path (ns : NameServerImpl) (nsp : NameSpace) (path : String)
    (r : Bool) (hbad : path.data.head? ≠ some '/') :
    (DeleteDirectory ns nsp path r).completed = [886, (nsp.DeleteDirectory path r).1] ∧
    (DeleteDirectory ns nsp path r).status = (nsp.DeleteDirectory path r).1 ∧
    (DeleteDirectory ns nsp path r).namespace_calls = [(path, r)] ∧
    (DeleteDirectory ns nsp path r).state._block_manager =
      (nsp.DeleteDirectory path r).2.foldl (fun s f => RemoveBlocksForFile s f)
        ns._block_manager := by
  refine ⟨?_, rfl, rfl, rfl⟩
  unfold DeleteDirectory
  cases hd : path.data with
  | nil => rfl
  | cons c rest =>
    rw [hd] at hbad
    have hc : c ≠ '/' := fun h => hbad (by simp [h])
    simp [hc]

/-- C21 at its failing input: for the empty path and a namespace that answers
404 the response is completed twice, first with 886 and then with 404, and
the namespace was called; for the relative path `a` and a namespace that hands
back a file with block 7, block 7 is removed from the index. -/
theorem DeleteDirectory_bad_path_goes_on :
    (DeleteDirectory ⟨underReplicated, false⟩ noFiles "" false).completed = [886, 404] ∧
    (DeleteDirectory ⟨underReplicated, false⟩ noFiles "" false).status = 404 ∧
    (DeleteDirectory ⟨underReplicated, false⟩ noFiles "" false).namespace_calls =
      [("", false)] ∧
    underReplicated._block_map 7 = some block7 ∧
    (DeleteDirectory ⟨underReplicated, false⟩ handsBack7 "a" true).completed = [886, 0] ∧
    (DeleteDirectory ⟨underReplicated, false⟩ handsBack7 "a" true).state._block_manager._block_map
      7 = none :=
  ⟨rfl, rfl, rfl, rfl, rfl, rfl⟩

/-! ## GetFileLocation -/

/-- The addresses returned for one block: the non-empty roster addresses of the
replicas that are not pulling, in the order of the replicas. -/
theorem GetFileLocation_chains_eq (roster : Roster) (b : NSBlock) (l : List Int) :
    GetFileLocation.chains roster b l =
      ((l.filter (fun cs => decide (cs ∉ b.pulling_chunkservers))).map
        roster.GetChunkServerAddr).filter (fun a => decide (a ≠ "")) := by
  induction l with
  | nil => rfl
  | cons cs rest ih =>
    unfold GetFileLocation.chains
    by_cases h1 : cs ∈ b.pulling_chunkservers
    · simp [h1, ih]
    · by_cases h2 : roster.GetChunkServerAddr cs = ""
      · simp [h1, h2, ih]
      · simp [h1, h2, ih]

/-- The located blocks of a response: one per block of the file that has a
record, in the order of the file. -/
theorem GetFileLocation_blocks_eq (ns : NameServerImpl) (roster : Roster) (l : List Int) :
    GetFileLocation.blocks ns roster l =
      l.filterMap (fun id => (ns._block_manager._block_map id).map (fun b =>
        ({ block_id := id, block_size := b.block_size,
           chains := GetFileLocation.chains roster b (b.replica.sort (· ≤ ·)) } :
          LocatedBlock))) := by
  induction l with
  | nil => rfl
  | cons id rest ih =>
    unfold GetFileLocation.blocks
    cases hb : GetBlock ns._block_manager id with
    | none =>
      have hb1 : ns._block_manager._block_map id = none := hb
      simp [hb1, ih]
    | some b =>
      have hb1 : ns._block_manager._block_map id = some b := hb
      simp [hb1, ih]

/-- C22. `GetFileLocation` hides replicas under construction: the status is 404
for an absent file and 0 for an existing one; the response then holds one
located block for every block of the file that has a record, in the order of
the file, and none else, and the addresses of a located block are exactly the
non-empty roster addresses of the chunkservers in `replica` that are not in
`pulling`. -/
theorem GetFileLocation_hides_pulling (ns : NameServerImpl) (nsp : NameSpace)
    (roster : Roster) (seq : Int) (file_name : String) :
    (nsp.GetFileInfo file_name = none →
      (GetFileLocation ns nsp roster seq file_name).status = 404) ∧
    (∀ info, nsp.GetFileInfo file_name = some info →
      (GetFileLocation ns nsp roster seq file_name).status = 0 ∧
      (GetFileLocation ns nsp roster seq file_name).blocks.map (fun lb => lb.block_id) =
        info.blocks.filter (fun id => (ns._block_manager._block_map id).isSome) ∧
      ∀ lb ∈ (GetFileLocation ns nsp roster seq file_name).blocks,
        ∃ b, ns._block_manager._block_map lb.block_id = some b ∧
          lb.block_size = b.block_size ∧
          ∀ a, a ∈ lb.chains ↔
            (a ≠ "" ∧ ∃ cs, cs ∈ b.replica ∧ cs ∉ b.pulling_chunkservers ∧
              roster.GetChunkServerAddr cs = a)) := by
  constructor
  · intro h
    simp [GetFileLocation, h]
  · intro info h
    have hblocks : (GetFileLocation ns nsp roster seq file_name).blocks =
        GetFileLocation.blocks ns roster info.blocks := by
      simp [GetFileLocation, h]
    refine ⟨by simp [GetFileLocation, h], ?_, ?_⟩
    · rw [hblocks, GetFileLocation_blocks_eq]
      generalize info.blocks = l
      induction l with
      | nil => rfl
      | cons id rest ih =>
        cases hb : ns._block_manager._block_map id with
        | none => simpa [List.filterMap_cons, hb] using ih
        | some b => simpa [List.filterMap_cons, hb] using ih
    · intro lb hlb
      rw [hblocks, GetFileLocation_blocks_eq, List.mem_filterMap] at hlb
      obtain ⟨id, _, hid⟩ := hlb
      cases hb : ns._block_manager._block_map id with
      | none => rw [hb] at hid; simp at hid
      | some b =>
        rw [hb] at hid
        simp only [Option.map_some', Option.some.injEq] at hid
        subst hid
        refine ⟨b, hb, rfl, ?_⟩
        intro a
        simp only [GetFileLocation_chains_eq, List.mem_filter, List.mem_map, Finset.mem_sort,
          decide_eq_true_eq]
        constructor
        · rintro ⟨⟨cs, ⟨h1, h2⟩, h3⟩, h4⟩
          exact ⟨h4, cs, h1, h2, h3⟩
        · rintro ⟨h4, cs, h1, h2, h3⟩
          exact ⟨⟨cs, ⟨h1, h2⟩, h3⟩, h4⟩

/-- A witness of C22: the file `/g` has blocks 7 and 8, of which only block 7
has a record, with `replica = {1,2,5}` and chunkserver 5 pulling; the roster
resolves chunkserver 1 only. The path `/h` is unknown. -/
theorem GetFileLocation_hides_pulling_witness :
    (GetFileLocation hidden7 holdsG onlyA 0 "/h").status = 404 ∧
    ((GetFileLocation hidden7 holdsG onlyA 0 "/g").status = 0 ∧
      (GetFileLocation hidden7 holdsG onlyA 0 "/g").blocks.map (fun lb => lb.block_id) =
        file78.blocks.filter (fun id => (hidden7._block_manager._block_map id).isSome) ∧
      ∀ lb ∈ (GetFileLocation hidden7 holdsG onlyA 0 "/g").blocks,
        ∃ b, hidden7._block_manager._block_map lb.block_id = some b ∧
          lb.block_size = b.block_size ∧
          ∀ a, a ∈ lb.chains ↔
            (a ≠ "" ∧ ∃ cs, cs ∈ b.replica ∧ cs ∉ b.pulling_chunkservers ∧
              onlyA.GetChunkServerAddr cs = a)) :=
  ⟨(GetFileLocation_hides_pulling hidden7 holdsG onlyA 0 "/h").1 rfl,
   (GetFileLocation_hides_pulling hidden7 holdsG onlyA 0 "/g").2 file78 rfl⟩

/-! ## AddBlock -/

/-- One round of the recovery loop on an id without record and below
`INT64_MAX`: the four calls return and leave a fresh record with the version
and the replica number of the file, not pending. -/
theorem rebuild_round (d : NSBlockInit) (v n : Int) (bm : BlockMapping) (id : Int)
    (habs : bm._block_map id = none) (hid : id < INT64_MAX) :
    ∃ bm1 bm3 r, AddNewBlock d bm id = some bm1 ∧
      BlockMapping.ChangeReplicaNum (SetBlockVersion bm1 id v).1 id n = some (bm3, r) ∧
      (MarkBlockStable bm3 id).1._block_map = store bm._block_map id
        { NSBlock.create d id with
          version := v, expect_replica_num := n, pending_change := false } ∧
      (MarkBlockStable bm3 id).1._blocks_to_replicate = bm._blocks_to_replicate ∧
      (MarkBlockStable bm3 id).1._next_block_id = max bm._next_block_id (id + 1) := by
  obtain ⟨bm1, h1⟩ := AddNewBlock_returns d bm id habs
  obtain ⟨_, hm, hq, _, hn⟩ := AddNewBlock_effect d bm bm1 id h1
  have hb1 : bm1._block_map id = some (NSBlock.create d id) := by
    rw [hm]; exact store_same _ _ _
  have h2 : (SetBlockVersion bm1 id v).1 =
      { bm1 with _block_map := (store bm1._block_map id
          ({ NSBlock.create d id with version := v } : NSBlock)) } := by
    simp [SetBlockVersion, hb1]
  have h3 : BlockMapping.ChangeReplicaNum (SetBlockVersion bm1 id v).1 id n =
      some ({ bm1 with _block_map := (store (store bm1._block_map id
          ({ NSBlock.create d id with version := v } : NSBlock)) id
          ({ NSBlock.create d id with version := v, expect_replica_num := n } : NSBlock)) },
        true) := by
    rw [h2]
    simp [BlockMapping.ChangeReplicaNum, store_same]
  refine ⟨bm1, _, true, h1, h3, ?_, ?_, ?_⟩
  · simp only [MarkBlockStable, store_same]
    funext j
    unfold store
    by_cases hj : j = id
    · simp [hj]
    · simp [hj, hm, store]
  · simp only [MarkBlockStable, store_same]
    exact hq
  · simp only [MarkBlockStable, store_same]
    exact hn hid

/-- The recovery loop returns on pairwise distinct ids without record and below
`INT64_MAX`: each gets the fresh record of `rebuild_round`, the other keys
and the repair queue are as before, `next_block_id` does not decrease and is
above every id of the list. -/
theorem rebuild_loop (d : NSBlockInit) (v n : Int) (blocks : List Int) :
    ∀ bm : BlockMapping, blocks.Nodup → (∀ id ∈ blocks, bm._block_map id = none) →
      (∀ id ∈ blocks, id < INT64_MAX) →
      ∃ bm1, RebuildBlockMapCallback.loop d v n blocks bm = some bm1 ∧
        (∀ id ∈ blocks, bm1._block_map id = some { NSBlock.create d id with
          version := v, expect_replica_num := n, pending_change := false }) ∧
        (∀ j, j ∉ blocks → bm1._block_map j = bm._block_map j) ∧
        bm1._blocks_to_replicate = bm._blocks_to_replicate ∧
        bm._next_block_id ≤ bm1._next_block_id ∧
        (∀ id ∈ blocks, id < bm1._next_block_id) := by
  induction blocks with
  | nil =>
    intro bm _ _ _
    exact ⟨bm, rfl, by simp, fun _ _ => rfl, rfl, le_refl _, by simp⟩
  | cons a rest ih =>
    intro bm hnd habs hmax
    obtain ⟨hna, hndr⟩ := List.nodup_cons.mp hnd
    obtain ⟨bm1, bm3, r, h1, h3, hm, hq, hn⟩ :=
      rebuild_round d v n bm a (habs a (List.mem_cons_self a rest))
        (hmax a (List.mem_cons_self a rest))
    have habs2 : ∀ id ∈ rest, (MarkBlockStable bm3 a).1._block_map id = none := by
      intro id hid
      have hne : id ≠ a := fun h => hna (h ▸ hid)
      rw [hm, store_other _ _ _ _ hne]
      exact habs id (List.mem_cons_of_mem a hid)
    obtain ⟨bm5, g1, g2, g3, g4, g5, g6⟩ :=
      ih (MarkBlockStable bm3 a).1 hndr habs2 (fun id hid => hmax id (List.mem_cons_of_mem a hid))
    have hlt : a < (MarkBlockStable bm3 a).1._next_block_id := by
      rw [hn]
      exact lt_of_lt_of_le (by omega) (le_max_right _ _)
    refine ⟨bm5, ?_, ?_, ?_, g4.trans hq, ?_, ?_⟩
    · simp only [RebuildBlockMapCallback.loop, h1, h3, g1]
    · intro id hid
      rcases List.mem_cons.mp hid with h | h
      · subst h
        rw [g3 id hna, hm]
        exact store_same _ _ _
      · exact g2 id h
    · intro j hj
      have hja : j ≠ a := fun h => hj (h ▸ List.mem_cons_self a rest)
      have hjr : j ∉ rest := fun h => hj (List.mem_cons_of_mem a h)
      rw [g3 j hjr, hm, store_other _ _ _ _ hja]
    · refine le_trans ?_ g5
      rw [hn]
      exact le_max_left _ _
    · intro id hid
      rcases List.mem_cons.mp hid with h | h
      · subst h
        exact lt_of_lt_of_le hlt g5
      · exact g6 id h

/-- C24 as stated fails: the file whose only block is `INT64_MAX` is loaded
into the empty index. The id is absent before and gets its record, but the
increment of line 109 wraps: `next_block_id` is `INT64_MIN` afterwards, which
is not greater than the id. -/
theorem RebuildBlockMapCallback_rebuilds_counterexample :
    fileMax.blocks.Nodup ∧ (∀ id ∈ fileMax.blocks, init._block_map id = none) ∧
    ∃ ns1, RebuildBlockMapCallback d0 ⟨init, true⟩ fileMax = some ns1 ∧
      (∃ b, ns1._block_manager._block_map INT64_MAX = some b ∧ b.version = 4 ∧
        b.expect_replica_num = 2 ∧ b.pending_change = false) ∧
      ns1._block_manager._next_block_id = INT64_MIN ∧
      ¬ ∀ id ∈ fileMax.blocks, id < ns1._block_manager._next_block_id :=
  ⟨by decide, fun _ _ => rfl, _, rfl, ⟨_, rfl, rfl, rfl, rfl⟩, by decide, by decide⟩

/-- C24, amended. The recovery loader rebuilds the index: for a file whose
block ids are pairwise distinct, without record and below `INT64_MAX`,
`RebuildBlockMapCallback` returns; afterwards every block id of the file has a
record with the version and the replica number of the file, not pending, with
empty `replica` and `pulling` sets, `next_block_id` is above every one of these
ids, and every other key, the repair queue and the safemode flag are as
before. -/
theorem RebuildBlockMapCallback_rebuilds (d : NSBlockInit) (ns : NameServerImpl)
    (file : FileInfo) (hnd : file.blocks.Nodup)
    (habs : ∀ id ∈ file.blocks, ns._block_manager._block_map id = none)
    (hmax : ∀ id ∈ file.blocks, id < INT64_MAX) :
    ∃ ns1, RebuildBlockMapCallback d ns file = some ns1 ∧
      (∀ id ∈ file.blocks, ∃ b, ns1._block_manager._block_map id = some b ∧
        b.version = file.version ∧ b.expect_replica_num = file.replicas ∧
        b.pending_change = false ∧ b.replica = ∅ ∧ b.pulling_chunkservers = ∅) ∧
      (∀ id ∈ file.blocks, id < ns1._block_manager._next_block_id) ∧
      (∀ j, j ∉ file.blocks →
        ns1._block_manager._block_map j = ns._block_manager._block_map j) ∧
      ns1._block_manager._blocks_to_replicate = ns._block_manager._blocks_to_replicate ∧
      ns1._safe_mode = ns._safe_mode := by
  obtain ⟨bm1, g1, g2, g3, g4, _, g6⟩ :=
    rebuild_loop d file.version file.replicas file.blocks ns._block_manager hnd habs hmax
  refine ⟨{ ns with _block_manager := bm1 }, ?_, ?_, g6, g3, g4, rfl⟩
  · simp only [RebuildBlockMapCallback, g1]
  · intro id hid
    exact ⟨_, g2 id hid, rfl, rfl, rfl, rfl, rfl⟩

/-- A witness of the amended C24: the file with blocks 7 and 8 is loaded into
the empty index. -/
theorem RebuildBlockMapCallback_rebuilds_witness :
    ∃ ns1, RebuildBlockMapCallback d0 ⟨init, true⟩ file78 = some ns1 ∧
      (∀ id ∈ file78.blocks, ∃ b, ns1._block_manager._block_map id = some b ∧
        b.version = file78.version ∧ b.expect_replica_num = file78.replicas ∧
        b.pending_change = false ∧ b.replica = ∅ ∧ b.pulling_chunkservers = ∅) ∧
      (∀ id ∈ file78.blocks, id < ns1._block_manager._next_block_id) ∧
      (∀ j, j ∉ file78.blocks → ns1._block_manager._block_map j = init._block_map j) ∧
      ns1._block_manager._blocks_to_replicate = init._blocks_to_replicate ∧
      ns1._safe_mode = true :=
  RebuildBlockMapCallback_rebuilds d0 ⟨init, true⟩ file78 (by decide)
    (fun _ _ => rfl) (by decide)

/-! ## Safemode -/

/-- In safemode the body of the loop over the reported blocks is
`UpdateBlockInfo` alone: it asks the roster for no chain and marks no pull. -/
theorem BlockReport_block_safemode (roster : Roster) (cs_id : Int) (i : Nat)
    (bm : BlockMapping) (response : BlockReportResponse) (block : ReportBlockInfo) :
    BlockReport.block true roster cs_id i bm response block =
      (if (UpdateBlockInfo bm block.block_id cs_id block.block_size block.version
          (some 0)).exit = .size_mismatch then none
       else if (UpdateBlockInfo bm block.block_id cs_id block.block_size block.version
          (some 0)).ret = false then
        some ((UpdateBlockInfo bm block.block_id cs_id block.block_size block.version
            (some 0)).state,
          { response with obsolete_blocks := response.obsolete_blocks ++ [block.block_id] })
       else
        some ((UpdateBlockInfo bm block.block_id cs_id block.block_size block.version
            (some 0)).state, response)) := by
  unfold BlockReport.block
  simp

/-- In safemode the loop over the reported blocks does not depend on the
roster. -/
theorem BlockReport_blocks_safemode_roster (roster roster2 : Roster) (cs_id : Int)
    (l : List ReportBlockInfo) :
    ∀ (i : Nat) (bm : BlockMapping) (response : BlockReportResponse),
      BlockReport.blocks true roster cs_id i l bm response =
        BlockReport.blocks true roster2 cs_id i l bm response := by
  induction l with
  | nil => intro i bm response; rfl
  | cons a rest ih =>
    intro i bm response
    simp only [BlockReport.blocks, BlockReport_block_safemode]
    split_ifs
    · rfl
    · exact ih _ _ _
    · exact ih _ _ _

/-- In safemode the loop over the reported blocks leaves the repair queue and
the pulling set of every record as they were. -/
theorem BlockReport_blocks_safemode_effect (roster : Roster) (cs_id : Int)
    (l : List ReportBlockInfo) :
    ∀ (i : Nat) (bm bm1 : BlockMapping) (response response1 : BlockReportResponse),
      BlockReport.blocks true roster cs_id i l bm response = some (bm1, response1) →
      bm1._blocks_to_replicate = bm._blocks_to_replicate ∧
      ∀ j b1, bm1._block_map j = some b1 →
        ∃ b, bm._block_map j = some b ∧ b1.pulling_chunkservers = b.pulling_chunkservers := by
  induction l with
  | nil =>
    intro i bm bm1 response response1 h
    simp only [BlockReport.blocks, Option.some.injEq, Prod.mk.injEq] at h
    obtain ⟨rfl, -⟩ := h
    exact ⟨rfl, fun j b1 hj => ⟨b1, hj, rfl⟩⟩
  | cons a rest ih =>
    intro i bm bm1 response response1 h
    obtain ⟨hq, -, hm⟩ :=
      UpdateBlockInfo_effect bm a.block_id cs_id a.block_size a.version (some 0)
    have key : ∀ resp2, BlockReport.blocks true roster cs_id (i + 1) rest
        (UpdateBlockInfo bm a.block_id cs_id a.block_size a.version (some 0)).state resp2 =
          some (bm1, response1) →
        bm1._blocks_to_replicate = bm._blocks_to_replicate ∧
        ∀ j b1, bm1._block_map j = some b1 →
          ∃ b, bm._block_map j = some b ∧
            b1.pulling_chunkservers = b.pulling_chunkservers := by
      intro resp2 h2
      obtain ⟨g1, g2⟩ := ih _ _ _ _ _ h2
      refine ⟨g1.trans hq, ?_⟩
      intro j b1 hj
      obtain ⟨b2, hb2, e2⟩ := g2 j b1 hj
      obtain ⟨b, hb, e⟩ := hm j b2 hb2
      refine ⟨b, hb, ?_⟩
      rcases e with e | ⟨-, e, -⟩
      · rw [e2, e]
      · rw [e2, e]
    simp only [BlockReport.blocks, BlockReport_block_safemode] at h
    split_ifs at h
    · exact key _ h
    · exact key _ h

/-- C25. Safemode suppresses repair: while `_safe_mode` is true the processing
of a reported block is `UpdateBlockInfo` alone, whatever the roster answers, so
the loop over the reported blocks gives the same result with any other roster;
and when `BlockReport` returns, the pulling set of every record is as before
and every entry of the repair queue was there before, with the same ids: no
pull was marked and the flag is still set. -/
theorem BlockReport_safemode_no_repair (ns : NameServerImpl) (version : Int) (roster : Roster)
    (request : BlockReportRequest) (hsafe : ns._safe_mode = true) :
    (∀ (roster2 : Roster) (cs_id : Int) (i : Nat) (bm : BlockMapping)
        (response : BlockReportResponse),
      BlockReport.blocks ns._safe_mode roster cs_id i request.blocks bm response =
        BlockReport.blocks ns._safe_mode roster2 cs_id i request.blocks bm response) ∧
    (∀ ns1 response, BlockReport ns version roster request = some (ns1, response) →
      (∀ j b1, ns1._block_manager._block_map j = some b1 →
        ∃ b, ns._block_manager._block_map j = some b ∧
          b1.pulling_chunkservers = b.pulling_chunkservers) ∧
      (∀ cs q, ns1._block_manager._blocks_to_replicate cs = some q →
        ns._block_manager._blocks_to_replicate cs = some q) ∧
      ns1._safe_mode = true) := by
  have same : ∀ (ns1 : NameServerImpl) (r1 r2 : BlockReportResponse),
      some (ns, r1) = some (ns1, r2) →
      (∀ j b1, ns1._block_manager._block_map j = some b1 →
        ∃ b, ns._block_manager._block_map j = some b ∧
          b1.pulling_chunkservers = b.pulling_chunkservers) ∧
      (∀ cs q, ns1._block_manager._blocks_to_replicate cs = some q →
        ns._block_manager._blocks_to_replicate cs = some q) ∧
      ns1._safe_mode = true := by
    intro ns1 r1 r2 h
    simp only [Option.some.injEq, Prod.mk.injEq] at h
    obtain ⟨rfl, -⟩ := h
    exact ⟨fun j b1 hj => ⟨b1, hj, rfl⟩, fun _ _ h => h, hsafe⟩
  have rec : ∀ cs_id resp0 ns1 response,
      BlockReport.reconcile ns roster cs_id request resp0 = some (ns1, response) →
      (∀ j b1, ns1._block_manager._block_map j = some b1 →
        ∃ b, ns._block_manager._block_map j = some b ∧
          b1.pulling_chunkservers = b.pulling_chunkservers) ∧
      (∀ cs q, ns1._block_manager._blocks_to_replicate cs = some q →
        ns._block_manager._blocks_to_replicate cs = some q) ∧
      ns1._safe_mode = true := by
    intro cs_id resp0 ns1 response h
    unfold BlockReport.reconcile at h
    rw [hsafe] at h
    cases hb : BlockReport.blocks true roster cs_id 0 request.blocks ns._block_manager
        resp0 with
    | none => rw [hb] at h; simp at h
    | some p =>
      obtain ⟨bm1, response1⟩ := p
      rw [hb] at h
      simp only at h
      obtain ⟨g1, g2⟩ := BlockReport_blocks_safemode_effect roster cs_id request.blocks
        0 _ _ _ _ hb
      cases hg : GetPullBlocks bm1 cs_id [] with
      | none => rw [hg] at h; simp at h
      | some t =>
        obtain ⟨bm2, got, pull_blocks⟩ := t
        rw [hg] at h
        simp only [Option.some.injEq, Prod.mk.injEq] at h
        obtain ⟨rfl, -⟩ := h
        obtain ⟨e1, -, e3⟩ := GetPullBlocks_effect _ _ _ _ _ _ hg
        refine ⟨?_, ?_, rfl⟩
        · intro j b1 hj
          simp only at hj
          rw [e1] at hj
          exact g2 j b1 hj
        · intro cs q hq
          simp only at hq
          rw [e3] at hq
          split_ifs at hq
          rw [← g1]
          exact hq
  refine ⟨?_, ?_⟩
  · intro roster2 cs_id i bm response
    rw [hsafe]
    exact BlockReport_blocks_safemode_roster roster roster2 cs_id request.blocks i bm response
  · intro ns1 response h
    unfold BlockReport at h
    simp only at h
    split_ifs at h
    · exact same _ _ _ h
    · exact same _ _ _ h
    · exact same _ _ _ h
    · exact rec _ _ _ _ h
    · exact rec _ _ _ _ h
    · exact same _ _ _ h
    · exact rec _ _ _ _ h

/-- Scenario of C20 in safemode, a witness of C25: chunkserver 1 reports the
under-replicated block 7 and the roster has a chain to offer; nobody is marked
as puller and nothing is queued for chunkserver 3. -/
theorem BlockReport_safemode_no_repair_witness :
    (∀ (roster2 : Roster) (cs_id : Int) (i : Nat) (bm : BlockMapping)
        (response : BlockReportResponse),
      BlockReport.blocks true chainABC cs_id i report7.blocks bm response =
        BlockReport.blocks true roster2 cs_id i report7.blocks bm response) ∧
    ∃ ns1 resp, BlockReport ⟨underReplicated, true⟩ 9 chainABC report7 = some (ns1, resp) ∧
      ((∀ j b1, ns1._block_manager._block_map j = some b1 →
        ∃ b, underReplicated._block_map j = some b ∧
          b1.pulling_chunkservers = b.pulling_chunkservers) ∧
      (∀ cs q, ns1._block_manager._blocks_to_replicate cs = some q →
        underReplicated._blocks_to_replicate cs = some q) ∧
      ns1._safe_mode = true) ∧
      ns1._block_manager._blocks_to_replicate 3 = none ∧
      ∃ b, ns1._block_manager._block_map 7 = some b ∧ b.pulling_chunkservers = ∅ :=
  ⟨(BlockReport_safemode_no_repair ⟨underReplicated, true⟩ 9 chainABC report7 rfl).1,
   _, _, rfl,
   (BlockReport_safemode_no_repair ⟨underReplicated, true⟩ 9 chainABC report7 rfl).2 _ _ rfl,
   rfl, _, rfl, rfl⟩

/-! ## ChangeReplicaNum -/

/-- C26. The handler `ChangeReplicaNum` addresses the index by the entry id of
the file. For an absent file it answers 404 and calls neither the namespace
update nor the index. For an existing file whose update the namespace accepts,
the record handed to `UpdateFileInfo` is the file with `replicas = n` and the
index is called with the key `file.entry_id` and `n`: the handler returns
exactly when that key has a record, then with status 0 and only that record
changed, in its `expect_replica_num`; so when no block id of the file equals its
entry id, the record of every block of the file is as before. -/
theorem ChangeReplicaNum_by_entry_id (ns : NameServerImpl) (nsp : NameSpace) (seq : Int)
    (file_name : String) (n : Int) :
    (nsp.GetFileInfo file_name = none →
      NameServerImpl.ChangeReplicaNum ns nsp seq file_name n =
        ⟨none, none, some (ns, ⟨seq, 404⟩)⟩) ∧
    (∀ file, nsp.GetFileInfo file_name = some file →
      nsp.UpdateFileInfo { file with replicas := n } = true →
      (NameServerImpl.ChangeReplicaNum ns nsp seq file_name n).namespace_update =
          some { file with replicas := n } ∧
      (NameServerImpl.ChangeReplicaNum ns nsp seq file_name n).index_call =
          some (file.entry_id, n) ∧
      (∀ b, ns._block_manager._block_map file.entry_id = some b →
        (NameServerImpl.ChangeReplicaNum ns nsp seq file_name n).outcome =
          some ({ ns with _block_manager := { ns._block_manager with
              _block_map := (store ns._block_manager._block_map file.entry_id
                ({ b with expect_replica_num := n } : NSBlock)) } }, ⟨seq, 0⟩)) ∧
      (ns._block_manager._block_map file.entry_id = none →
        (NameServerImpl.ChangeReplicaNum ns nsp seq file_name n).outcome = none) ∧
      (∀ ns1 resp, (NameServerImpl.ChangeReplicaNum ns nsp seq file_name n).outcome =
          some (ns1, resp) →
        resp.status = 0 ∧
        (∀ j, j ≠ file.entry_id →
          ns1._block_manager._block_map j = ns._block_manager._block_map j) ∧
        (file.entry_id ∉ file.blocks → ∀ id ∈ file.blocks,
          ns1._block_manager._block_map id = ns._block_manager._block_map id))) := by
  refine ⟨?_, ?_⟩
  · intro h
    simp only [NameServerImpl.ChangeReplicaNum, h]
  · intro file hf hu
    have hsome : ∀ b, ns._block_manager._block_map file.entry_id = some b →
        (NameServerImpl.ChangeReplicaNum ns nsp seq file_name n).outcome =
          some ({ ns with _block_manager := { ns._block_manager with
              _block_map := (store ns._block_manager._block_map file.entry_id
                ({ b with expect_replica_num := n } : NSBlock)) } }, ⟨seq, 0⟩) := by
      intro b hb
      simp [NameServerImpl.ChangeReplicaNum, hf, hu, BlockMapping.ChangeReplicaNum, hb]
    have hnone : ns._block_manager._block_map file.entry_id = none →
        (NameServerImpl.ChangeReplicaNum ns nsp seq file_name n).outcome = none := by
      intro hb
      simp [NameServerImpl.ChangeReplicaNum, hf, hu, BlockMapping.ChangeReplicaNum, hb]
    have hret : ∀ ns1 resp, (NameServerImpl.ChangeReplicaNum ns nsp seq file_name n).outcome =
        some (ns1, resp) →
        resp.status = 0 ∧ ∀ j, j ≠ file.entry_id →
          ns1._block_manager._block_map j = ns._block_manager._block_map j := by
      intro ns1 resp h
      cases hb : ns._block_manager._block_map file.entry_id with
      | none => rw [hnone hb] at h; simp at h
      | some b =>
        rw [hsome b hb] at h
        simp only [Option.some.injEq, Prod.mk.injEq] at h
        obtain ⟨rfl, rfl⟩ := h
        exact ⟨rfl, fun j hj => store_other _ _ _ _ hj⟩
    refine ⟨?_, ?_, hsome, hnone, ?_⟩
    · simp [NameServerImpl.ChangeReplicaNum, hf, hu]
    · simp [NameServerImpl.ChangeReplicaNum, hf, hu]
    · intro ns1 resp h
      obtain ⟨g1, g2⟩ := hret ns1 resp h
      refine ⟨g1, g2, ?_⟩
      intro hne id hid
      exact g2 id (fun e => hne (e ▸ hid))

/-- A witness of C26: the file with entry 3 and blocks 7 and 8 is set to five
replicas on an index that has a record under the key 3. The record under 3 is
changed; block 7 of the file still expects three replicas. -/
theorem ChangeReplicaNum_by_entry_id_witness :
    (NameServerImpl.ChangeReplicaNum keyed3 holdsG 0 "/g" 5).namespace_update =
        some { file78 with replicas := 5 } ∧
    (NameServerImpl.ChangeReplicaNum keyed3 holdsG 0 "/g" 5).index_call = some (3, 5) ∧
    (∃ ns1 resp, (NameServerImpl.ChangeReplicaNum keyed3 holdsG 0 "/g" 5).outcome =
        some (ns1, resp) ∧ resp.status = 0 ∧
      (∃ b, ns1._block_manager._block_map 3 = some b ∧ b.expect_replica_num = 5) ∧
      ∃ b, ns1._block_manager._block_map 7 = some b ∧ b.expect_replica_num = 3) ∧
    (NameServerImpl.ChangeReplicaNum ⟨underReplicated, false⟩ holdsG 0 "/g" 5).outcome = none :=
  ⟨((ChangeReplicaNum_by_entry_id keyed3 holdsG 0 "/g" 5).2 file78 rfl rfl).1,
   ((ChangeReplicaNum_by_entry_id keyed3 holdsG 0 "/g" 5).2 file78 rfl rfl).2.1,
   ⟨_, _, rfl, rfl, ⟨_, rfl, rfl⟩, _, rfl, rfl⟩, rfl⟩

/-! ## A rejected report of a listed holder -/

/-- A report that `UpdateBlockInfo` rejects leaves the reporter in `replica`
exactly when the rejection is the version check and the reporter was listed
before. -/
theorem UpdateBlockInfo_reject_membership (s : BlockMapping) (id cs size ver : Int)
    (m : Option Int) (b : NSBlock) (hb : s._block_map id = some b)
    (hrej : (UpdateBlockInfo s id cs size ver m).ret = false)
    (hsize : (UpdateBlockInfo s id cs size ver m).exit ≠ .size_mismatch) :
    ∃ b1, (UpdateBlockInfo s id cs size ver m).state._block_map id = some b1 ∧
      (cs ∈ b1.replica ↔
        (UpdateBlockInfo s id cs size ver m).exit = .version_mismatch ∧ cs ∈ b.replica) := by
  have step : ∀ b0 : NSBlock,
      (UpdateBlockInfo.replicaStep s id cs b0 m).ret = false →
      ∃ b1, (UpdateBlockInfo.replicaStep s id cs b0 m).state._block_map id = some b1 ∧
        (cs ∈ b1.replica ↔
          (UpdateBlockInfo.replicaStep s id cs b0 m).exit = .version_mismatch ∧
            cs ∈ b.replica) := by
    intro b0 h
    unfold UpdateBlockInfo.replicaStep at h ⊢
    simp only at h ⊢
    split_ifs at h ⊢
    exact ⟨_, store_same _ _ _, by simp⟩
  unfold UpdateBlockInfo at hrej hsize ⊢
  rw [hb] at hrej hsize ⊢
  simp only at hrej hsize ⊢
  split_ifs at hrej hsize ⊢
  · exact ⟨b, hb, by simp⟩
  · exact absurd rfl hsize
  · exact step _ hrej
  · exact step _ hrej

/-- C28 at its failing input: block 1 is seeded on chunkservers 1, 2 and 3 and
sealed at version 42 by `FinishBlock`; chunkserver 1 then reports it at version
41. `UpdateBlockInfo` rejects the report through the version check and
`BlockReport` lists block 1 as obsolete for chunkserver 1, yet chunkserver 1 is
still a member of the replica set of block 1. -/
theorem UpdateBlockInfo_stale_holder_stays :
    (∃ b, (FinishBlock allocated1 0 1 42).1._block_manager._block_map 1 = some b ∧
      b.version = 42 ∧ (1 : Int) ∈ b.replica) ∧
    (UpdateBlockInfo (FinishBlock allocated1 0 1 42).1._block_manager 1 1 0 41 (some 0)).ret =
      false ∧
    (UpdateBlockInfo (FinishBlock allocated1 0 1 42).1._block_manager 1 1 0 41 (some 0)).exit =
      .version_mismatch ∧
    (∃ b1, (UpdateBlockInfo (FinishBlock allocated1 0 1 42).1._block_manager 1 1 0 41
        (some 0)).state._block_map 1 = some b1 ∧ (1 : Int) ∈ b1.replica) ∧
    ∃ ns1 resp, BlockReport (FinishBlock allocated1 0 1 42).1 9 noChain
        { chunkserver_id := 1, namespace_version := 9, is_complete := true,
          blocks := [{ block_id := 1, block_size := 0, version := 41 }] } = some (ns1, resp) ∧
      resp.obsolete_blocks = [1] ∧
      ∃ b2, ns1._block_manager._block_map 1 = some b2 ∧ (1 : Int) ∈ b2.replica :=
  ⟨⟨_, rfl, rfl, by decide⟩, by decide, by decide, ⟨_, rfl, by decide⟩,
    _, _, rfl, rfl, _, rfl, by decide⟩

end NameServerImpl

end bfs
